import Mathlib

/-!
The repository database_backup: configuration loading and the backup lifecycle.

A shallow embedding of `src/src/config.cpp` and `src/src/backup_manager.cpp`.

Conventions of the embedding:
* `std::string` is `List Char`; string literals are written `"...".toList`.
* A C++ exception is a value of `Error` (its class and its `what()` text); code that may
  throw returns `Except Error _`.
* A string iterator is an offset into the string it points to, valid as long as the
  string stays in its storage; a run that uses an iterator after the string has moved
  ends in an `Error` of kind `UndefinedBehaviour`, which stands for no exception.
-/

namespace dbbackup

/-! ## Errors -/

/-- The exception classes the code throws (`dbbackup::error`), together with the two
foreign exception classes that can arise in it: `nlohmann::json::type_error` and
`std::filesystem::filesystem_error`. The last kind is no exception: it marks a run that
has left what C++ defines (the use of an invalidated iterator). It is carried in the
place of an exception so that no result is ascribed to such a run; what the program
does from there on is not described. -/
inductive ErrorKind where
  | ConfigurationError
  | ValidationError
  | ConnectionError
  | BackupError
  | RestoreError
  | CompressionError
  | StorageError
  | JsonTypeError
  | FilesystemError
  | UndefinedBehaviour
  deriving DecidableEq, Repr

/-- An exception: its class and the text passed to it. -/
structure Error where
  kind : ErrorKind
  message : List Char
  deriving DecidableEq, Repr

/-- What a call of a C++ function ends in: a returned value or a propagating exception. -/
inductive Outcome (α : Type) where
  | returned (a : α)
  | threw (e : Error)
  deriving DecidableEq, Repr

deriving instance DecidableEq for Except

/-- Modelled from the spec: the macro `DB_THROW(ErrorType, message)` of
`error/ErrorUtils.hpp`, which is not among the sources. It throws an `ErrorType` carrying
`message`. -/
def DB_THROW {α : Type} (kind : ErrorKind) (message : List Char) : Except Error α :=
  .error ⟨kind, message⟩

/-- Modelled from the spec: the macro `DB_CHECK(condition, ErrorType, message)` of
`error/ErrorUtils.hpp`, which is not among the sources. It throws as `DB_THROW` does
unless `condition` holds. -/
def DB_CHECK (condition : Bool) (kind : ErrorKind) (message : List Char) : Except Error Unit :=
  if condition then .ok () else DB_THROW kind message

/-- Modelled from the spec: the macro `DB_TRY_CATCH_LOG(component, block)` of
`error/ErrorUtils.hpp`, which is not among the sources. It runs `block` inside `try` and
logs an exception it catches. What its handler does after logging is the parameter
`rethrows`: with `true` the exception propagates to the caller (so the statement after
the macro is never reached, as the comment in `Config::fromFile` says), with `false`
control falls through to the statement after the macro, which returns `after` (as the
comments in `BackupManager` say). -/
def DB_TRY_CATCH_LOG {α : Type} (rethrows : Bool) (block : Except Error α) (after : α) :
    Outcome α :=
  match block with
  | .ok a => .returned a
  | .error e => if rethrows then .threw e else .returned after

/-! ## `Config::substituteEnvVars` (config.cpp, lines 13-37) -/

/-- The character class `[A-Za-z_]`. -/
def isIdentStart (c : Char) : Bool :=
  ('A' ≤ c && c ≤ 'Z') || ('a' ≤ c && c ≤ 'z') || c == '_'

/-- The character class `[A-Za-z0-9_]`. -/
def isIdentChar (c : Char) : Bool :=
  ('A' ≤ c && c ≤ 'Z') || ('a' ≤ c && c ≤ 'z') || ('0' ≤ c && c ≤ '9') || c == '_'

/-- A match of `env_var_pattern`, `\$\{([A-Za-z_][A-Za-z0-9_]*)\}`, anchored at the head
of the text: the length of the match and the text of group 1. The star is greedy and
`}` is outside its class, so there is at most one match at a position. -/
def matchHere : List Char → Option (Nat × List Char)
  | a :: b :: c :: rest =>
    if a = '$' ∧ b = '{' ∧ isIdentStart c = true then
      match rest.dropWhile isIdentChar with
      | d :: _ =>
        if d = '}' then
          some (3 + (rest.takeWhile isIdentChar).length + 1, c :: rest.takeWhile isIdentChar)
        else none
      | [] => none
    else none
  | _ => none

/-- What `std::regex_search(first, last, match, env_var_pattern)` finds in the text
`[first, last)`: for the leftmost match, `match.position()` (relative to `first`),
`match.length()` and `match[1].str()`; `none` when the search fails. -/
def regexSearch : List Char → Option (Nat × Nat × List Char)
  | [] => none
  | c :: cs =>
    match matchHere (c :: cs) with
    | some (len, name) => some (0, len, name)
    | none =>
      match regexSearch cs with
      | some (pos, len, name) => some (pos + 1, len, name)
      | none => none

/-- A match is not empty and lies inside the text: what the termination of the loop of
`substituteEnvVars` rests on. -/
theorem matchHere_bound {s : List Char} {len : Nat} {name : List Char}
    (h : matchHere s = some (len, name)) : 0 < len ∧ len ≤ s.length := by
  match s, h with
  | a :: b :: c :: rest, h =>
    simp only [matchHere] at h
    split at h
    · split at h
      · rename_i d tl hd
        split at h
        · simp only [Option.some.injEq, Prod.mk.injEq] at h
          have h1 := congrArg List.length (List.takeWhile_append_dropWhile isIdentChar rest)
          rw [hd] at h1
          simp only [List.length_append, List.length_cons] at h1
          simp only [List.length_cons]
          omega
        · simp at h
      · simp at h
    · simp at h

/-- The match a search finds is not empty and lies inside the searched text. -/
theorem regexSearch_bound {s : List Char} {pos len : Nat} {name : List Char}
    (h : regexSearch s = some (pos, len, name)) : 0 < len ∧ pos + len ≤ s.length := by
  induction s generalizing pos with
  | nil => simp [regexSearch] at h
  | cons c cs ih =>
    simp only [regexSearch] at h
    split at h
    · rename_i l n hm
      simp only [Option.some.injEq, Prod.mk.injEq] at h
      obtain ⟨rfl, rfl, rfl⟩ := h
      have := matchHere_bound hm
      omega
    · split at h
      · rename_i p l n hr
        simp only [Option.some.injEq, Prod.mk.injEq] at h
        obtain ⟨rfl, rfl, rfl⟩ := h
        have := ih hr
        simp only [List.length_cons]
        omega
      · simp at h

/-- The environment of the process: `std::getenv(name)` gives `none` for the null pointer
and otherwise the text of the C string it points to, so `strlen` of it is its length. -/
abbrev Env := List Char → Option (List Char)

/-- Modelled from the library (libstdc++ `basic_string`, outside the repository): the
capacity of the copy `std::string result = value` of line 15. The copy lives in the 15
characters of the string object itself, or in an allocation of exactly the size of
`value` when that is more. -/
def basic_string.capacity (value : List Char) : Nat := max 15 value.length

/-- The mark of a run that has used an iterator invalidated by `std::string::replace`. -/
def invalidatedIterator : Error :=
  ⟨.UndefinedBehaviour, "iterator invalidated by std::string::replace".toList⟩

/-- The `while` loop of `Config::substituteEnvVars` (lines 19-34) on its two variables
`result` and `searchStart`, the latter as an offset into `result`, and the `capacity` of
`result`. One turn searches `[searchStart, result.cend())`, looks the name up, throws
when it is unset and `required`, and replaces the match by the value (line 32). The
library replaces in place when the new size is within the capacity, and then the
iterator `replaceStart` taken on line 31 still points to the start of the inserted text,
so that line 33 moves `searchStart` behind the inserted text. When the new size exceeds
the capacity the library moves the string to new storage: `replaceStart` is invalid when
line 33 reads it, and the run has left what C++ defines. -/
def substituteEnvVars.loop (env : Env) (required : Bool) (capacity : Nat)
    (result : List Char) (searchStart : Nat) : Except Error (List Char) :=
  match _h : regexSearch (result.drop searchStart) with
  | none => .ok result
  | some (position, length, env_var_name) =>
    if (env env_var_name).isNone && required then
      DB_THROW .ConfigurationError ("Environment variable not set: ".toList ++ env_var_name)
    else
      -- the value, or "" for an unset variable that is not required
      let env_var_value := (env env_var_name).getD []
      let replaceStart := searchStart + position
      if capacity < (result.take replaceStart ++ env_var_value ++
          result.drop (replaceStart + length)).length then
        .error invalidatedIterator
      else
        substituteEnvVars.loop env required capacity
          (result.take replaceStart ++ env_var_value ++ result.drop (replaceStart + length))
          (replaceStart + env_var_value.length)
termination_by result.length - searchStart
decreasing_by
  have hb := regexSearch_bound _h
  simp only [List.length_drop] at hb
  simp only [List.length_append, List.length_take, List.length_drop]
  omega

/-- `Config::substituteEnvVars(value, required)`: the loop on the copy `result` of
`value`, from `searchStart = result.cbegin()`. -/
def substituteEnvVars (env : Env) (value : List Char) (required : Bool) :
    Except Error (List Char) :=
  substituteEnvVars.loop env required (basic_string.capacity value) value 0

/-! ### The contract of `substituteEnvVars`, in the words of the specification -/

/-- An identifier, `[A-Za-z_][A-Za-z0-9_]*`: the syntax of a placeholder's NAME. -/
def isIdentifier : List Char → Bool
  | [] => false
  | c :: cs => isIdentStart c && cs.all isIdentChar

/-- The NAME of the placeholder `${NAME}` that stands at the head of the text, if one
does: the text opens with `${`, NAME is what follows up to the first `}`, and NAME is an
identifier. -/
def placeholderAt : List Char → Option (List Char)
  | a :: b :: rest =>
    if a = '$' ∧ b = '{' ∧ isIdentifier (rest.takeWhile (fun c => c != '}')) = true
        ∧ (rest.dropWhile (fun c => c != '}')).head? = some '}' then
      some (rest.takeWhile (fun c => c != '}'))
    else none
  | _ => none

/-- A piece of a configuration value: a character outside every placeholder, or a
placeholder. -/
inductive Piece where
  | text (c : Char)
  | placeholder (name : List Char)
  deriving DecidableEq, Repr

/-- The text of the value that a piece stands for. -/
def Piece.source : Piece → List Char
  | Piece.text c => [c]
  | Piece.placeholder name => '$' :: '{' :: (name ++ ['}'])

/-- What a piece becomes: a placeholder becomes the environment's value of its name, or
the empty string when the name is unset; other text stays. -/
def Piece.replaced (env : Env) : Piece → List Char
  | Piece.text c => [c]
  | Piece.placeholder name => (env name).getD []

/-- The value cut into its pieces, scanning left to right: at each position the
placeholder standing there is taken (the leftmost one, and the next scan starts behind
it, so the occurrences do not overlap), otherwise the character is. `skip` counts the
characters still to pass that belong to the placeholder taken last. -/
def piecesFrom : Nat → List Char → List Piece
  | _, [] => []
  | skip + 1, _ :: cs => piecesFrom skip cs
  | 0, c :: cs =>
    match placeholderAt (c :: cs) with
    | some name => Piece.placeholder name :: piecesFrom (name.length + 2) cs
    | none => Piece.text c :: piecesFrom 0 cs

/-- The pieces of a value. -/
def pieces (value : List Char) : List Piece := piecesFrom 0 value

/-- The names of the placeholders of a value, leftmost first. -/
def placeholders (value : List Char) : List (List Char) :=
  (pieces value).filterMap fun
    | Piece.placeholder name => some name
    | Piece.text _ => none

/-- The value with every placeholder replaced by the environment's value of its name
(by the empty string when the name is unset) and all other text unchanged. -/
def expand (env : Env) (value : List Char) : List Char :=
  (pieces value).flatMap (Piece.replaced env)

/-- The leftmost placeholder of the value whose name is unset in the environment. -/
def firstUnset (env : Env) (value : List Char) : Option (List Char) :=
  (placeholders value).find? fun name => (env name).isNone

/-- The contract of section 4.1 as a function: fail with a ConfigurationError naming the
leftmost unset variable when `required`, otherwise the expanded value. -/
def substituteSpec (env : Env) (value : List Char) (required : Bool) :
    Except Error (List Char) :=
  match (if required then firstUnset env value else none) with
  | some name =>
    .error ⟨.ConfigurationError, "Environment variable not set: ".toList ++ name⟩
  | none => .ok (expand env value)

/-- Whether the replacements the loop makes leave the string within `capacity`, told
from the pieces of the text still to search and the `size` of the whole string: a
placeholder that is unset and required ends the run before any replacement; any other
placeholder `${NAME}`, of `NAME.length + 3` characters, is replaced by its text, and the
new size has to be within the capacity. -/
def staysWithin (env : Env) (required : Bool) (capacity : Nat) : Nat → List Piece → Bool
  | _, [] => true
  | size, Piece.text _ :: rest => staysWithin env required capacity size rest
  | size, Piece.placeholder name :: rest =>
    if (env name).isNone && required then true
    else
      decide (size + ((env name).getD []).length - (name.length + 3) ≤ capacity) &&
        staysWithin env required capacity
          (size + ((env name).getD []).length - (name.length + 3)) rest

/-- Whether a call of `substituteEnvVars` stays within the capacity of its copy of
`value` at every replacement it makes. -/
def replacesInPlace (env : Env) (value : List Char) (required : Bool) : Bool :=
  staysWithin env required (basic_string.capacity value) value.length (pieces value)

/-- The environment of the specification's example with both variables set:
`A=foo`, `B=bar`. -/
def envFooBar : Env := fun name =>
  if name = "A".toList then some "foo".toList
  else if name = "B".toList then some "bar".toList
  else none

/-- The environment of the specification's example with `A=foo` set and `B` unset. -/
def envFoo : Env := fun name =>
  if name = "A".toList then some "foo".toList else none

/-! ## JSON documents (`nlohmann::json`, a library outside the repository) -/

/-- A parsed JSON value. A number is kept as the `int` that `get<int>()` converts it to,
the only way the code reads one. -/
inductive Json where
  | null
  | boolean (b : Bool)
  | number (n : Int)
  | string (s : List Char)
  | array (elements : List Json)
  | object (members : List (List Char × Json))

/-- The exception `nlohmann::json::type_error`. -/
def Json.type_error (what : String) : Error := ⟨.JsonTypeError, what.toList⟩

/-- Member lookup `find(key)`: `none` on a value that is not an object. -/
def Json.find : Json → List Char → Option Json
  | .object members, key => members.lookup key
  | _, _ => none

/-- Call `j.contains(key)`: false on a value that is not an object. -/
def Json.contains (j : Json) (key : List Char) : Bool := (j.find key).isSome

/-- Access `j[key]`. The code reads a member only behind `contains(key)`, so the member
exists wherever this is used; `null` stands for the other case. -/
def Json.get (j : Json) (key : List Char) : Json := (j.find key).getD .null

/-- Conversion `get<std::string>()`: a type_error on a value that is not a string. -/
def Json.getString : Json → Except Error (List Char)
  | .string s => .ok s
  | _ => .error (Json.type_error "type must be string")

/-- Conversion `get<int>()`: a number converts, and so does a boolean (to 0 or 1); a
type_error on any other value. -/
def Json.getInt : Json → Except Error Int
  | .number n => .ok n
  | .boolean b => .ok (if b then 1 else 0)
  | _ => .error (Json.type_error "type must be number")

/-- Conversion `get<bool>()`: a type_error on a value that is not a boolean. -/
def Json.getBool : Json → Except Error Bool
  | .boolean b => .ok b
  | _ => .error (Json.type_error "type must be boolean")

/-- Call `j.value(key, default_value)` with the conversion of the default's type: the
converted member when the object has it, the default when it has not, a type_error on a
value that is not an object. -/
def Json.value {α : Type} (convert : Json → Except Error α) (j : Json) (key : List Char)
    (default_value : α) : Except Error α :=
  match j with
  | .object members =>
    match members.lookup key with
    | some v => convert v
    | none => .ok default_value
  | _ => .error (Json.type_error "cannot use value() with this type")

/-- The elements a range-`for` over the value visits: those of an array, the member
values of an object, none for `null`, the value itself for any other. -/
def Json.elements : Json → List Json
  | .array elements => elements
  | .object members => members.map Prod.snd
  | .null => []
  | j => [j]

/-- The pairs `items()` visits: the members of an object, the elements of an array under
their indices, none for `null`, the value itself under the empty key for any other. -/
def Json.items : Json → List (List Char × Json)
  | .object members => members
  | .array elements => elements.enum.map fun p => ((Nat.repr p.1).toList, p.2)
  | .null => []
  | j => [([], j)]

/-! ## The configuration model (`config.hpp`, not among the sources: the fields are
those `config.cpp` and `backup_manager.cpp` use) -/

/-- The enum `CredentialSource`. -/
inductive CredentialSource where
  | Environment
  | File
  | KeyStore
  | ConfigFile
  | SSM
  | Vault
  deriving DecidableEq, Repr

structure CredentialConfig where
  username : List Char
  passwordKey : List Char
  preferredSources : List CredentialSource
  deriving DecidableEq, Repr

structure DatabaseConfig where
  type : List Char
  host : List Char
  port : Int
  username : List Char
  password : List Char
  database : List Char
  credentials : CredentialConfig
  deriving DecidableEq, Repr

structure CompressionConfig where
  enabled : Bool
  format : List Char
  level : List Char
  deriving DecidableEq, Repr

structure RetentionConfig where
  days : Int
  maxBackups : Int
  deriving DecidableEq, Repr

structure ScheduleConfig where
  enabled : Bool
  cron : List Char
  deriving DecidableEq, Repr

structure BackupConfig where
  compression : CompressionConfig
  retention : RetentionConfig
  schedule : ScheduleConfig
  deriving DecidableEq, Repr

/-- The storage section. `backup` is the pointer of the code as a flag: true once it
has been set to the address of the configuration's own `backup` section. -/
structure StorageConfig where
  localPath : List Char
  cloudProvider : List Char
  cloudPath : List Char
  backup : Bool
  deriving DecidableEq, Repr

structure LoggingConfig where
  logPath : List Char
  logLevel : List Char
  enableNotifications : Bool
  notificationEndpoint : List Char
  deriving DecidableEq, Repr

structure EncryptionConfig where
  enabled : Bool
  algorithm : List Char
  keyPath : List Char
  deriving DecidableEq, Repr

/-- The credential store section; `options` is the `std::map` as its list of entries. -/
structure CredentialStoreConfig where
  enabled : Bool
  type : List Char
  path : List Char
  keyPrefix : List Char
  options : List (List Char × List Char)
  deriving DecidableEq, Repr

structure SecurityConfig where
  encryption : EncryptionConfig
  credentialStore : CredentialStoreConfig
  deriving DecidableEq, Repr

/-- Modelled from the spec: the struct `Config` of `config.hpp`, which is not among the
sources, with its member structs above: the settings of section 3, under the names by
which `config.cpp` and `backup_manager.cpp` use them. -/
structure Config where
  database : DatabaseConfig
  storage : StorageConfig
  logging : LoggingConfig
  backup : BackupConfig
  security : SecurityConfig
  deriving DecidableEq, Repr

/-- Assignment `m[key] = value` on a `std::map`: the entry of `key` is replaced, or
added when there is none. -/
def mapAssign (m : List (List Char × List Char)) (key value : List Char) :
    List (List Char × List Char) :=
  if m.any (fun e => e.1 == key) then
    m.map fun e => if e.1 == key then (key, value) else e
  else m ++ [(key, value)]

/-! ## `Config::fromFile` (config.cpp, lines 39-301)

The function is one guarded block; it is given here section by section, each section a
function from the `config` built so far to the `config` after it. -/

/-- The loop over `credConfig["preferredSources"]` (lines 106-123): every token is pushed
as its `CredentialSource`; a token that is none of the six throws. `sources` is
`config.database.credentials.preferredSources`. -/
def fromFile.preferredSources :
    List Json → List CredentialSource → Except Error (List CredentialSource)
  | [], sources => .ok sources
  | source :: rest, sources => do
    let sourceStr ← source.getString
    if sourceStr = "environment".toList then
      fromFile.preferredSources rest (sources ++ [CredentialSource.Environment])
    else if sourceStr = "file".toList then
      fromFile.preferredSources rest (sources ++ [CredentialSource.File])
    else if sourceStr = "keystore".toList then
      fromFile.preferredSources rest (sources ++ [CredentialSource.KeyStore])
    else if sourceStr = "config".toList then
      fromFile.preferredSources rest (sources ++ [CredentialSource.ConfigFile])
    else if sourceStr = "ssm".toList then
      fromFile.preferredSources rest (sources ++ [CredentialSource.SSM])
    else if sourceStr = "vault".toList then
      fromFile.preferredSources rest (sources ++ [CredentialSource.Vault])
    else
      DB_THROW .ConfigurationError ("Invalid credential source: ".toList ++ sourceStr)

/-- Lines 56-83: the `database` section up to the credentials. -/
def fromFile.database (env : Env) (configJson : Json) (config : Config) :
    Except Error Config := do
  let mut config := config
  DB_CHECK (configJson.contains "database".toList) .ConfigurationError
    "Missing 'database' section in config".toList
  let dbConfig := configJson.get "database".toList
  DB_CHECK (dbConfig.contains "type".toList) .ConfigurationError
    "Missing database type".toList
  let type ← (dbConfig.get "type".toList).getString
  config := { config with database.type := type }
  -- SQLite only needs the database file path
  if config.database.type = "sqlite".toList then
    DB_CHECK (dbConfig.contains "database".toList) .ConfigurationError
      "Missing SQLite database file path".toList
    let database ← substituteEnvVars env (← (dbConfig.get "database".toList).getString) true
    config := { config with database.database := database }
  else
    -- Other databases need host and port
    DB_CHECK (dbConfig.contains "host".toList) .ConfigurationError
      "Missing database host".toList
    DB_CHECK (dbConfig.contains "port".toList) .ConfigurationError
      "Missing database port".toList
    let host ← (dbConfig.get "host".toList).getString
    config := { config with database.host := host }
    let port ← (dbConfig.get "port".toList).getInt
    config := { config with database.port := port }
    if dbConfig.contains "username".toList then
      let username ←
        substituteEnvVars env (← (dbConfig.get "username".toList).getString) true
      config := { config with database.username := username }
    if dbConfig.contains "password".toList then
      let password ←
        substituteEnvVars env (← (dbConfig.get "password".toList).getString) true
      config := { config with database.password := password }
    if dbConfig.contains "database".toList then
      let database ← (dbConfig.get "database".toList).getString
      config := { config with database.database := database }
  return config

/-- Lines 85-138: the credentials of the database. -/
def fromFile.credentials (env : Env) (dbConfig : Json) (config : Config) :
    Except Error Config := do
  let mut config := config
  if dbConfig.contains "credentials".toList then
    let credConfig := dbConfig.get "credentials".toList
    if credConfig.contains "username".toList then
      let username ←
        substituteEnvVars env (← (credConfig.get "username".toList).getString) true
      config := { config with database.credentials.username := username }
    if credConfig.contains "passwordKey".toList then
      let passwordKey ← (credConfig.get "passwordKey".toList).getString
      config := { config with database.credentials.passwordKey := passwordKey }
    else
      -- Default password key based on database type and username
      config := { config with database.credentials.passwordKey :=
        "hegemon.".toList ++ config.database.type ++ ".".toList ++
          config.database.credentials.username ++ ".password".toList }
    if credConfig.contains "preferredSources".toList then
      let sources ← fromFile.preferredSources
        (credConfig.get "preferredSources".toList).elements
        config.database.credentials.preferredSources
      config := { config with database.credentials.preferredSources := sources }
  else
    -- If no credentials section, try to get username from root database config
    if dbConfig.contains "username".toList then
      let username ←
        substituteEnvVars env (← (dbConfig.get "username".toList).getString) true
      config := { config with database.credentials.username := username }
    -- Set default password key
    config := { config with database.credentials.passwordKey :=
      "hegemon.".toList ++ config.database.type ++ ".".toList ++
        config.database.credentials.username ++ ".password".toList }
  return config

/-- Lines 140-152: the `storage` section. -/
def fromFile.storage (configJson : Json) (config : Config) : Except Error Config := do
  let mut config := config
  DB_CHECK (configJson.contains "storage".toList) .ConfigurationError
    "Missing 'storage' section in config".toList
  let storageConfig := configJson.get "storage".toList
  DB_CHECK (storageConfig.contains "localPath".toList) .ConfigurationError
    "Missing storage local path".toList
  let localPath ← (storageConfig.get "localPath".toList).getString
  config := { config with storage.localPath := localPath }
  if storageConfig.contains "cloudProvider".toList then
    let cloudProvider ← (storageConfig.get "cloudProvider".toList).getString
    config := { config with storage.cloudProvider := cloudProvider }
  if storageConfig.contains "cloudPath".toList then
    let cloudPath ← (storageConfig.get "cloudPath".toList).getString
    config := { config with storage.cloudPath := cloudPath }
  return config

/-- Lines 154-172: the `logging` section. -/
def fromFile.logging (env : Env) (configJson : Json) (config : Config) :
    Except Error Config := do
  let mut config := config
  DB_CHECK (configJson.contains "logging".toList) .ConfigurationError
    "Missing 'logging' section in config".toList
  let loggingConfig := configJson.get "logging".toList
  DB_CHECK (loggingConfig.contains "logPath".toList) .ConfigurationError
    "Missing log path".toList
  DB_CHECK (loggingConfig.contains "logLevel".toList) .ConfigurationError
    "Missing log level".toList
  let logPath ← (loggingConfig.get "logPath".toList).getString
  config := { config with logging.logPath := logPath }
  let logLevel ← (loggingConfig.get "logLevel".toList).getString
  config := { config with logging.logLevel := logLevel }
  if loggingConfig.contains "enableNotifications".toList then
    let enableNotifications ← (loggingConfig.get "enableNotifications".toList).getBool
    config := { config with logging.enableNotifications := enableNotifications }
  if loggingConfig.contains "notificationEndpoint".toList
      && config.logging.enableNotifications then
    let notificationEndpoint ← substituteEnvVars env
      (← (loggingConfig.get "notificationEndpoint".toList).getString)
      config.logging.enableNotifications  -- Only required if notifications are enabled
    config := { config with logging.notificationEndpoint := notificationEndpoint }
  return config

/-- Lines 174-202: the optional `backup` section. -/
def fromFile.backup (configJson : Json) (config : Config) : Except Error Config := do
  let mut config := config
  if configJson.contains "backup".toList then
    let backupConfig := configJson.get "backup".toList
    -- Compression settings
    if backupConfig.contains "compression".toList then
      let compressionConfig := backupConfig.get "compression".toList
      let enabled ← compressionConfig.value Json.getBool "enabled".toList false
      config := { config with backup.compression.enabled := enabled }
      let format ← compressionConfig.value Json.getString "format".toList "gzip".toList
      config := { config with backup.compression.format := format }
      let level ← compressionConfig.value Json.getString "level".toList "medium".toList
      config := { config with backup.compression.level := level }
    -- Retention settings
    if backupConfig.contains "retention".toList then
      let retentionConfig := backupConfig.get "retention".toList
      let days ← retentionConfig.value Json.getInt "days".toList 30
      config := { config with backup.retention.days := days }
      let maxBackups ← retentionConfig.value Json.getInt "maxBackups".toList 10
      config := { config with backup.retention.maxBackups := maxBackups }
    -- Schedule settings
    if backupConfig.contains "schedule".toList then
      let scheduleConfig := backupConfig.get "schedule".toList
      let enabled ← scheduleConfig.value Json.getBool "enabled".toList false
      config := { config with backup.schedule.enabled := enabled }
      let cron ← scheduleConfig.value Json.getString "cron".toList "0 0 * * *".toList
      config := { config with backup.schedule.cron := cron }
    -- Set up the backup pointer in storage config
    config := { config with storage.backup := true }
  return config

/-- The loop over `options.items()` (lines 251-256): every option is stored with its
environment variables substituted, unset ones by the empty string. `options` is
`config.security.credentialStore.options`. -/
def fromFile.options (env : Env) :
    List (List Char × Json) → List (List Char × List Char) →
      Except Error (List (List Char × List Char))
  | [], options => .ok options
  | (key, value) :: rest, options => do
    let substituted ← substituteEnvVars env (← value.getString) false
    fromFile.options env rest (mapAssign options key substituted)

/-- Lines 204-260: the optional `security` section. -/
def fromFile.security (env : Env) (configJson : Json) (config : Config) :
    Except Error Config := do
  let mut config := config
  if configJson.contains "security".toList then
    let securityConfig := configJson.get "security".toList
    -- Parse encryption config
    if securityConfig.contains "encryption".toList then
      let encryptionConfig := securityConfig.get "encryption".toList
      let enabled ← encryptionConfig.value Json.getBool "enabled".toList false
      config := { config with security.encryption.enabled := enabled }
      if config.security.encryption.enabled then
        let algorithm ←
          encryptionConfig.value Json.getString "algorithm".toList "AES-256-GCM".toList
        config := { config with security.encryption.algorithm := algorithm }
        if encryptionConfig.contains "keyPath".toList then
          let keyPath ← substituteEnvVars env
            (← (encryptionConfig.get "keyPath".toList).getString)
            config.security.encryption.enabled  -- Only required if encryption is enabled
          config := { config with security.encryption.keyPath := keyPath }
    -- Parse credential store config
    if securityConfig.contains "credentialStore".toList then
      let credStoreConfig := securityConfig.get "credentialStore".toList
      let enabled ← credStoreConfig.value Json.getBool "enabled".toList false
      config := { config with security.credentialStore.enabled := enabled }
      if config.security.credentialStore.enabled then
        DB_CHECK (credStoreConfig.contains "type".toList) .ConfigurationError
          "Credential store type not specified".toList
        let type ← (credStoreConfig.get "type".toList).getString
        config := { config with security.credentialStore.type := type }
        if credStoreConfig.contains "path".toList then
          let path ← substituteEnvVars env
            (← (credStoreConfig.get "path".toList).getString)
            false  -- Path might not be required for all store types
          config := { config with security.credentialStore.path := path }
        if credStoreConfig.contains "keyPrefix".toList then
          let keyPrefix ← (credStoreConfig.get "keyPrefix".toList).getString
          config := { config with security.credentialStore.keyPrefix := keyPrefix }
        else
          config := { config with security.credentialStore.keyPrefix := "hegemon".toList }
        if credStoreConfig.contains "options".toList then
          let options ← fromFile.options env (credStoreConfig.get "options".toList).items
            config.security.credentialStore.options
          config := { config with security.credentialStore.options := options }
  return config

/-- The character class `[0-9,\-\*/]` of `cron_pattern`. -/
def isCronChar (c : Char) : Bool :=
  ('0' ≤ c && c ≤ '9') || c == ',' || c == '-' || c == '*' || c == '/'

/-- The character class `\s`. -/
def isSpace (c : Char) : Bool :=
  c == ' ' || c == '\t' || c == '\n' || c == '\x0b' || c == '\x0c' || c == '\r'

/-- One `p+` of `cron_pattern` at the head of the text: the text behind the longest
non-empty run of characters of the class. The classes of neighbouring runs are
disjoint, so only the longest run can be followed by a match of the rest. -/
def cronRun (p : Char → Bool) (s : List Char) : Option (List Char) :=
  if s.takeWhile p = [] then none else some (s.dropWhile p)

/-- `std::regex_match(cron, cron_pattern)`: five fields `(\*|[0-9,\-\*/]+)`, where the
lone `*` of the first alternative is in the class of the second, separated by `\s+`,
and nothing else. -/
def cronMatches (cron : List Char) : Bool :=
  match cronRun isCronChar cron >>= cronRun isSpace >>= cronRun isCronChar
      >>= cronRun isSpace >>= cronRun isCronChar >>= cronRun isSpace
      >>= cronRun isCronChar >>= cronRun isSpace >>= cronRun isCronChar with
  | some [] => true
  | _ => false

/-- Lines 262-294: the validation of the finished `config`. -/
def fromFile.validate (config : Config) : Except Error Unit := do
  -- Validate required fields
  DB_CHECK (!config.database.type.isEmpty) .ConfigurationError
    "Database type cannot be empty".toList
  if config.database.type ≠ "sqlite".toList then
    DB_CHECK (!config.database.host.isEmpty) .ConfigurationError
      "Database host cannot be empty".toList
    DB_CHECK (decide (config.database.port > 0)) .ConfigurationError
      "Invalid database port".toList
    DB_CHECK (!config.database.database.isEmpty) .ConfigurationError
      "Database name cannot be empty".toList
  else
    DB_CHECK (!config.database.database.isEmpty) .ConfigurationError
      "SQLite database file path cannot be empty".toList
    -- For SQLite, host and port are not validated
  DB_CHECK (!config.storage.localPath.isEmpty) .ConfigurationError
    "Storage local path cannot be empty".toList
  DB_CHECK (!config.logging.logPath.isEmpty) .ConfigurationError
    "Log path cannot be empty".toList
  DB_CHECK (!config.logging.logLevel.isEmpty) .ConfigurationError
    "Log level cannot be empty".toList
  -- Validate backup configuration
  if config.backup.compression.enabled then
    DB_CHECK (config.backup.compression.format == "gzip".toList ||
        config.backup.compression.format == "bzip2".toList ||
        config.backup.compression.format == "xz".toList)
      .ConfigurationError "Invalid compression format".toList
    DB_CHECK (config.backup.compression.level == "low".toList ||
        config.backup.compression.level == "medium".toList ||
        config.backup.compression.level == "high".toList)
      .ConfigurationError "Invalid compression level".toList
  -- Validate schedule configuration
  if config.backup.schedule.enabled then
    DB_CHECK (cronMatches config.backup.schedule.cron) .ConfigurationError
      "Invalid cron expression".toList

/-- What opening and parsing the file at `configPath` gives (lines 42-51): no readable
file, a file that is not JSON (with the parser's diagnostic), or the parsed document. -/
inductive ConfigFile where
  | notFound
  | parseError (what : List Char)
  | parsed (configJson : Json)

/-- The block that `Config::fromFile` guards with `DB_TRY_CATCH_LOG` (lines 41-296).
`init` is the default-constructed `Config` of line 53, whose member initialisers are in
`config.hpp`. -/
def fromFile.block (env : Env) (init : Config) (configPath : List Char) (file : ConfigFile) :
    Except Error Config :=
  match file with
  | .notFound =>
    DB_THROW .ConfigurationError ("Config file not found: ".toList ++ configPath)
  | .parseError what =>
    DB_THROW .ConfigurationError ("Failed to parse config file: ".toList ++ what)
  | .parsed configJson => do
    let mut config := init
    -- Database configuration
    config ← fromFile.database env configJson config
    -- Parse database credentials
    config ← fromFile.credentials env (configJson.get "database".toList) config
    -- Storage configuration
    config ← fromFile.storage configJson config
    -- Logging configuration
    config ← fromFile.logging env configJson config
    -- Backup configuration
    config ← fromFile.backup configJson config
    -- Security configuration
    config ← fromFile.security env configJson config
    fromFile.validate config
    return config

/-- `Config::fromFile(configPath)`: the guarded block, and behind the macro the
`return Config()` of line 300. -/
def fromFile (rethrows : Bool) (env : Env) (init : Config) (configPath : List Char)
    (file : ConfigFile) : Outcome Config :=
  DB_TRY_CATCH_LOG rethrows (fromFile.block env init configPath file) init

/-! ### The data model's invariants, in the words of the specification -/

/-- The invariants of section 3 on the database and compression settings: a `sqlite`
database needs its path; any other needs host, a positive port and a name; enabled
compression needs one of the three formats and one of the three levels. -/
def Config.invariant (config : Config) : Prop :=
  (if config.database.type = "sqlite".toList then config.database.database ≠ []
   else config.database.host ≠ [] ∧ config.database.port > 0 ∧
     config.database.database ≠ []) ∧
  (config.backup.compression.enabled = true →
    config.backup.compression.format ∈ ["gzip".toList, "bzip2".toList, "xz".toList] ∧
    config.backup.compression.level ∈ ["low".toList, "medium".toList, "high".toList])

instance (config : Config) : Decidable config.invariant := by
  unfold Config.invariant
  exact inferInstance

/-- Modelled from the spec: the default-constructed `Config` (`config.hpp` is not among
the sources): empty strings and lists, port 0, flags off, and the backup defaults the
specification lists in section 4.2, step 6. -/
def Config.default : Config where
  database := { type := [], host := [], port := 0, username := [], password := [],
                database := [],
                credentials := { username := [], passwordKey := [], preferredSources := [] } }
  storage := { localPath := [], cloudProvider := [], cloudPath := [], backup := false }
  logging := { logPath := [], logLevel := [], enableNotifications := false,
               notificationEndpoint := [] }
  backup := { compression := { enabled := false, format := "gzip".toList,
                               level := "medium".toList },
              retention := { days := 30, maxBackups := 10 },
              schedule := { enabled := false, cron := "0 0 * * *".toList } }
  security := { encryption := { enabled := false, algorithm := [], keyPath := [] },
                credentialStore := { enabled := false, type := [], path := [],
                                     keyPrefix := [], options := [] } }

/-- A JSON object with string keys written as Lean strings. -/
def Json.mkObj (members : List (String × Json)) : Json :=
  .object (members.map fun m => (m.1.toList, m.2))

/-- A JSON string written as a Lean string. -/
def Json.mkStr (s : String) : Json := .string s.toList

/-- A minimal configuration file for a PostgreSQL database with gzip compression. -/
def examplePostgres : Json :=
  Json.mkObj [
    ("database", Json.mkObj [("type", Json.mkStr "postgres"), ("host", Json.mkStr "localhost"),
      ("port", .number 5432), ("database", Json.mkStr "shop"),
      ("credentials", Json.mkObj [("passwordKey", Json.mkStr "k"),
        ("preferredSources", .array [Json.mkStr "environment", Json.mkStr "vault"])])]),
    ("storage", Json.mkObj [("localPath", Json.mkStr "/tmp/bk")]),
    ("logging", Json.mkObj [("logPath", Json.mkStr "/tmp/log"), ("logLevel", Json.mkStr "info")]),
    ("backup", Json.mkObj [("compression", Json.mkObj [("enabled", .boolean true)])])]

/-- The configuration that `examplePostgres` loads to, from `Config.default`. -/
def examplePostgresConfig : Config :=
  { Config.default with
    database := { Config.default.database with
      type := "postgres".toList, host := "localhost".toList, port := 5432,
      database := "shop".toList,
      credentials := { username := [], passwordKey := "k".toList,
                       preferredSources := [.Environment, .Vault] } }
    storage := { Config.default.storage with localPath := "/tmp/bk".toList, backup := true }
    logging := { Config.default.logging with
      logPath := "/tmp/log".toList, logLevel := "info".toList }
    backup := { Config.default.backup with
      compression := { enabled := true, format := "gzip".toList, level := "medium".toList } } }

/-- A configuration file for an SQLite database that gives no `database` path. -/
def exampleSqliteNoPath : Json :=
  Json.mkObj [
    ("database", Json.mkObj [("type", Json.mkStr "sqlite")]),
    ("storage", Json.mkObj [("localPath", Json.mkStr "/tmp/bk")]),
    ("logging", Json.mkObj [("logPath", Json.mkStr "/tmp/log"), ("logLevel", Json.mkStr "info")])]

/-- A configuration file for a PostgreSQL database that gives `port` but no `host`. -/
def examplePostgresNoHost : Json :=
  Json.mkObj [
    ("database", Json.mkObj [("type", Json.mkStr "postgres"), ("port", .number 5432),
      ("database", Json.mkStr "shop")]),
    ("storage", Json.mkObj [("localPath", Json.mkStr "/tmp/bk")]),
    ("logging", Json.mkObj [("logPath", Json.mkStr "/tmp/log"), ("logLevel", Json.mkStr "info")])]

/-- The PostgreSQL configuration with an unrecognised token in `preferredSources`. -/
def exampleBogusSource : Json :=
  Json.mkObj [
    ("database", Json.mkObj [("type", Json.mkStr "postgres"), ("host", Json.mkStr "localhost"),
      ("port", .number 5432), ("database", Json.mkStr "shop"),
      ("credentials", Json.mkObj [("passwordKey", Json.mkStr "k"),
        ("preferredSources",
          .array [Json.mkStr "file", Json.mkStr "bogus", Json.mkStr "vault"])])]),
    ("storage", Json.mkObj [("localPath", Json.mkStr "/tmp/bk")]),
    ("logging", Json.mkObj [("logPath", Json.mkStr "/tmp/log"), ("logLevel", Json.mkStr "info")])]

/-- The mapping of the tokens of `preferredSources` onto `CredentialSource`, in the
words of the specification: the six recognised tokens, and no default for any other. -/
def CredentialSource.ofToken (token : List Char) : Option CredentialSource :=
  if token = "environment".toList then some .Environment
  else if token = "file".toList then some .File
  else if token = "keystore".toList then some .KeyStore
  else if token = "config".toList then some .ConfigFile
  else if token = "ssm".toList then some .SSM
  else if token = "vault".toList then some .Vault
  else none

/-! ## Vocabulary of the proofs -/

/-- Every value the computation can end in has the property. -/
@[irreducible]
def Yields {α : Type} (m : Except Error α) (P : α → Prop) : Prop :=
  ∀ a, m = .ok a → P a

/-! ## `BackupManager` (backup_manager.cpp)

The collaborators of the lifecycle (`db_connection.hpp`, `compression.hpp`,
`notifications.hpp`, `<filesystem>`, `<ctime>`) are outside the sources. The filesystem
is modelled by the set of paths that exist; every call to a collaborator or to the
filesystem is recorded, in order, with what it returned. -/

/-- The filesystem: which paths exist. -/
abbrev FileSystem := List Char → Bool

/-- Call `std::filesystem::remove(path)`. -/
def FileSystem.remove (fs : FileSystem) (path : List Char) : FileSystem :=
  fun p => if p = path then false else fs p

/-- A successful `std::filesystem::rename(old_p, new_p)`. -/
def FileSystem.rename (fs : FileSystem) (old_p new_p : List Char) : FileSystem :=
  fun p => if p = new_p then true else if p = old_p then false else fs p

/-- A call the lifecycle makes, with its arguments and, where it has one, its result. -/
inductive Event where
  | createConnection
  | connect (result : Bool)
  | createBackup (destination : List Char) (result : Bool)
  | restoreBackup (source : List Char) (result : Bool)
  | disconnect (result : Bool)
  | fs_exists (path : List Char) (result : Bool)
  | create_directories (path : List Char) (result : Bool)
  | remove (path : List Char)
  | rename (old_p new_p : List Char)
  | compressFile (source destination : List Char) (result : Bool)
  | decompressFile (source destination : List Char) (result : Bool)
  | sendNotificationIfNeeded (message : List Char)
  deriving DecidableEq, Repr

/-- Modelled from the spec: the interface `IDBConnection` of `db_connection.hpp`, which
is not among the sources, as section 6 lists it: what each call answers and, for a dump,
what it does to the filesystem. -/
structure IDBConnection where
  connect : DatabaseConfig → Bool
  disconnect : Bool
  createBackup : List Char → FileSystem → Bool × FileSystem
  restoreBackup : List Char → FileSystem → Bool

/-- Modelled from the spec: the class `Compressor` of `compression.hpp`, which is not among
the sources, as section 6 lists it: what each call answers and does to the
filesystem. -/
structure Compressor where
  compressFile : List Char → List Char → FileSystem → Bool × FileSystem
  decompressFile : List Char → List Char → FileSystem → Bool × FileSystem
  getFileExtension : List Char

/-- What lies outside the program during one run. -/
structure World where
  /-- The factory `createDBConnection(config)`: `none` is the null pointer. -/
  createDBConnection : DatabaseConfig → Option IDBConnection
  /-- The constructor `Compressor(config)`. -/
  makeCompressor : CompressionConfig → Compressor
  /-- Call `std::filesystem::create_directories(path)`. -/
  create_directories : List Char → FileSystem → Bool × FileSystem
  /-- The local time as `strftime` writes it with `%Y%m%d_%H%M%S`. -/
  timeBuf : List Char

/-- The state a run works on: the filesystem and the calls made so far. -/
structure State where
  fs : FileSystem
  trace : List Event

/-- The state after a call that leaves the filesystem as it is. -/
def State.record (s : State) (e : Event) : State :=
  { fs := s.fs, trace := s.trace ++ [e] }

/-- The state after a call that leaves the filesystem as `fs`. -/
def State.step (s : State) (e : Event) (fs : FileSystem) : State :=
  { fs := fs, trace := s.trace ++ [e] }

/-- The block that `BackupManager::createConnection` guards (lines 210-227). -/
def createConnection.block (w : World) (m_config : Config) :
    Except Error (Option IDBConnection) := do
  -- Validate database configuration
  if m_config.database.type.isEmpty then
    DB_THROW .ConfigurationError "Database type not specified".toList
  -- For SQLite, we only need the database path
  if m_config.database.type = "sqlite".toList then
    if m_config.database.database.isEmpty then
      DB_THROW .ConfigurationError "SQLite database file path not specified".toList
  else
    -- For other databases, we need host
    if m_config.database.host.isEmpty then
      DB_THROW .ConfigurationError "Database host not specified".toList
  return w.createDBConnection m_config.database

/-- `BackupManager::createConnection()` (lines 208-231): the guarded block, and behind
the macro `return nullptr`. -/
def createConnection (rethrows : Bool) (w : World) (m_config : Config) :
    Outcome (Option IDBConnection) :=
  DB_TRY_CATCH_LOG rethrows (createConnection.block w m_config) none

/-- The name of line 75: `backup_<timestamp>_<type>`. -/
def backupFileName (w : World) (backupType : List Char) : List Char :=
  "backup_".toList ++ w.timeBuf ++ "_".toList ++ backupType

/-- The staging path of line 78. -/
def tempPath (w : World) (m_config : Config) (backupType : List Char) : List Char :=
  m_config.storage.localPath ++ "/.tmp_".toList ++ backupFileName w backupType ++
    ".dump".toList

/-- The final path of lines 81-82. -/
def finalPath (w : World) (m_config : Config) (backupType : List Char) : List Char :=
  m_config.storage.localPath ++ "/".toList ++ backupFileName w backupType ++
    (if m_config.backup.compression.enabled then ".dump.gz".toList else ".dump".toList)

/-- The `try` of lines 95-106: publish the staging file, by compression or by a move.
`std::filesystem::rename` throws a `filesystem_error` when the staging file is not
there. -/
def backup.publish (compressor : Option Compressor) (tempPath finalPath : List Char)
    (s : State) : Except Error Bool × State :=
  match compressor with
  | some compressor =>
    -- Try to compress directly to final location
    let r := compressor.compressFile tempPath finalPath s.fs
    let s := s.step (.compressFile tempPath finalPath r.1) r.2
    if !r.1 then
      (DB_THROW .CompressionError "Failed to compress backup file".toList, s)
    else (.ok r.1, s)
  | none =>
    -- Move uncompressed file to final location
    if s.fs tempPath then
      (.ok true, s.step (.rename tempPath finalPath) (s.fs.rename tempPath finalPath))
    else
      (.error ⟨.FilesystemError, "filesystem error: cannot rename".toList⟩,
        s.record (.rename tempPath finalPath))

/-- Lines 85-87, 109-111 and 116-118: `if (exists(tempPath)) remove(tempPath)`. -/
def backup.removeTemp (tempPath : List Char) (s : State) : State :=
  let s' := s.record (.fs_exists tempPath (s.fs tempPath))
  if s.fs tempPath then s'.step (.remove tempPath) (s'.fs.remove tempPath) else s'

/-- Lines 94-136 of the guarded block, behind a successful dump: publish the staging
file, clean up, verify, disconnect and notify. The exception classes of
`dbbackup::error` derive from `std::exception`, so the handler of line 107 catches the
CompressionError of line 100 as it catches a `filesystem_error`. -/
def backup.finish (conn : IDBConnection) (m_config : Config)
    (compressor : Option Compressor) (tempPath finalPath : List Char) (s : State) :
    Except Error Bool × State :=
  match backup.publish compressor tempPath finalPath s with
  | (.error e, s) =>
    -- Clean up temporary file
    let s := backup.removeTemp tempPath s
    (DB_THROW .BackupError ("Backup failed: ".toList ++ e.message), s)
  | (.ok _, s) =>
    -- Clean up temporary file
    let s := backup.removeTemp tempPath s
    -- Verify backup exists
    let finalExists := s.fs finalPath
    let s := s.record (.fs_exists finalPath finalExists)
    if !finalExists then
      (DB_THROW .StorageError
        ("Backup file not found after creation: ".toList ++ finalPath), s)
    else
      -- Disconnect database
      let s := s.record (.disconnect conn.disconnect)
      -- Send notification if enabled
      let s :=
        if m_config.logging.enableNotifications then
          s.record (.sendNotificationIfNeeded ("Backup succeeded: ".toList ++ finalPath))
        else s
      (.ok true, s)

/-- Lines 44-92 of the guarded block: validate the backup type, create the connection
and connect, make the backup directory, clear a stale staging file and dump to the
staging path. The result is the connection, to go on with. -/
def backup.prepare (rethrows : Bool) (w : World) (m_config : Config)
    (backupType : List Char) (s : State) : Except Error IDBConnection × State :=
  -- Validate input
  if backupType.isEmpty then
    (DB_THROW .ValidationError "Backup type cannot be empty".toList, s)
  else if !(backupType == "full".toList || backupType == "incremental".toList ||
      backupType == "differential".toList) then
    (DB_THROW .ValidationError ("Invalid backup type: ".toList ++ backupType), s)
  else
    -- Create and validate connection
    let s := s.record .createConnection
    match createConnection rethrows w m_config with
    | .threw e => (.error e, s)
    | .returned none =>
      (DB_THROW .ConnectionError "Failed to create database connection".toList, s)
    | .returned (some conn) =>
      -- Connect to database
      let connected := conn.connect m_config.database
      let s := s.record (.connect connected)
      if !connected then
        (DB_THROW .ConnectionError "Failed to connect to database".toList, s)
      else
        -- Create backup directory if it doesn't exist
        let backupDir := m_config.storage.localPath
        let dirExists := s.fs backupDir
        let s := s.record (.fs_exists backupDir dirExists)
        let created :=
          if !dirExists then w.create_directories backupDir s.fs else (true, s.fs)
        let s :=
          if !dirExists then s.step (.create_directories backupDir created.1) created.2
          else s
        if !created.1 then
          (DB_THROW .StorageError
            ("Failed to create backup directory: ".toList ++ m_config.storage.localPath), s)
        else
          -- Remove any existing temporary files
          let s := backup.removeTemp (tempPath w m_config backupType) s
          -- Perform backup to temporary file
          let dumped := conn.createBackup (tempPath w m_config backupType) s.fs
          let s := s.step (.createBackup (tempPath w m_config backupType) dumped.1) dumped.2
          if !dumped.1 then
            (DB_THROW .BackupError
              ("Failed to create backup at: ".toList ++ tempPath w m_config backupType), s)
          else (.ok conn, s)

/-- The block that `BackupManager::backup` guards (lines 44-136), from the state `s`:
lines 44-92 and, behind a successful dump, lines 94-136. -/
def backup.block (rethrows : Bool) (w : World) (m_config : Config)
    (compressor : Option Compressor) (backupType : List Char) (s : State) :
    Except Error Bool × State :=
  match backup.prepare rethrows w m_config backupType s with
  | (.error e, s) => (.error e, s)
  | (.ok conn, s) =>
    backup.finish conn m_config compressor (tempPath w m_config backupType)
      (finalPath w m_config backupType) s

/-- `BackupManager::backup(backupType)` (lines 36-140), run from the state `s`: what the
call ends in and the state it leaves. The compressor is created before the macro when
compression is enabled; behind the macro stands `return false`. -/
def backup (rethrows : Bool) (w : World) (m_config : Config) (backupType : List Char)
    (s : State) : Outcome Bool × State :=
  let compressor :=
    if m_config.backup.compression.enabled then
      some (w.makeCompressor m_config.backup.compression)
    else none
  let r := backup.block rethrows w m_config compressor backupType s
  (DB_TRY_CATCH_LOG rethrows r.1 false, r.2)

/-- The exception in which the guarded block of `backup` ends, if it ends in one: the
error with which the run fails. -/
def backup.error (rethrows : Bool) (w : World) (m_config : Config) (backupType : List Char)
    (s : State) : Option Error :=
  match (backup.block rethrows w m_config
    (if m_config.backup.compression.enabled then
      some (w.makeCompressor m_config.backup.compression)
    else none) backupType s).1 with
  | .error e => some e
  | .ok _ => none

/-- The staging path as the specification lays it out (section 6):
`<localPath>/.tmp_backup_<timestamp>_<type>.dump`. -/
def stagingPathOf (localPath timestamp backupType : List Char) : List Char :=
  localPath ++ "/.tmp_backup_".toList ++ timestamp ++ "_".toList ++ backupType ++
    ".dump".toList

/-- The final path as the specification lays it out (section 6):
`<localPath>/backup_<timestamp>_<type>.dump`, with `.gz` behind it when the backup is
compressed. -/
def finalPathOf (localPath timestamp backupType : List Char) (compressed : Bool) :
    List Char :=
  localPath ++ "/backup_".toList ++ timestamp ++ "_".toList ++ backupType ++
    (if compressed then ".dump.gz".toList else ".dump".toList)

/-! ### Example collaborators -/

/-- The filesystem with one more path. -/
def FileSystem.add (fs : FileSystem) (path : List Char) : FileSystem :=
  fun p => if p = path then true else fs p

/-- A connection that always succeeds and dumps by creating its destination. -/
def exampleConnection : IDBConnection where
  connect := fun _ => true
  disconnect := true
  createBackup := fun destination fs => (true, fs.add destination)
  restoreBackup := fun _ _ => true

/-- A compressor that succeeds, creating its destination. -/
def workingCompressor : Compressor where
  compressFile := fun _ destination fs => (true, fs.add destination)
  decompressFile := fun _ destination fs => (true, fs.add destination)
  getFileExtension := ".gz".toList

/-- A compressor that fails behind a partly written destination. -/
def failingCompressor : Compressor where
  compressFile := fun _ destination fs => (false, fs.add destination)
  decompressFile := fun _ destination fs => (false, fs.add destination)
  getFileExtension := ".gz".toList

/-- A compressor that fails without leaving any output. -/
def cleanFailingCompressor : Compressor where
  compressFile := fun _ _ fs => (false, fs)
  decompressFile := fun _ _ fs => (false, fs)
  getFileExtension := ".gz".toList

/-- A world around the example connection and a given compressor, at a fixed time. -/
def exampleWorld (compressor : Compressor) : World where
  createDBConnection := fun _ => some exampleConnection
  makeCompressor := fun _ => compressor
  create_directories := fun path fs => (true, fs.add path)
  timeBuf := "20240101_120000".toList

/-- The example configuration with compression disabled. -/
def examplePlainConfig : Config :=
  { examplePostgresConfig with
    backup := { examplePostgresConfig.backup with
      compression := { examplePostgresConfig.backup.compression with enabled := false } } }

/-- An empty filesystem and no call made yet. -/
def State.empty : State := { fs := fun _ => false, trace := [] }

/-- A call that publishes a file: a compression or a move. -/
def Event.isPublish : Event → Bool
  | .compressFile _ _ _ => true
  | .rename _ _ => true
  | _ => false

/-- A dump that succeeded. -/
def Event.isDump : Event → Bool
  | .createBackup _ true => true
  | _ => false

/-- The call with which lines 95-106 publish the staging file, from the filesystem `fs`. -/
def publishEvent (compressor : Option Compressor) (tempPath finalPath : List Char)
    (fs : FileSystem) : Event :=
  match compressor with
  | some compressor =>
    .compressFile tempPath finalPath (compressor.compressFile tempPath finalPath fs).1
  | none => .rename tempPath finalPath

/-! ## `BackupManager::restore` (backup_manager.cpp, lines 142-206) -/

/-- Call `s.find(str)` of `std::string`: the first position at which `str` occurs in
`s`, `none` for `npos`. The empty `str` occurs at position 0. -/
def basic_string.find (s str : List Char) : Option Nat :=
  if str.isPrefixOf s then some 0
  else
    match s with
    | [] => none
    | _ :: rest => (basic_string.find rest str).map (· + 1)

/-- Call `s.substr(pos, n)` of `std::string` for a `pos` inside `s`: the `n` characters
from `pos` on, or as many as there are. -/
def basic_string.substr (s : List Char) (pos n : Nat) : List Char :=
  (s.drop pos).take n

/-- Lines 167-180 of the guarded block, `// Decompress if needed`: the result is
`restorePath`. -/
def restore.decompress (compressor : Option Compressor) (backupPath : List Char)
    (s : State) : Except Error (List Char) × State :=
  match compressor with
  | none => (.ok backupPath, s)
  | some compressor =>
    match basic_string.find backupPath compressor.getFileExtension with
    | none => (.ok backupPath, s)
    | some extPos =>
      let uncompressedPath := basic_string.substr backupPath 0 extPos
      let r := compressor.decompressFile backupPath uncompressedPath s.fs
      let s := s.step (.decompressFile backupPath uncompressedPath r.1) r.2
      if !r.1 then
        (DB_THROW .CompressionError "Failed to decompress backup file".toList, s)
      else (.ok uncompressedPath, s)

/-- Lines 182-203 of the guarded block: restore from `restorePath`, remove the
decompressed file if one was made, disconnect and notify. -/
def restore.finish (conn : IDBConnection) (backupPath restorePath : List Char)
    (s : State) : Except Error Bool × State :=
  -- Perform restore
  let restored := conn.restoreBackup restorePath s.fs
  let s := s.record (.restoreBackup restorePath restored)
  if !restored then
    (DB_THROW .RestoreError ("Failed to restore from backup: ".toList ++ restorePath), s)
  else
    -- Clean up decompressed file if we created one
    let s :=
      if restorePath ≠ backupPath then
        s.step (.remove restorePath) (s.fs.remove restorePath)
      else s
    -- Disconnect database
    let s := s.record (.disconnect conn.disconnect)
    -- Log success and send notification
    let s := s.record
      (.sendNotificationIfNeeded ("Restore succeeded from: ".toList ++ backupPath))
    (.ok true, s)

/-- Lines 150-165 of the guarded block: validate the path, create the connection and
connect. The result is the connection, to go on with. -/
def restore.prepare (rethrows : Bool) (w : World) (m_config : Config)
    (backupPath : List Char) (s : State) : Except Error IDBConnection × State :=
  -- Validate input
  if backupPath.isEmpty then
    (DB_THROW .ValidationError "Backup path cannot be empty".toList, s)
  else
    let found := s.fs backupPath
    let s := s.record (.fs_exists backupPath found)
    if !found then
      (DB_THROW .ValidationError ("Backup file not found: ".toList ++ backupPath), s)
    else
      -- Create and validate connection
      let s := s.record .createConnection
      match createConnection rethrows w m_config with
      | .threw e => (.error e, s)
      | .returned none =>
        (DB_THROW .ConnectionError "Failed to create database connection".toList, s)
      | .returned (some conn) =>
        -- Connect to database
        let connected := conn.connect m_config.database
        let s := s.record (.connect connected)
        if !connected then
          (DB_THROW .ConnectionError "Failed to connect to database".toList, s)
        else (.ok conn, s)

/-- The block that `BackupManager::restore` guards (lines 150-203), from the state
`s`. -/
def restore.block (rethrows : Bool) (w : World) (m_config : Config)
    (compressor : Option Compressor) (backupPath : List Char) (s : State) :
    Except Error Bool × State :=
  match restore.prepare rethrows w m_config backupPath s with
  | (.error e, s) => (.error e, s)
  | (.ok conn, s) =>
    match restore.decompress compressor backupPath s with
    | (.error e, s) => (.error e, s)
    | (.ok restorePath, s) => restore.finish conn backupPath restorePath s

/-- `BackupManager::restore(backupPath)` (lines 142-206), run from the state `s`: what
the call ends in and the state it leaves. The compressor is created before the macro
when compression is enabled; behind the macro stands `return false`. -/
def restore (rethrows : Bool) (w : World) (m_config : Config) (backupPath : List Char)
    (s : State) : Outcome Bool × State :=
  let compressor :=
    if m_config.backup.compression.enabled then
      some (w.makeCompressor m_config.backup.compression)
    else none
  let r := restore.block rethrows w m_config compressor backupPath s
  (DB_TRY_CATCH_LOG rethrows r.1 false, r.2)

/-- The state of a filesystem that holds just the file `path`, no call made yet. -/
def State.holding (path : List Char) : State :=
  { fs := FileSystem.add (fun _ => false) path, trace := [] }

/-- A call that decompresses. -/
def Event.isDecompress : Event → Bool
  | .decompressFile _ _ _ => true
  | _ => false

/-! ### Example configurations for the password key -/

/-- An environment in which only `DB_USER` is set, to `alice`. -/
def envDbUser : Env := fun name =>
  if name = "DB_USER".toList then some "alice".toList else none

/-- A configuration file whose `credentials` block gives a `username` and no
`passwordKey`. -/
def exampleCredentialsUser : Json :=
  Json.mkObj [
    ("database", Json.mkObj [("type", Json.mkStr "postgres"), ("host", Json.mkStr "localhost"),
      ("port", .number 5432), ("database", Json.mkStr "shop"),
      ("username", Json.mkStr "root"),
      ("credentials", Json.mkObj [("username", Json.mkStr "${DB_USER}")])]),
    ("storage", Json.mkObj [("localPath", Json.mkStr "/tmp/bk")]),
    ("logging", Json.mkObj [("logPath", Json.mkStr "/tmp/log"), ("logLevel", Json.mkStr "info")])]

/-- A configuration file without a `credentials` block, with a root-level `username`. -/
def exampleRootUser : Json :=
  Json.mkObj [
    ("database", Json.mkObj [("type", Json.mkStr "postgres"), ("host", Json.mkStr "localhost"),
      ("port", .number 5432), ("database", Json.mkStr "shop"),
      ("username", Json.mkStr "${DB_USER}")]),
    ("storage", Json.mkObj [("localPath", Json.mkStr "/tmp/bk")]),
    ("logging", Json.mkObj [("logPath", Json.mkStr "/tmp/log"), ("logLevel", Json.mkStr "info")])]

/-- The configuration that `exampleCredentialsUser` loads to with `DB_USER=alice`. -/
def exampleCredentialsUserConfig : Config :=
  { Config.default with
    database := { Config.default.database with
      type := "postgres".toList, host := "localhost".toList, port := 5432,
      database := "shop".toList, username := "root".toList,
      credentials := { Config.default.database.credentials with
        username := "alice".toList,
        passwordKey := "hegemon.postgres.alice.password".toList } }
    storage := { Config.default.storage with localPath := "/tmp/bk".toList }
    logging := { Config.default.logging with
      logPath := "/tmp/log".toList, logLevel := "info".toList } }

/-- The configuration that `exampleRootUser` loads to with `DB_USER=alice`. -/
def exampleRootUserConfig : Config :=
  { exampleCredentialsUserConfig with
    database := { exampleCredentialsUserConfig.database with username := "alice".toList } }

/-! ## The loop of `substituteEnvVars`, counted (config.cpp, lines 19-34) -/

/-- The `while` loop of `Config::substituteEnvVars` (lines 19-34) run for at most `fuel`
searches, with the number of replacements (line 32) made so far in `count`: `none` when
the searches are used up before the loop has ended, otherwise what the loop ends in and
the number of replacements it has made. -/
def substituteEnvVars.run (env : Env) (required : Bool) (capacity : Nat) :
    Nat → List Char → Nat → Nat → Option (Except Error (List Char) × Nat)
  | 0, _, _, _ => none
  | fuel + 1, result, searchStart, count =>
    match regexSearch (result.drop searchStart) with
    | none => some (.ok result, count)
    | some (position, length, env_var_name) =>
      if (env env_var_name).isNone && required then
        some (DB_THROW .ConfigurationError
          ("Environment variable not set: ".toList ++ env_var_name), count)
      else
        let env_var_value := (env env_var_name).getD []
        let replaceStart := searchStart + position
        if capacity < (result.take replaceStart ++ env_var_value ++
            result.drop (replaceStart + length)).length then
          some (.error invalidatedIterator, count + 1)
        else
          substituteEnvVars.run env required capacity fuel
            (result.take replaceStart ++ env_var_value ++ result.drop (replaceStart + length))
            (replaceStart + env_var_value.length) (count + 1)

/-- An environment in which only `HOME` is set, to `/home/alice`. -/
def envHome : Env := fun name =>
  if name = "HOME".toList then some "/home/alice".toList else none

/-- An environment whose value refers to itself and is longer than its placeholder:
`A=${A}/${A}/${A}/${A}`. -/
def envLongSelf : Env := fun name =>
  if name = "A".toList then some "${A}/${A}/${A}/${A}".toList else none

/-- An environment whose value refers to itself: `A=${A}`. -/
def envSelf : Env := fun name =>
  if name = "A".toList then some "${A}".toList else none

/-- An environment whose values refer to each other: `A=${B}`, `B=${A}`. -/
def envCycle : Env := fun name =>
  if name = "A".toList then some "${B}".toList
  else if name = "B".toList then some "${A}".toList
  else none

/-! ## Theorems -/

/-! ## `substituteEnvVars` refines its contract -/

theorem takeWhile_dropWhile_stop (p : Char → Bool) {xs : List Char} (ys : List Char)
    {y : Char} (hxs : ∀ x ∈ xs, p x = true) (hy : p y = false) :
    (xs ++ y :: ys).takeWhile p = xs ∧ (xs ++ y :: ys).dropWhile p = y :: ys := by
  induction xs with
  | nil => simp [List.takeWhile, List.dropWhile, hy]
  | cons x xs ih =>
    have hx : p x = true := hxs x (List.mem_cons_self _ _)
    have := ih (fun z hz => hxs z (List.mem_cons_of_mem _ hz))
    simp [List.takeWhile, List.dropWhile, hx, this]

theorem isIdentChar_ne_close {c : Char} (h : isIdentChar c = true) : (c != '}') = true := by
  rcases Classical.em (c = '}') with rfl | hne
  · exact absurd h (by decide)
  · simpa using hne

theorem isIdentStart_ne_close {c : Char} (h : isIdentStart c = true) : (c != '}') = true := by
  rcases Classical.em (c = '}') with rfl | hne
  · exact absurd h (by decide)
  · simpa using hne

/-- The shape of a text at whose head the pattern matches. -/
theorem matchHere_eq_some_iff {s : List Char} {len : Nat} {name : List Char} :
    matchHere s = some (len, name) ↔
      ∃ c n tl, s = '$' :: '{' :: c :: (n ++ '}' :: tl) ∧ isIdentStart c = true ∧
        (∀ x ∈ n, isIdentChar x = true) ∧ name = c :: n ∧ len = n.length + 4 := by
  constructor
  · intro h
    match s, h with
    | a :: b :: c :: rest, h =>
      simp only [matchHere] at h
      split at h
      · rename_i habc
        obtain ⟨rfl, rfl, hc⟩ := habc
        split at h
        · rename_i d tl hd
          split at h
          · rename_i hdc
            subst hdc
            simp only [Option.some.injEq, Prod.mk.injEq] at h
            obtain ⟨h1, h2⟩ := h
            refine ⟨c, rest.takeWhile isIdentChar, tl, ?_, hc, ?_, h2.symm, by omega⟩
            · rw [← hd, List.takeWhile_append_dropWhile]
            · intro x hx
              exact (List.mem_takeWhile_imp hx)
          · simp at h
        · simp at h
      · simp at h
  · rintro ⟨c, n, tl, rfl, hc, hn, rfl, rfl⟩
    have h := takeWhile_dropWhile_stop isIdentChar tl hn
      (show isIdentChar '}' = false by decide)
    simp only [matchHere, hc, and_self, if_true, h.1, h.2]
    simp
    omega

/-- The shape of a text at whose head a placeholder stands. -/
theorem placeholderAt_eq_some_iff {s : List Char} {name : List Char} :
    placeholderAt s = some name ↔
      ∃ c n tl, s = '$' :: '{' :: c :: (n ++ '}' :: tl) ∧ isIdentStart c = true ∧
        (∀ x ∈ n, isIdentChar x = true) ∧ name = c :: n := by
  constructor
  · intro h
    match s, h with
    | a :: b :: rest, h =>
      simp only [placeholderAt] at h
      split at h
      · rename_i hall
        obtain ⟨rfl, rfl, hid, hhead⟩ := hall
        simp only [Option.some.injEq] at h
        have hsplit := List.takeWhile_append_dropWhile (fun c => c != '}') rest
        rw [h] at hid hsplit
        match name, hid with
        | c :: n, hid =>
          simp only [isIdentifier, Bool.and_eq_true, List.all_eq_true] at hid
          match hdw : rest.dropWhile (fun c => c != '}'), hhead with
          | d :: tl, hhead =>
            simp only [List.head?_cons, Option.some.injEq] at hhead
            subst hhead
            rw [hdw] at hsplit
            exact ⟨c, n, tl, by rw [← hsplit]; simp, hid.1, hid.2, rfl⟩
      · simp at h
  · rintro ⟨c, n, tl, rfl, hc, hn, rfl⟩
    have hxs : ∀ x ∈ c :: n, (fun c => c != '}') x = true := by
      intro x hx
      rcases List.mem_cons.1 hx with rfl | hx
      · exact isIdentStart_ne_close hc
      · exact isIdentChar_ne_close (hn x hx)
    have h := takeWhile_dropWhile_stop (fun c => c != '}') tl hxs
      (show ('}' != '}') = false by decide)
    have e : c :: (n ++ '}' :: tl) = (c :: n) ++ '}' :: tl := rfl
    simp only [placeholderAt, e, h.1, h.2, isIdentifier, hc, List.head?_cons, true_and,
      Bool.true_and, List.all_eq_true, if_true]
    rw [if_pos ⟨hn, trivial⟩]

theorem matchHere_iff_placeholderAt {s : List Char} {len : Nat} {name : List Char} :
    matchHere s = some (len, name) ↔ placeholderAt s = some name ∧ len = name.length + 3 := by
  rw [matchHere_eq_some_iff, placeholderAt_eq_some_iff]
  constructor
  · rintro ⟨c, n, tl, hs, hc, hn, rfl, rfl⟩
    exact ⟨⟨c, n, tl, hs, hc, hn, rfl⟩, by simp⟩
  · rintro ⟨⟨c, n, tl, hs, hc, hn, rfl⟩, rfl⟩
    exact ⟨c, n, tl, hs, hc, hn, rfl, by simp⟩

theorem placeholderAt_eq_none_of_matchHere {s : List Char} (h : matchHere s = none) :
    placeholderAt s = none := by
  cases hp : placeholderAt s with
  | none => rfl
  | some name =>
    have := (@matchHere_iff_placeholderAt s (name.length + 3) name).2 ⟨hp, rfl⟩
    rw [h] at this
    cases this

theorem piecesFrom_skip (k : Nat) (s : List Char) : piecesFrom k s = piecesFrom 0 (s.drop k) := by
  induction s generalizing k with
  | nil => simp [piecesFrom]
  | cons c cs ih =>
    cases k with
    | zero => simp
    | succ k => simp only [piecesFrom, List.drop_succ_cons]; exact ih k

/-- A failed search: every character of the text is a piece of its own. -/
theorem pieces_of_regexSearch_none {s : List Char} (h : regexSearch s = none) :
    pieces s = s.map Piece.text := by
  induction s with
  | nil => rfl
  | cons c cs ih =>
    simp only [regexSearch] at h
    split at h
    · cases h
    · rename_i hm
      split at h
      · cases h
      · rename_i hr
        have := ih hr
        simp only [pieces] at this ⊢
        simp only [piecesFrom, placeholderAt_eq_none_of_matchHere hm, this, List.map_cons]

/-- A successful search: the text before the match has no placeholder, the match is one,
and the rest of the pieces are those of the text behind the match. -/
theorem pieces_of_regexSearch_some {s : List Char} {pos len : Nat} {name : List Char}
    (h : regexSearch s = some (pos, len, name)) :
    pieces s = (s.take pos).map Piece.text ++
      Piece.placeholder name :: pieces (s.drop (pos + len)) := by
  induction s generalizing pos with
  | nil => simp [regexSearch] at h
  | cons c cs ih =>
    simp only [regexSearch] at h
    split at h
    · rename_i l n hm
      simp only [Option.some.injEq, Prod.mk.injEq] at h
      obtain ⟨rfl, rfl, rfl⟩ := h
      obtain ⟨hp, hl⟩ := matchHere_iff_placeholderAt.1 hm
      subst hl
      simp only [pieces, piecesFrom, hp, List.take_zero, List.map_nil, List.nil_append,
        Nat.zero_add]
      rw [piecesFrom_skip]
      rfl
    · rename_i hm
      split at h
      · rename_i p l n hr
        simp only [Option.some.injEq, Prod.mk.injEq] at h
        obtain ⟨rfl, rfl, rfl⟩ := h
        have := ih hr
        simp only [pieces] at this ⊢
        simp only [piecesFrom, placeholderAt_eq_none_of_matchHere hm, this]
        simp [Nat.add_right_comm]
      · cases h

theorem placeholders_map_text (t : List Char) :
    List.filterMap (fun x => match x with
      | Piece.placeholder name => some name
      | Piece.text _ => none) (t.map Piece.text) = [] := by
  induction t with
  | nil => rfl
  | cons c cs ih => simp [List.filterMap_cons]

theorem expand_map_text (env : Env) (t : List Char) :
    List.flatMap (t.map Piece.text) (Piece.replaced env) = t := by
  induction t with
  | nil => rfl
  | cons c cs ih => simpa [List.flatMap_cons, Piece.replaced] using ih

theorem placeholders_of_regexSearch_none {s : List Char} (h : regexSearch s = none) :
    placeholders s = [] := by
  simp only [placeholders, pieces_of_regexSearch_none h]
  exact placeholders_map_text s

theorem expand_of_regexSearch_none (env : Env) {s : List Char} (h : regexSearch s = none) :
    expand env s = s := by
  simp only [expand, pieces_of_regexSearch_none h]
  exact expand_map_text env s

theorem placeholders_of_regexSearch_some {s : List Char} {pos len : Nat} {name : List Char}
    (h : regexSearch s = some (pos, len, name)) :
    placeholders s = name :: placeholders (s.drop (pos + len)) := by
  simp only [placeholders, pieces_of_regexSearch_some h, List.filterMap_append,
    List.filterMap_cons]
  rw [placeholders_map_text]
  rfl

theorem expand_of_regexSearch_some (env : Env) {s : List Char} {pos len : Nat}
    {name : List Char} (h : regexSearch s = some (pos, len, name)) :
    expand env s = s.take pos ++ (env name).getD [] ++ expand env (s.drop (pos + len)) := by
  simp only [expand, pieces_of_regexSearch_some h, List.flatMap_append, List.flatMap_cons]
  rw [expand_map_text]
  simp [Piece.replaced]

theorem regexSearch_length {s : List Char} {pos len : Nat} {name : List Char}
    (h : regexSearch s = some (pos, len, name)) : len = name.length + 3 := by
  induction s generalizing pos with
  | nil => simp [regexSearch] at h
  | cons c cs ih =>
    simp only [regexSearch] at h
    split at h
    · rename_i l n hm
      simp only [Option.some.injEq, Prod.mk.injEq] at h
      obtain ⟨-, rfl, rfl⟩ := h
      exact (matchHere_iff_placeholderAt.1 hm).2
    · split at h
      · rename_i p l n hr
        simp only [Option.some.injEq, Prod.mk.injEq] at h
        obtain ⟨-, rfl, rfl⟩ := h
        exact ih hr
      · cases h

theorem staysWithin_text_append (env : Env) (required : Bool) (capacity size : Nat)
    (t : List Char) (rest : List Piece) :
    staysWithin env required capacity size (t.map Piece.text ++ rest) =
      staysWithin env required capacity size rest := by
  induction t with
  | nil => rfl
  | cons c cs ih => simpa [staysWithin] using ih

/-- The loop refines the contract: run on `pre ++ suf` with `searchStart` behind `pre`,
it leaves `pre` alone and does to `suf` what the contract says, as long as every
replacement keeps the string within the capacity; it ends in the mark of the invalidated
iterator when one does not. -/
theorem loop_eq_substituteSpec (env : Env) (required : Bool) (capacity : Nat) :
    ∀ (n : Nat) (pre suf : List Char), suf.length ≤ n →
      substituteEnvVars.loop env required capacity (pre ++ suf) pre.length =
        if staysWithin env required capacity (pre.length + suf.length) (pieces suf) = true
        then (substituteSpec env suf required).map (fun r => pre ++ r)
        else .error invalidatedIterator := by
  intro n
  induction n with
  | zero =>
    intro pre suf hn
    have : suf = [] := List.eq_nil_of_length_eq_zero (by omega)
    subst this
    rw [substituteEnvVars.loop]
    split
    · simp [substituteSpec, firstUnset, placeholders, pieces, piecesFrom, expand, Except.map,
        staysWithin]
    · rename_i hr
      simp [regexSearch] at hr
  | succ n ih =>
    intro pre suf hn
    rw [substituteEnvVars.loop]
    split
    · rename_i hr
      rw [List.drop_left] at hr
      have hs : staysWithin env required capacity (pre.length + suf.length) (pieces suf) =
          true := by
        rw [pieces_of_regexSearch_none hr]
        have := staysWithin_text_append env required capacity (pre.length + suf.length) suf []
        rw [List.append_nil] at this
        rw [this]
        rfl
      rw [if_pos hs]
      simp [substituteSpec, firstUnset, placeholders_of_regexSearch_none hr,
        expand_of_regexSearch_none env hr, Except.map]
    · rename_i pos len name hr
      rw [List.drop_left] at hr
      have hb := regexSearch_bound hr
      have hlen := regexSearch_length hr
      have hph := placeholders_of_regexSearch_some hr
      have hex := expand_of_regexSearch_some env hr
      have hpc : staysWithin env required capacity (pre.length + suf.length) (pieces suf) =
          staysWithin env required capacity (pre.length + suf.length)
            (Piece.placeholder name :: pieces (suf.drop (pos + len))) := by
        rw [pieces_of_regexSearch_some hr, staysWithin_text_append]
      rw [hpc]
      split
      · rename_i hreq
        have hs : staysWithin env required capacity (pre.length + suf.length)
            (Piece.placeholder name :: pieces (suf.drop (pos + len))) = true := by
          simp only [staysWithin, hreq, if_true]
        rw [if_pos hs]
        simp only [Bool.and_eq_true] at hreq
        simp [substituteSpec, firstUnset, hph, hreq.1, hreq.2, Except.map, DB_THROW]
      · rename_i hreq
        have e1 : (pre ++ suf).take (pre.length + pos) = pre ++ suf.take pos := by
          rw [List.take_append]
        have e2 : (pre ++ suf).drop (pre.length + pos + len) = suf.drop (pos + len) := by
          rw [Nat.add_assoc, List.drop_append]
        have e3 : pre.length + pos + ((env name).getD []).length =
            (pre ++ suf.take pos ++ (env name).getD []).length := by
          simp only [List.length_append, List.length_take]
          omega
        have e4 : (pre ++ suf.take pos ++ (env name).getD [] ++ suf.drop (pos + len)).length =
            pre.length + suf.length + ((env name).getD []).length - (name.length + 3) := by
          simp only [List.length_append, List.length_take, List.length_drop]
          omega
        have e5 : (pre ++ suf.take pos ++ (env name).getD []).length +
            (suf.drop (pos + len)).length =
            pre.length + suf.length + ((env name).getD []).length - (name.length + 3) := by
          rw [← e4]
          simp only [List.length_append]
        simp only [e1, e2, e3, e4]
        simp only [staysWithin, hreq, if_false, Bool.false_eq_true]
        by_cases hcap : capacity <
            pre.length + suf.length + ((env name).getD []).length - (name.length + 3)
        · have hd : decide (pre.length + suf.length + ((env name).getD []).length -
              (name.length + 3) ≤ capacity) = false := by
            simp only [decide_eq_false_iff_not]
            omega
          rw [if_pos hcap, hd]
          simp
        · have hd : decide (pre.length + suf.length + ((env name).getD []).length -
              (name.length + 3) ≤ capacity) = true := by
            simp only [decide_eq_true_eq]
            omega
          rw [if_neg hcap, hd, Bool.true_and]
          rw [ih (pre ++ suf.take pos ++ (env name).getD []) (suf.drop (pos + len))
            (by simp only [List.length_drop]; omega), e5]
          have hfu : (if required = true then firstUnset env suf else none) =
              (if required = true then firstUnset env (suf.drop (pos + len)) else none) := by
            cases required with
            | false => rfl
            | true =>
              cases hv : env name with
              | none => simp [hv] at hreq
              | some v => simp [firstUnset, hph, List.find?_cons, hv]
          simp only [substituteSpec, hfu, hex]
          split
          · split <;> simp [Except.map, List.append_assoc]
          · rfl

/-- The source function and the contract agree on every input on which each replacement
keeps the string within its capacity; on the others the source function has left what
C++ defines. -/
theorem substituteEnvVars_eq_substituteSpec (env : Env) (value : List Char) (required : Bool) :
    substituteEnvVars env value required =
      if replacesInPlace env value required = true then substituteSpec env value required
      else .error invalidatedIterator := by
  have h := loop_eq_substituteSpec env required (basic_string.capacity value) value.length
    [] value (Nat.le_refl _)
  simp only [List.nil_append, List.length_nil, Nat.zero_add] at h
  rw [substituteEnvVars, h, replacesInPlace]
  split
  · cases substituteSpec env value required <;> simp [Except.map]
  · rfl

/-- The pieces are a cut of the value: put back together they give the value. -/
theorem piecesFrom_source (s : List Char) (k : Nat) :
    (piecesFrom k s).flatMap Piece.source = s.drop k := by
  induction s generalizing k with
  | nil => simp [piecesFrom]
  | cons c cs ih =>
    cases k with
    | succ k => simp only [piecesFrom, List.drop_succ_cons]; exact ih k
    | zero =>
      simp only [piecesFrom, List.drop_zero]
      split
      · rename_i name hp
        obtain ⟨c1, n, tl, hs, -, -, rfl⟩ := placeholderAt_eq_some_iff.1 hp
        simp only [List.cons.injEq] at hs
        obtain ⟨rfl, rfl⟩ := hs
        simp only [List.flatMap_cons, Piece.source, ih]
        simp
      · simp only [List.flatMap_cons, Piece.source, ih]
        simp

theorem placeholders_isIdentifier (s : List Char) (k : Nat) :
    ∀ p ∈ piecesFrom k s, ∀ name, p = Piece.placeholder name → isIdentifier name = true := by
  induction s generalizing k with
  | nil => simp [piecesFrom]
  | cons c cs ih =>
    cases k with
    | succ k => simp only [piecesFrom]; exact ih k
    | zero =>
      simp only [piecesFrom]
      split
      · rename_i name hp
        obtain ⟨c1, n, tl, -, hc, hn, rfl⟩ := placeholderAt_eq_some_iff.1 hp
        intro p hmem nm hnm
        rcases List.mem_cons.1 hmem with rfl | hmem
        · cases hnm
          simpa [isIdentifier, hc] using hn
        · exact ih _ p hmem nm hnm
      · intro p hmem nm hnm
        rcases List.mem_cons.1 hmem with rfl | hmem
        · cases hnm
        · exact ih _ p hmem nm hnm

/-! ### Claims about `substituteEnvVars` -/

theorem staysWithin_of_not_longer (env : Env) (required : Bool) (capacity : Nat) :
    ∀ (ps : List Piece) (size : Nat), size ≤ capacity →
      (∀ name, Piece.placeholder name ∈ ps →
        ((env name).getD []).length ≤ name.length + 3) →
      staysWithin env required capacity size ps = true := by
  intro ps
  induction ps with
  | nil => intro size _ _; rfl
  | cons p rest ih =>
    intro size hsize hshort
    cases p with
    | text c =>
      simp only [staysWithin]
      exact ih size hsize fun name hm => hshort name (List.mem_cons_of_mem _ hm)
    | placeholder name =>
      simp only [staysWithin]
      split
      · rfl
      · have h1 := hshort name (List.mem_cons_self _ _)
        have h2 : size + ((env name).getD []).length - (name.length + 3) ≤ capacity := by
          omega
        rw [ih _ h2 fun n hm => hshort n (List.mem_cons_of_mem _ hm)]
        simp [h2]

theorem mem_placeholders_iff {value name : List Char} :
    name ∈ placeholders value ↔ Piece.placeholder name ∈ pieces value := by
  simp only [placeholders, List.mem_filterMap]
  constructor
  · rintro ⟨p, hp, hn⟩
    cases p with
    | text c => cases hn
    | placeholder n =>
      simp only [Option.some.injEq] at hn
      rw [← hn]
      exact hp
  · intro h
    exact ⟨_, h, rfl⟩

/-- C1, as the code has it. The pieces of a value are a cut of it into single characters
and placeholders `${NAME}` with NAME an identifier, taken leftmost first and not
overlapping. When every placeholder's variable is set, or when `required` is false:
`substituteEnvVars` returns the value with every placeholder piece replaced by the
environment's value of its name (the empty string for an unset one) and every other
piece unchanged PROVIDED every replacement leaves the string within the capacity of the
copy of the value, as is the case when no placeholder's value is longer than the
placeholder; when a replacement makes the string outgrow that capacity, the call uses an
invalidated iterator (line 33) and has no defined result. -/
theorem substituteEnvVars_replaces_every_placeholder (env : Env) (value : List Char)
    (required : Bool)
    (h : required = false ∨ ∀ name ∈ placeholders value, env name ≠ none) :
    (pieces value).flatMap Piece.source = value ∧
    (∀ name, Piece.placeholder name ∈ pieces value → isIdentifier name = true) ∧
    (replacesInPlace env value required = true →
      substituteEnvVars env value required =
        .ok ((pieces value).flatMap (Piece.replaced env))) ∧
    (replacesInPlace env value required = false →
      substituteEnvVars env value required = .error invalidatedIterator) ∧
    ((∀ name ∈ placeholders value, ((env name).getD []).length ≤ name.length + 3) →
      replacesInPlace env value required = true) := by
  refine ⟨by simpa using piecesFrom_source value 0,
    fun name hm => placeholders_isIdentifier value 0 _ hm name rfl, fun hfit => ?_,
    fun hfit => ?_, fun hshort => ?_⟩
  · rw [substituteEnvVars_eq_substituteSpec, if_pos hfit, substituteSpec]
    have hnone : (if required = true then firstUnset env value else none) = none := by
      rcases h with rfl | h
      · rfl
      · split
        · simp only [firstUnset, List.find?_eq_none, Option.isNone_iff_eq_none]
          exact h
        · rfl
    rw [hnone]
    rfl
  · rw [substituteEnvVars_eq_substituteSpec, hfit]
    rfl
  · exact staysWithin_of_not_longer env required _ _ _ (le_max_right _ _)
      fun name hm => hshort name (mem_placeholders_iff.2 hm)

/-- C1, the example of the specification: with `A=foo` and `B=bar` the value
`${A}-${B}` becomes `foo-bar`. -/
theorem substituteEnvVars_replaces_every_placeholder_witness :
    (∀ name ∈ placeholders "${A}-${B}".toList, envFooBar name ≠ none) ∧
    substituteEnvVars envFooBar "${A}-${B}".toList true = .ok "foo-bar".toList :=
  ⟨by decide,
    ((substituteEnvVars_replaces_every_placeholder envFooBar "${A}-${B}".toList true
      (Or.inr (by decide))).2.2.1 (by decide)).trans (by decide)⟩

/-- C1, a value on which the code has no defined result: with `HOME=/home/alice` the
first replacement in `${HOME}/backups/${HOME}` (23 characters, the capacity of the copy)
makes a string of 27 characters, so the string moves and line 33 reads the invalidated
iterator; the claimed result is `/home/alice/backups//home/alice`. -/
theorem substituteEnvVars_growing_replacement_is_undefined :
    (∀ name ∈ placeholders "${HOME}/backups/${HOME}".toList, envHome name ≠ none) ∧
    (pieces "${HOME}/backups/${HOME}".toList).flatMap (Piece.replaced envHome) =
      "/home/alice/backups//home/alice".toList ∧
    substituteEnvVars envHome "${HOME}/backups/${HOME}".toList true =
      .error invalidatedIterator ∧
    substituteEnvVars envHome "${HOME}/backups/${HOME}".toList true ≠
      .ok "/home/alice/backups//home/alice".toList := by
  have h : substituteEnvVars envHome "${HOME}/backups/${HOME}".toList true =
      .error invalidatedIterator :=
    (substituteEnvVars_eq_substituteSpec _ _ _).trans (by decide)
  refine ⟨by decide, by decide, h, ?_⟩
  rw [h]
  exact fun hne => by cases hne

/-- C2, as the code has it. As long as every replacement leaves the string within the
capacity of the copy of the value: with `required` true, `substituteEnvVars` fails
exactly when some placeholder of the value names a variable that is unset; the failure
is then a ConfigurationError whose message names the leftmost such placeholder (every
placeholder before it is set); with `required` false it never fails. When a replacement
(one in front of the first unset placeholder, if `required`) makes the string outgrow
that capacity, the call uses an invalidated iterator and has no defined result,
whatever `required` is. -/
theorem substituteEnvVars_fails_iff_unset (env : Env) (value : List Char) :
    (replacesInPlace env value true = true →
      ((∃ e, substituteEnvVars env value true = .error e) ↔
        ∃ name ∈ placeholders value, env name = none) ∧
      (∀ e, substituteEnvVars env value true = .error e ↔
        ∃ before name after, placeholders value = before ++ name :: after ∧
          (∀ n ∈ before, env n ≠ none) ∧ env name = none ∧
          e = ⟨.ConfigurationError, "Environment variable not set: ".toList ++ name⟩)) ∧
    (replacesInPlace env value false = true →
      ∀ e, substituteEnvVars env value false ≠ .error e) ∧
    (∀ required, replacesInPlace env value required = false →
      substituteEnvVars env value required = .error invalidatedIterator) := by
  refine ⟨fun hfit => ?_, fun hfit e => ?_, fun required hfit => ?_⟩
  · have key : ∀ e, substituteEnvVars env value true = .error e ↔
        ∃ before name after, placeholders value = before ++ name :: after ∧
          (∀ n ∈ before, env n ≠ none) ∧ env name = none ∧
          e = ⟨.ConfigurationError, "Environment variable not set: ".toList ++ name⟩ := by
      intro e
      rw [substituteEnvVars_eq_substituteSpec, if_pos hfit, substituteSpec]
      simp only [if_true, firstUnset]
      constructor
      · intro h
        split at h
        · rename_i name hf
          obtain ⟨hp, before, after, hsplit, hbefore⟩ := List.find?_eq_some.1 hf
          refine ⟨before, name, after, hsplit, ?_, by simpa using hp, ?_⟩
          · intro n hn hnone
            have := hbefore n hn
            simp [hnone] at this
          · cases h
            rfl
        · cases h
      · rintro ⟨before, name, after, hsplit, hbefore, hname, rfl⟩
        have hf : List.find? (fun name => (env name).isNone) (placeholders value) =
            some name := by
          rw [List.find?_eq_some]
          refine ⟨by simp [hname], before, after, hsplit, ?_⟩
          intro n hn
          cases hv : env n with
          | none => exact absurd hv (hbefore n hn)
          | some v => simp
        rw [hf]
    refine ⟨?_, key⟩
    constructor
    · rintro ⟨e, he⟩
      obtain ⟨before, name, after, hsplit, -, hname, -⟩ := (key e).1 he
      exact ⟨name, by rw [hsplit]; simp, hname⟩
    · rintro ⟨name, hmem, hname⟩
      rw [substituteEnvVars_eq_substituteSpec, if_pos hfit, substituteSpec]
      simp only [if_true, firstUnset]
      cases hf : List.find? (fun name => (env name).isNone) (placeholders value) with
      | none =>
        rw [List.find?_eq_none] at hf
        have := hf name hmem
        simp [hname] at this
      | some n => exact ⟨_, rfl⟩
  · rw [substituteEnvVars_eq_substituteSpec, if_pos hfit, substituteSpec]
    simp
  · rw [substituteEnvVars_eq_substituteSpec, hfit]
    rfl

/-- C2, the example of the specification: with `A=foo` set and `B` unset the value
`${A}-${B}` fails, and the error names `B`. -/
theorem substituteEnvVars_fails_iff_unset_witness :
    substituteEnvVars envFoo "${A}-${B}".toList true =
      .error ⟨.ConfigurationError, "Environment variable not set: B".toList⟩ :=
  (((substituteEnvVars_fails_iff_unset envFoo "${A}-${B}".toList).1 (by decide)).2 _).2
    ⟨["A".toList], "B".toList, [], by decide, by decide, by decide, by decide⟩

/-- C2, two values on which the code does not do what is claimed, with
`HOME=/home/alice` and nothing else set. With `required` true, `${HOME}/${MISSING}` has
the unset placeholder `MISSING`, yet the call does not end in the ConfigurationError
that names it: the replacement of `${HOME}` in front of it makes the string outgrow its
capacity. With `required` false, `${HOME}/backups/${HOME}` does not give a result. -/
theorem substituteEnvVars_undefined_before_unset :
    (∃ name ∈ placeholders "${HOME}/${MISSING}".toList, envHome name = none) ∧
    substituteEnvVars envHome "${HOME}/${MISSING}".toList true =
      .error invalidatedIterator ∧
    substituteEnvVars envHome "${HOME}/${MISSING}".toList true ≠
      .error ⟨.ConfigurationError, "Environment variable not set: MISSING".toList⟩ ∧
    substituteEnvVars envHome "${HOME}/backups/${HOME}".toList false =
      .error invalidatedIterator := by
  have h : substituteEnvVars envHome "${HOME}/${MISSING}".toList true =
      .error invalidatedIterator :=
    (substituteEnvVars_eq_substituteSpec _ _ _).trans (by decide)
  refine ⟨by decide, h, ?_, (substituteEnvVars_eq_substituteSpec _ _ _).trans (by decide)⟩
  rw [h]
  decide

/-! ## `Config::fromFile` -/

theorem bind_eq_ok {α β : Type} {x : Except Error α} {f : α → Except Error β} {b : β} :
    (x >>= f) = .ok b ↔ ∃ a, x = .ok a ∧ f a = .ok b := by
  cases x with
  | error e => simp [bind, Except.bind]
  | ok a => simp [bind, Except.bind]

theorem DB_CHECK_eq_ok {condition : Bool} {kind : ErrorKind} {message : List Char}
    {a : Unit} : DB_CHECK condition kind message = .ok a ↔ condition = true := by
  cases condition <;> simp [DB_CHECK, DB_THROW]

/-- A configuration that passes the validation of lines 262-294 has the invariants. -/
theorem validate_ok_invariant {config : Config} (h : fromFile.validate config = .ok ()) :
    config.invariant := by
  unfold fromFile.validate at h
  simp only [bind_eq_ok, DB_CHECK_eq_ok, exists_const] at h
  obtain ⟨-, h⟩ := h
  have hcomp : ∀ k : Except Error Unit,
      (if config.backup.compression.enabled = true then do
          DB_CHECK (config.backup.compression.format == "gzip".toList ||
              config.backup.compression.format == "bzip2".toList ||
              config.backup.compression.format == "xz".toList)
            .ConfigurationError "Invalid compression format".toList
          DB_CHECK (config.backup.compression.level == "low".toList ||
              config.backup.compression.level == "medium".toList ||
              config.backup.compression.level == "high".toList)
            .ConfigurationError "Invalid compression level".toList
          k
        else do
          pure PUnit.unit
          k) = .ok () →
      (config.backup.compression.enabled = true →
        config.backup.compression.format ∈ ["gzip".toList, "bzip2".toList, "xz".toList] ∧
        config.backup.compression.level ∈ ["low".toList, "medium".toList, "high".toList]) := by
    intro k hk hen
    rw [if_pos hen] at hk
    simp only [bind_eq_ok, DB_CHECK_eq_ok, exists_const] at hk
    obtain ⟨hf, hl, -⟩ := hk
    simp only [Bool.or_eq_true, beq_iff_eq] at hf hl
    simp only [List.mem_cons, List.mem_singleton, List.not_mem_nil, or_false]
    exact ⟨by tauto, by tauto⟩
  unfold Config.invariant
  split at h
  · rename_i ht
    simp only [bind_eq_ok, DB_CHECK_eq_ok, exists_const] at h
    obtain ⟨hhost, hport, hdb, -, -, -, h⟩ := h
    refine ⟨?_, hcomp _ h⟩
    rw [if_neg ht]
    simp only [Bool.not_eq_true', List.isEmpty_eq_false, decide_eq_true_eq] at hhost hport hdb
    exact ⟨hhost, hport, hdb⟩
  · rename_i ht
    simp only [bind_eq_ok, DB_CHECK_eq_ok, exists_const] at h
    obtain ⟨hdb, -, -, -, h⟩ := h
    refine ⟨?_, hcomp _ h⟩
    rw [if_pos (not_not.1 ht)]
    simpa using hdb

theorem block_error_of_database {env : Env} {init : Config} {configPath : List Char}
    {configJson : Json} {e : Error} (h : fromFile.database env configJson init = .error e) :
    fromFile.block env init configPath (.parsed configJson) = .error e := by
  simp [fromFile.block, h, bind, Except.bind]

/-- C3. A `Config` that `fromFile` returns is the one its block built and validated, and
it has the invariants of the data model: a `sqlite` database has its path, any other has
host, a positive port and a name, and enabled compression has a known format and level.
Here the handler of `DB_TRY_CATCH_LOG` rethrows, as the comment on line 299 says, so a
failed load returns no `Config` at all. -/
theorem fromFile_returns_only_valid_config (env : Env) (init : Config)
    (configPath : List Char) (file : ConfigFile) (config : Config)
    (h : fromFile true env init configPath file = .returned config) :
    fromFile.block env init configPath file = .ok config ∧ config.invariant := by
  unfold fromFile DB_TRY_CATCH_LOG at h
  split at h
  · rename_i c hb
    cases h
    refine ⟨hb, ?_⟩
    cases file with
    | notFound => simp [fromFile.block, DB_THROW] at hb
    | parseError what => simp [fromFile.block, DB_THROW] at hb
    | parsed configJson =>
      simp only [fromFile.block, bind_eq_ok, exists_const] at hb
      obtain ⟨_, _, _, _, _, _, _, _, _, _, _, _, _, hv, hc⟩ := hb
      cases hc
      exact validate_ok_invariant hv
  · simp at h

/-- C3, an example: the PostgreSQL configuration loads, and what is returned has the
invariants. -/
theorem fromFile_returns_only_valid_config_witness :
    fromFile true (fun _ => none) Config.default [] (.parsed examplePostgres) =
        .returned examplePostgresConfig ∧
      examplePostgresConfig.invariant :=
  ⟨by decide,
    (fromFile_returns_only_valid_config (fun _ => none) Config.default []
      (.parsed examplePostgres) examplePostgresConfig (by decide)).2⟩

/-- The other reading of `DB_TRY_CATCH_LOG`: were its handler to fall through, a failed
load would return the default-constructed `Config` of line 300. -/
theorem fromFile_falls_through_to_default (env : Env) (init : Config)
    (configPath : List Char) (file : ConfigFile) (e : Error)
    (h : fromFile.block env init configPath file = .error e) :
    fromFile false env init configPath file = .returned init := by
  simp [fromFile, DB_TRY_CATCH_LOG, h]

/-- The other reading of `DB_TRY_CATCH_LOG`, an example: with a handler that falls
through, the SQLite configuration without a path loads as the default `Config`. -/
theorem fromFile_falls_through_to_default_witness :
    fromFile false (fun _ => none) Config.default [] (.parsed exampleSqliteNoPath) =
      .returned Config.default ∧ ¬ Config.default.invariant :=
  ⟨fromFile_falls_through_to_default (fun _ => none) Config.default []
      (.parsed exampleSqliteNoPath)
      ⟨.ConfigurationError, "Missing SQLite database file path".toList⟩ (by decide),
    by decide⟩

/-- C4. A configuration whose database section has type `sqlite` and no `database` key,
and one whose database type is another string and whose database section has no `host`
key, fail with a ConfigurationError. The error is raised in the database section of the
block (lines 56-83), the first one, whatever `port`, the storage section and the logging
section are: nothing but the database section is constrained here. -/
theorem fromFile_missing_database_field_fails (env : Env) (init : Config)
    (configPath : List Char) (configJson dbConfig : Json)
    (hdb : configJson.find "database".toList = some dbConfig) :
    (dbConfig.find "type".toList = some (.string "sqlite".toList) →
      dbConfig.contains "database".toList = false →
      fromFile.database env configJson init =
          .error ⟨.ConfigurationError, "Missing SQLite database file path".toList⟩ ∧
        fromFile true env init configPath (.parsed configJson) =
          .threw ⟨.ConfigurationError, "Missing SQLite database file path".toList⟩) ∧
    (∀ type, dbConfig.find "type".toList = some (.string type) → type ≠ "sqlite".toList →
      dbConfig.contains "host".toList = false →
      fromFile.database env configJson init =
          .error ⟨.ConfigurationError, "Missing database host".toList⟩ ∧
        fromFile true env init configPath (.parsed configJson) =
          .threw ⟨.ConfigurationError, "Missing database host".toList⟩) := by
  constructor
  · intro htype hno
    have h1 : fromFile.database env configJson init =
        .error ⟨.ConfigurationError, "Missing SQLite database file path".toList⟩ := by
      simp only [Json.contains] at hno
      simp at hdb htype hno
      simp [fromFile.database, Json.contains, Json.get, hdb, htype, hno, Json.getString,
        DB_CHECK, DB_THROW, bind, Except.bind]
    exact ⟨h1, by simp [fromFile, DB_TRY_CATCH_LOG, block_error_of_database h1]⟩
  · intro type htype hne hno
    have h1 : fromFile.database env configJson init =
        .error ⟨.ConfigurationError, "Missing database host".toList⟩ := by
      simp only [Json.contains] at hno
      simp at hdb htype hno hne
      simp [fromFile.database, Json.contains, Json.get, hdb, htype, hno, hne, Json.getString,
        DB_CHECK, DB_THROW, bind, Except.bind]
    exact ⟨h1, by simp [fromFile, DB_TRY_CATCH_LOG, block_error_of_database h1]⟩

/-- C4, the examples of the specification: an SQLite configuration without `database`
and a PostgreSQL configuration with `port` but without `host` both fail. -/
theorem fromFile_missing_database_field_fails_witness :
    fromFile true (fun _ => none) Config.default [] (.parsed exampleSqliteNoPath) =
        .threw ⟨.ConfigurationError, "Missing SQLite database file path".toList⟩ ∧
      fromFile true (fun _ => none) Config.default [] (.parsed examplePostgresNoHost) =
        .threw ⟨.ConfigurationError, "Missing database host".toList⟩ :=
  ⟨((fromFile_missing_database_field_fails (fun _ => none) Config.default []
        exampleSqliteNoPath (Json.mkObj [("type", Json.mkStr "sqlite")]) rfl).1 rfl rfl).2,
    ((fromFile_missing_database_field_fails (fun _ => none) Config.default []
        examplePostgresNoHost
        (Json.mkObj [("type", Json.mkStr "postgres"), ("port", .number 5432),
          ("database", Json.mkStr "shop")]) rfl).2
      "postgres".toList rfl (by decide) rfl).2⟩

/-- One turn of the loop of lines 106-123 on a string token. -/
theorem preferredSources_step (t : List Char) (rest : List Json)
    (sources : List CredentialSource) :
    fromFile.preferredSources (Json.string t :: rest) sources =
      match CredentialSource.ofToken t with
      | some source => fromFile.preferredSources rest (sources ++ [source])
      | none => .error ⟨.ConfigurationError, "Invalid credential source: ".toList ++ t⟩ := by
  simp only [fromFile.preferredSources, Json.getString, bind, Except.bind,
    CredentialSource.ofToken]
  split_ifs <;> rfl

/-- The loop of lines 106-123 on a list of string tokens: it stops at the first token
that is none of the six, and otherwise appends the sources of all tokens in order. -/
theorem preferredSources_of_strings (tokens : List (List Char)) :
    ∀ sources : List CredentialSource,
      fromFile.preferredSources (tokens.map Json.string) sources =
        match tokens.find? (fun t => (CredentialSource.ofToken t).isNone) with
        | some bad =>
          .error ⟨.ConfigurationError, "Invalid credential source: ".toList ++ bad⟩
        | none => .ok (sources ++ tokens.filterMap CredentialSource.ofToken) := by
  induction tokens with
  | nil => intro sources; simp [fromFile.preferredSources]
  | cons t ts ih =>
    intro sources
    rw [List.map_cons, preferredSources_step]
    cases h : CredentialSource.ofToken t with
    | none => simp [List.find?_cons, h]
    | some source => simp [List.find?_cons, h, List.filterMap_cons, ih]

theorem pure_eq_ok {α : Type} {a b : α} : (pure a : Except Error α) = .ok b ↔ a = b := by
  simp [pure, Except.pure]

theorem yields_pure {α : Type} {P : α → Prop} {a : α} (h : P a) :
    Yields (pure a : Except Error α) P := by
  unfold Yields
  intro b hb
  cases hb
  exact h

theorem yields_bind {α β : Type} {P : β → Prop} {x : Except Error α}
    {f : α → Except Error β} (h : ∀ a, x = .ok a → Yields (f a) P) : Yields (x >>= f) P := by
  unfold Yields at h ⊢
  intro b hb
  obtain ⟨a, ha, hfa⟩ := bind_eq_ok.1 hb
  exact h a ha b hfa

theorem yields_ite {α : Type} {P : α → Prop} {c : Prop} [Decidable c]
    {t e : Except Error α} (ht : c → Yields t P) (he : ¬c → Yields e P) :
    Yields (if c then t else e) P := by
  split
  · exact ht ‹_›
  · exact he ‹_›

theorem storage_frame (configJson : Json) (config : Config) :
    Yields (fromFile.storage configJson config) (fun c => c.database = config.database) := by
  unfold fromFile.storage
  repeat' first
    | exact yields_pure rfl
    | (apply yields_bind; intro _ _)
    | (apply yields_ite <;> intro _)

theorem logging_frame (env : Env) (configJson : Json) (config : Config) :
    Yields (fromFile.logging env configJson config)
      (fun c => c.database = config.database) := by
  unfold fromFile.logging
  repeat' first
    | exact yields_pure rfl
    | (apply yields_bind; intro _ _)
    | (apply yields_ite <;> intro _)

theorem backup_frame (configJson : Json) (config : Config) :
    Yields (fromFile.backup configJson config) (fun c => c.database = config.database) := by
  unfold fromFile.backup
  repeat' first
    | exact yields_pure rfl
    | (apply yields_bind; intro _ _)
    | (apply yields_ite <;> intro _)

theorem security_frame (env : Env) (configJson : Json) (config : Config) :
    Yields (fromFile.security env configJson config)
      (fun c => c.database = config.database) := by
  unfold fromFile.security
  repeat' first
    | exact yields_pure rfl
    | (apply yields_bind; intro _ _)
    | (apply yields_ite <;> intro _)

theorem database_frame (env : Env) (configJson : Json) (config : Config) :
    Yields (fromFile.database env configJson config)
      (fun c => c.database.credentials = config.database.credentials) := by
  unfold fromFile.database
  repeat' first
    | exact yields_pure rfl
    | (apply yields_bind; intro _ _)
    | (apply yields_ite <;> intro _)

theorem credentials_sources (env : Env) (dbConfig credConfig : Json) (config : Config)
    (tokens : List (List Char))
    (hcred : dbConfig.find "credentials".toList = some credConfig)
    (htok : credConfig.find "preferredSources".toList = some (.array (tokens.map .string))) :
    Yields (fromFile.credentials env dbConfig config) (fun c =>
      (∀ t ∈ tokens, CredentialSource.ofToken t ≠ none) ∧
      c.database.credentials.preferredSources =
        config.database.credentials.preferredSources ++
          tokens.filterMap CredentialSource.ofToken) := by
  have hc : dbConfig.contains "credentials".toList = true := by
    unfold Json.contains; rw [hcred]; rfl
  have hp : credConfig.contains "preferredSources".toList = true := by
    unfold Json.contains; rw [htok]; rfl
  have hg : dbConfig.get "credentials".toList = credConfig := by
    unfold Json.get; rw [hcred]; rfl
  have hl : (credConfig.get "preferredSources".toList).elements = tokens.map .string := by
    unfold Json.get; rw [htok]; rfl
  unfold fromFile.credentials
  rw [if_pos hc, hg]
  dsimp only
  rw [hl]
  simp only [hp, if_true, preferredSources_of_strings]
  repeat' first
    | (apply yields_bind; intro _ _)
    | (apply yields_ite <;> intro _)
    | apply yields_pure
  all_goals
    rename_i hloop _ _
    split at hloop
    · cases hloop
    · rename_i hfind
      cases hloop
      refine ⟨fun t ht => ?_, rfl⟩
      have := List.find?_eq_none.1 hfind t ht
      simpa [Option.isNone_iff_eq_none] using this

theorem find_first_unrecognised {tokens before after : List (List Char)} {bad : List Char}
    (hsplit : tokens = before ++ bad :: after)
    (hbefore : ∀ t ∈ before, CredentialSource.ofToken t ≠ none)
    (hbad : CredentialSource.ofToken bad = none) :
    tokens.find? (fun t => (CredentialSource.ofToken t).isNone) = some bad := by
  rw [List.find?_eq_some]
  refine ⟨by simp [hbad], before, after, hsplit, fun t ht => ?_⟩
  cases h : CredentialSource.ofToken t with
  | none => exact absurd h (hbefore t ht)
  | some s => rfl

theorem find_none_of_recognised {tokens : List (List Char)}
    (hall : ∀ t ∈ tokens, CredentialSource.ofToken t ≠ none) :
    tokens.find? (fun t => (CredentialSource.ofToken t).isNone) = none := by
  rw [List.find?_eq_none]
  intro t ht
  simpa [Option.isNone_iff_eq_none] using hall t ht

theorem filterMap_ofToken_of_recognised {tokens : List (List Char)}
    (hall : ∀ t ∈ tokens, CredentialSource.ofToken t ≠ none) :
    (tokens.filterMap CredentialSource.ofToken).map some =
      tokens.map CredentialSource.ofToken := by
  induction tokens with
  | nil => rfl
  | cons t ts ih =>
    have ht := hall t (List.mem_cons_self _ _)
    cases hs : CredentialSource.ofToken t with
    | none => exact absurd hs ht
    | some s =>
      simp only [List.filterMap_cons, hs, List.map_cons]
      rw [ih (fun x hx => hall x (List.mem_cons_of_mem _ hx))]

theorem credentials_bad_token (env : Env) (dbConfig credConfig : Json) (config : Config)
    (tokens before after : List (List Char)) (bad : List Char)
    (hcred : dbConfig.find "credentials".toList = some credConfig)
    (htok : credConfig.find "preferredSources".toList = some (.array (tokens.map .string)))
    (hsplit : tokens = before ++ bad :: after)
    (hbefore : ∀ t ∈ before, CredentialSource.ofToken t ≠ none)
    (hbad : CredentialSource.ofToken bad = none)
    (hu : credConfig.find "username".toList = none ∨
      ∃ u v, credConfig.find "username".toList = some (.string u) ∧
        substituteEnvVars env u true = .ok v)
    (hk : credConfig.find "passwordKey".toList = none ∨
      ∃ k, credConfig.find "passwordKey".toList = some (.string k)) :
    fromFile.credentials env dbConfig config =
      .error ⟨.ConfigurationError, "Invalid credential source: ".toList ++ bad⟩ := by
  have hfind := find_first_unrecognised hsplit hbefore hbad
  have hc : dbConfig.contains "credentials".toList = true := by
    unfold Json.contains; rw [hcred]; rfl
  have hp : credConfig.contains "preferredSources".toList = true := by
    unfold Json.contains; rw [htok]; rfl
  have hg : dbConfig.get "credentials".toList = credConfig := by
    unfold Json.get; rw [hcred]; rfl
  have hl : (credConfig.get "preferredSources".toList).elements = tokens.map .string := by
    unfold Json.get; rw [htok]; rfl
  unfold fromFile.credentials
  rw [if_pos hc, hg]
  dsimp only
  rw [hl]
  simp only [hp, if_true, preferredSources_of_strings, hfind]
  generalize "username".toList = keyU at hu ⊢
  generalize "passwordKey".toList = keyK at hk ⊢
  generalize "Invalid credential source: ".toList = msg
  rcases hu with hu | ⟨u, v, hu, hv⟩ <;> rcases hk with hk | ⟨k, hk⟩
  · simp [Json.contains, Json.get, Json.getString, hu, hk, bind, Except.bind, pure,
      Except.pure]
  · simp [Json.contains, Json.get, Json.getString, hu, hk, bind, Except.bind, pure,
      Except.pure]
  · simp [Json.contains, Json.get, Json.getString, hu, hk, hv, bind, Except.bind, pure,
      Except.pure]
  · simp [Json.contains, Json.get, Json.getString, hu, hk, hv, bind, Except.bind, pure,
      Except.pure]

theorem get_of_find {j v : Json} {key : List Char} (h : j.find key = some v) :
    j.get key = v := by
  unfold Json.get; rw [h]; rfl

/-- C5. On every list of string tokens, the loop of lines 106-123 appends the sources
of the tokens, token by token in the same order, when every token is one of the six,
and otherwise throws the ConfigurationError `Invalid credential source: ` followed by
the first token that is none of them; it never pushes a source for such a token. For
`Config::fromFile` with that list as `credentials.preferredSources`: if the load returns
a `Config`, every token is one of the six and `database.credentials.preferredSources` is
the list of their sources (a default-constructed vector being empty); if some token is
none of the six, no `Config` is returned, and the load fails with the error of the loop
whenever the steps in front of the loop pass (the database section, the credentials'
`username` and `passwordKey`). -/
theorem fromFile_preferredSources_mapped_or_rejected (env : Env) (init : Config)
    (configPath : List Char) (configJson dbConfig credConfig : Json)
    (tokens : List (List Char))
    (hinit : init.database.credentials.preferredSources = [])
    (hdb : configJson.find "database".toList = some dbConfig)
    (hcred : dbConfig.find "credentials".toList = some credConfig)
    (htok : credConfig.find "preferredSources".toList =
      some (.array (tokens.map .string))) :
    (∀ sources : List CredentialSource,
      ((∀ t ∈ tokens, CredentialSource.ofToken t ≠ none) →
        ∃ mapped,
          fromFile.preferredSources (tokens.map .string) sources = .ok (sources ++ mapped) ∧
          mapped.map some = tokens.map CredentialSource.ofToken) ∧
      (∀ before bad after, tokens = before ++ bad :: after →
        (∀ t ∈ before, CredentialSource.ofToken t ≠ none) →
        CredentialSource.ofToken bad = none →
        fromFile.preferredSources (tokens.map .string) sources =
          .error ⟨.ConfigurationError, "Invalid credential source: ".toList ++ bad⟩)) ∧
    (∀ config, fromFile true env init configPath (.parsed configJson) = .returned config →
      (∀ t ∈ tokens, CredentialSource.ofToken t ≠ none) ∧
      config.database.credentials.preferredSources.map some =
        tokens.map CredentialSource.ofToken) ∧
    (∀ before bad after, tokens = before ++ bad :: after →
      (∀ t ∈ before, CredentialSource.ofToken t ≠ none) →
      CredentialSource.ofToken bad = none →
      (∀ config, fromFile true env init configPath (.parsed configJson) ≠ .returned config) ∧
      (∀ c1, fromFile.database env configJson init = .ok c1 →
        (credConfig.find "username".toList = none ∨
          ∃ u v, credConfig.find "username".toList = some (.string u) ∧
            substituteEnvVars env u true = .ok v) →
        (credConfig.find "passwordKey".toList = none ∨
          ∃ k, credConfig.find "passwordKey".toList = some (.string k)) →
        fromFile true env init configPath (.parsed configJson) =
          .threw ⟨.ConfigurationError, "Invalid credential source: ".toList ++ bad⟩)) := by
  have hloop : ∀ sources : List CredentialSource,
      ((∀ t ∈ tokens, CredentialSource.ofToken t ≠ none) →
        ∃ mapped,
          fromFile.preferredSources (tokens.map .string) sources = .ok (sources ++ mapped) ∧
          mapped.map some = tokens.map CredentialSource.ofToken) ∧
      (∀ before bad after, tokens = before ++ bad :: after →
        (∀ t ∈ before, CredentialSource.ofToken t ≠ none) →
        CredentialSource.ofToken bad = none →
        fromFile.preferredSources (tokens.map .string) sources =
          .error ⟨.ConfigurationError, "Invalid credential source: ".toList ++ bad⟩) := by
    intro sources
    constructor
    · intro hall
      refine ⟨tokens.filterMap CredentialSource.ofToken, ?_,
        filterMap_ofToken_of_recognised hall⟩
      rw [preferredSources_of_strings, find_none_of_recognised hall]
    · intro before bad after hsplit hbefore hbad
      rw [preferredSources_of_strings, find_first_unrecognised hsplit hbefore hbad]
  have hsucc : ∀ config, fromFile true env init configPath (.parsed configJson) =
      .returned config →
      (∀ t ∈ tokens, CredentialSource.ofToken t ≠ none) ∧
      config.database.credentials.preferredSources =
        tokens.filterMap CredentialSource.ofToken := by
    intro config h
    unfold fromFile DB_TRY_CATCH_LOG at h
    split at h
    · rename_i c hb
      cases h
      simp only [fromFile.block, bind_eq_ok, exists_const, pure_eq_ok] at hb
      obtain ⟨c1, h1, c2, h2, c3, h3, c4, h4, c5, h5, c6, h6, -, -, rfl⟩ := hb
      rw [get_of_find hdb] at h2
      have e1 := by have := database_frame env configJson init; unfold Yields at this; exact this c1 h1
      have e2 := by
        have := credentials_sources env dbConfig credConfig c1 tokens hcred htok
        unfold Yields at this; exact this c2 h2
      have e3 := by have := storage_frame configJson c2; unfold Yields at this; exact this c3 h3
      have e4 := by have := logging_frame env configJson c3; unfold Yields at this; exact this c4 h4
      have e5 := by have := backup_frame configJson c4; unfold Yields at this; exact this c5 h5
      have e6 := by have := security_frame env configJson c5; unfold Yields at this; exact this c6 h6
      simp only at e1 e2 e3 e4 e5 e6
      refine ⟨e2.1, ?_⟩
      rw [e6, e5, e4, e3, e2.2, e1, hinit, List.nil_append]
    · simp at h
  refine ⟨hloop, fun config h => ⟨(hsucc config h).1, ?_⟩, ?_⟩
  · rw [(hsucc config h).2]
    exact filterMap_ofToken_of_recognised (hsucc config h).1
  · intro before bad after hsplit hbefore hbad
    refine ⟨fun config h => ?_, fun c1 h1 hu hk => ?_⟩
    · have := (hsucc config h).1 bad (by rw [hsplit]; simp)
      exact this hbad
    · have h2 := credentials_bad_token env dbConfig credConfig c1 tokens before after bad
        hcred htok hsplit hbefore hbad hu hk
      have hb : fromFile.block env init configPath (.parsed configJson) =
          .error ⟨.ConfigurationError, "Invalid credential source: ".toList ++ bad⟩ := by
        simp only [fromFile.block, h1, get_of_find hdb, h2, bind, Except.bind]
      simp [fromFile, DB_TRY_CATCH_LOG, hb]

/-- C5, two examples: the tokens `environment, vault` load as `Environment, Vault`, and
the list `file, bogus, vault` makes the load fail naming `bogus`. -/
theorem fromFile_preferredSources_mapped_or_rejected_witness :
    (fromFile true (fun _ => none) Config.default [] (.parsed examplePostgres) =
        .returned examplePostgresConfig ∧
      examplePostgresConfig.database.credentials.preferredSources.map some =
        ["environment".toList, "vault".toList].map CredentialSource.ofToken) ∧
    fromFile true (fun _ => none) Config.default [] (.parsed exampleBogusSource) =
      .threw ⟨.ConfigurationError, "Invalid credential source: bogus".toList⟩ :=
  ⟨⟨by decide,
      ((fromFile_preferredSources_mapped_or_rejected (fun _ => none) Config.default []
        examplePostgres
        (Json.mkObj [("type", Json.mkStr "postgres"), ("host", Json.mkStr "localhost"),
          ("port", .number 5432), ("database", Json.mkStr "shop"),
          ("credentials", Json.mkObj [("passwordKey", Json.mkStr "k"),
            ("preferredSources", .array [Json.mkStr "environment", Json.mkStr "vault"])])])
        (Json.mkObj [("passwordKey", Json.mkStr "k"),
          ("preferredSources", .array [Json.mkStr "environment", Json.mkStr "vault"])])
        ["environment".toList, "vault".toList] rfl rfl rfl rfl).2.1
        examplePostgresConfig (by decide)).2⟩,
    ((fromFile_preferredSources_mapped_or_rejected (fun _ => none) Config.default []
        exampleBogusSource
        (Json.mkObj [("type", Json.mkStr "postgres"), ("host", Json.mkStr "localhost"),
          ("port", .number 5432), ("database", Json.mkStr "shop"),
          ("credentials", Json.mkObj [("passwordKey", Json.mkStr "k"),
            ("preferredSources",
              .array [Json.mkStr "file", Json.mkStr "bogus", Json.mkStr "vault"])])])
        (Json.mkObj [("passwordKey", Json.mkStr "k"),
          ("preferredSources",
            .array [Json.mkStr "file", Json.mkStr "bogus", Json.mkStr "vault"])])
        ["file".toList, "bogus".toList, "vault".toList] rfl rfl rfl rfl).2.2
        ["file".toList] "bogus".toList ["vault".toList] rfl (by decide) (by decide)).2
      _ rfl (Or.inl rfl) (Or.inr ⟨"k".toList, rfl⟩)⟩

/-! ## `BackupManager::backup` -/

/-- C6. For a backup type that is none of `full`, `incremental`, `differential` (the
empty one among them) the guarded block ends in a ValidationError before any call is
made: the run leaves the state as it found it, with no connection call and no
filesystem operation recorded, and reports failure, by `return false` when the handler
of `DB_TRY_CATCH_LOG` falls through and by the ValidationError itself when it
rethrows. -/
theorem backup_invalid_type_has_no_effect (rethrows : Bool) (w : World) (m_config : Config)
    (backupType : List Char) (s : State)
    (h : backupType ≠ "full".toList ∧ backupType ≠ "incremental".toList ∧
      backupType ≠ "differential".toList) :
    ∃ message,
      backup.error rethrows w m_config backupType s = some ⟨.ValidationError, message⟩ ∧
      message = (if backupType = [] then "Backup type cannot be empty".toList
        else "Invalid backup type: ".toList ++ backupType) ∧
      (backup rethrows w m_config backupType s).1 =
        (if rethrows then .threw ⟨.ValidationError, message⟩ else .returned false) ∧
      (backup rethrows w m_config backupType s).2 = s := by
  obtain ⟨h1, h2, h3⟩ := h
  by_cases he : backupType = []
  · subst he
    refine ⟨_, ?_, rfl, ?_, ?_⟩ <;>
      simp [backup.error, backup, backup.block, backup.prepare, DB_THROW, DB_TRY_CATCH_LOG]
  · have hne : backupType.isEmpty = false := by
      cases backupType with
      | nil => exact absurd rfl he
      | cons c cs => rfl
    simp at h1 h2 h3
    refine ⟨_, ?_, by rw [if_neg he], ?_, ?_⟩ <;>
      simp [backup.error, backup, backup.block, backup.prepare, DB_THROW, DB_TRY_CATCH_LOG, hne, h1,
        h2, h3]

/-- C6, the example of the specification: the backup type `bogus`. -/
theorem backup_invalid_type_has_no_effect_witness :
    ∃ message,
      backup.error false (exampleWorld workingCompressor) examplePostgresConfig
          "bogus".toList State.empty = some ⟨.ValidationError, message⟩ ∧
      message = "Invalid backup type: bogus".toList ∧
      (backup false (exampleWorld workingCompressor) examplePostgresConfig "bogus".toList
          State.empty).1 = .returned false ∧
      (backup false (exampleWorld workingCompressor) examplePostgresConfig "bogus".toList
          State.empty).2 = State.empty :=
  backup_invalid_type_has_no_effect false (exampleWorld workingCompressor)
    examplePostgresConfig "bogus".toList State.empty (by decide)

theorem removeTemp_fs_temp (tmp : List Char) (s : State) :
    (backup.removeTemp tmp s).fs tmp = false := by
  unfold backup.removeTemp
  by_cases h : s.fs tmp = true
  · simp [h, State.step, State.record, FileSystem.remove]
  · simp [h, State.record]

theorem removeTemp_fs_other (tmp : List Char) (s : State) (p : List Char) (h : p ≠ tmp) :
    (backup.removeTemp tmp s).fs p = s.fs p := by
  unfold backup.removeTemp
  by_cases h' : s.fs tmp = true
  · simp [h', State.step, State.record, FileSystem.remove, h]
  · simp [h', State.record]

theorem removeTemp_trace (tmp : List Char) (s : State) :
    (backup.removeTemp tmp s).trace =
      s.trace ++ Event.fs_exists tmp (s.fs tmp) ::
        (if s.fs tmp = true then [Event.remove tmp] else []) := by
  unfold backup.removeTemp
  by_cases h' : s.fs tmp = true
  · simp [h', State.step, State.record]
  · simp [h', State.record]

/-- The staging file is gone when lines 94-136 are left, on every path. -/
theorem finish_fs_temp (conn : IDBConnection) (m_config : Config)
    (compressor : Option Compressor) (tmp fin : List Char) (s : State) :
    (backup.finish conn m_config compressor tmp fin s).2.fs tmp = false := by
  unfold backup.finish
  split
  · exact removeTemp_fs_temp _ _
  · simp only [State.record]
    split
    · exact removeTemp_fs_temp _ _
    · split <;> exact removeTemp_fs_temp _ _

theorem tempPath_ne_finalPath (w : World) (m_config : Config) (backupType : List Char) :
    tempPath w m_config backupType ≠ finalPath w m_config backupType := by
  unfold tempPath finalPath backupFileName
  intro h
  simp only [List.append_assoc] at h
  have h' := List.append_cancel_left h
  simp at h'

theorem removeTemp_filter_publish (tmp : List Char) (s : State) :
    (backup.removeTemp tmp s).trace.filter Event.isPublish =
      s.trace.filter Event.isPublish := by
  rw [removeTemp_trace]
  split <;> simp [List.filter_append, List.filter_cons, Event.isPublish]

theorem removeTemp_filter_dump (tmp : List Char) (s : State) :
    (backup.removeTemp tmp s).trace.filter Event.isDump = s.trace.filter Event.isDump := by
  rw [removeTemp_trace]
  split <;> simp [List.filter_append, List.filter_cons, Event.isDump]

theorem prepare_trace_publish (rethrows : Bool) (w : World) (m_config : Config)
    (backupType : List Char) (s : State) :
    (backup.prepare rethrows w m_config backupType s).2.trace.filter Event.isPublish =
      s.trace.filter Event.isPublish := by
  unfold backup.prepare
  dsimp only
  repeat' split
  all_goals
    simp [State.record, State.step, Event.isPublish, removeTemp_filter_publish,
      List.filter_append, List.filter_cons]

theorem prepare_trace_dump (rethrows : Bool) (w : World) (m_config : Config)
    (backupType : List Char) (s : State) :
    (backup.prepare rethrows w m_config backupType s).2.trace.filter Event.isDump =
      s.trace.filter Event.isDump ++
        (match (backup.prepare rethrows w m_config backupType s).1 with
        | .ok _ => [Event.createBackup (tempPath w m_config backupType) true]
        | .error _ => []) := by
  unfold backup.prepare
  dsimp only
  repeat' split
  all_goals
    simp_all [State.record, State.step, Event.isDump, removeTemp_filter_dump,
      List.filter_append, List.filter_cons, DB_THROW]

theorem publish_trace (compressor : Option Compressor) (tmp fin : List Char) (s : State) :
    (backup.publish compressor tmp fin s).2.trace =
      s.trace ++ [publishEvent compressor tmp fin s.fs] := by
  unfold backup.publish publishEvent
  dsimp only
  repeat' split
  all_goals simp_all [State.record, State.step, DB_THROW]

theorem finish_trace_publish (conn : IDBConnection) (m_config : Config)
    (compressor : Option Compressor) (tmp fin : List Char) (s : State) :
    (backup.finish conn m_config compressor tmp fin s).2.trace.filter Event.isPublish =
      s.trace.filter Event.isPublish ++ [publishEvent compressor tmp fin s.fs] := by
  have hp := publish_trace compressor tmp fin s
  have hev : Event.isPublish (publishEvent compressor tmp fin s.fs) = true := by
    unfold publishEvent
    split <;> rfl
  have h1 : ∀ p b, Event.isPublish (.fs_exists p b) = false := fun _ _ => rfl
  have h2 : ∀ b, Event.isPublish (.disconnect b) = false := fun _ => rfl
  have h3 : ∀ m, Event.isPublish (.sendNotificationIfNeeded m) = false := fun _ => rfl
  unfold backup.finish
  split
  · rename_i heq
    rw [heq] at hp
    simp only at hp
    simp [removeTemp_filter_publish, hp, List.filter_append, List.filter_cons, hev]
  · rename_i heq
    rw [heq] at hp
    simp only at hp
    dsimp only
    repeat' split
    all_goals
      simp [State.record, removeTemp_filter_publish, hp, List.filter_append,
        List.filter_cons, hev, h1, h2, h3]

theorem finish_trace_dump (conn : IDBConnection) (m_config : Config)
    (compressor : Option Compressor) (tmp fin : List Char) (s : State) :
    (backup.finish conn m_config compressor tmp fin s).2.trace.filter Event.isDump =
      s.trace.filter Event.isDump := by
  have hp := publish_trace compressor tmp fin s
  have hev : Event.isDump (publishEvent compressor tmp fin s.fs) = false := by
    unfold publishEvent
    split <;> rfl
  have h1 : ∀ p b, Event.isDump (.fs_exists p b) = false := fun _ _ => rfl
  have h2 : ∀ b, Event.isDump (.disconnect b) = false := fun _ => rfl
  have h3 : ∀ m, Event.isDump (.sendNotificationIfNeeded m) = false := fun _ => rfl
  unfold backup.finish
  split
  · rename_i heq
    rw [heq] at hp
    simp only at hp
    simp [removeTemp_filter_dump, hp, List.filter_append, List.filter_cons, hev]
  · rename_i heq
    rw [heq] at hp
    simp only at hp
    dsimp only
    repeat' split
    all_goals
      simp [State.record, removeTemp_filter_dump, hp, List.filter_append,
        List.filter_cons, hev, h1, h2, h3]

/-- A failing compressor: the CompressionError of line 100 is caught on line 107 and the
block ends in the BackupError of line 112, which carries the caught message. -/
theorem finish_compress_fail (conn : IDBConnection) (m_config : Config)
    (compressor : Compressor) (tmp fin : List Char) (s : State)
    (h : (compressor.compressFile tmp fin s.fs).1 = false) :
    (backup.finish conn m_config (some compressor) tmp fin s).1 =
      .error ⟨.BackupError,
        "Backup failed: ".toList ++ "Failed to compress backup file".toList⟩ := by
  unfold backup.finish backup.publish
  simp [h, DB_THROW]

/-- Lines 94-136 end without an exception only with the final path in place. -/
theorem finish_ok (conn : IDBConnection) (m_config : Config)
    (compressor : Option Compressor) (tmp fin : List Char) (s : State) (b : Bool)
    (h : (backup.finish conn m_config compressor tmp fin s).1 = .ok b) :
    b = true ∧ (backup.finish conn m_config compressor tmp fin s).2.fs fin = true := by
  unfold backup.finish at h ⊢
  split at h
  · simp [DB_THROW] at h
  · rename_i heq
    simp only [heq]
    dsimp only at h ⊢
    split at h
    · simp [DB_THROW] at h
    · rename_i hfin
      rw [if_neg hfin]
      simp only [Except.ok.injEq] at h
      refine ⟨h.symm, ?_⟩
      simp only [State.record, Bool.not_eq_true', Bool.not_eq_false] at hfin ⊢
      split <;> exact hfin

/-- Lines 94-136 never create the final path themselves on a failing path: it is absent
afterwards if it was absent before and a failing compressor leaves none. -/
theorem finish_error_final (conn : IDBConnection) (m_config : Config)
    (compressor : Option Compressor) (tmp fin : List Char) (s : State) (e : Error)
    (hne : tmp ≠ fin) (hfin : s.fs fin = false)
    (hcomp : ∀ c, compressor = some c → (c.compressFile tmp fin s.fs).1 = false →
      (c.compressFile tmp fin s.fs).2 fin = false)
    (h : (backup.finish conn m_config compressor tmp fin s).1 = .error e) :
    (backup.finish conn m_config compressor tmp fin s).2.fs fin = false := by
  unfold backup.finish at h ⊢
  split at h
  · rename_i e' s' heq
    simp only [heq]
    rw [removeTemp_fs_other _ _ _ (Ne.symm hne)]
    unfold backup.publish at heq
    split at heq
    · rename_i c
      dsimp only at heq
      split at heq
      · rename_i hfail
        simp only [Prod.mk.injEq] at heq
        rw [← heq.2]
        simp only [State.step]
        exact hcomp c rfl (by simpa using hfail)
      · simp at heq
    · split at heq
      · simp at heq
      · simp only [Prod.mk.injEq] at heq
        rw [← heq.2]
        simpa [State.record] using hfin
  · rename_i heq
    simp only [heq]
    dsimp only at h ⊢
    split at h
    · rename_i hno
      rw [if_pos hno]
      simpa [State.record] using hno
    · simp at h

theorem createConnection_block_yields (w : World) (m_config : Config) :
    Yields (createConnection.block w m_config)
      (fun conn => conn = w.createDBConnection m_config.database) := by
  unfold createConnection.block
  repeat' first
    | exact yields_pure rfl
    | (apply yields_bind; intro _ _)
    | (apply yields_ite <;> intro _)

theorem createConnection_some {rethrows : Bool} {w : World} {m_config : Config}
    {conn : IDBConnection}
    (h : createConnection rethrows w m_config = .returned (some conn)) :
    w.createDBConnection m_config.database = some conn := by
  have hy := createConnection_block_yields w m_config
  unfold Yields at hy
  unfold createConnection DB_TRY_CATCH_LOG at h
  cases hb : createConnection.block w m_config with
  | ok a =>
    rw [hb] at h
    simp only [Outcome.returned.injEq] at h
    rw [← hy a hb, h]
  | error e =>
    rw [hb] at h
    cases rethrows <;> simp at h

/-- Lines 44-92 leave the final path absent if it was absent and neither the directory
creation nor the dump creates it. -/
theorem prepare_fs_final (rethrows : Bool) (w : World) (m_config : Config)
    (backupType : List Char) (s : State) (fin : List Char)
    (hne : tempPath w m_config backupType ≠ fin) (hfin : s.fs fin = false)
    (hmk : ∀ fs, fs fin = false →
      (w.create_directories m_config.storage.localPath fs).2 fin = false)
    (hdump : ∀ conn : IDBConnection, w.createDBConnection m_config.database = some conn →
      ∀ fs : FileSystem, fs fin = false →
        (conn.createBackup (tempPath w m_config backupType) fs).2 fin = false) :
    (backup.prepare rethrows w m_config backupType s).2.fs fin = false := by
  have hrm : ∀ s' : State, s'.fs fin = false →
      (backup.removeTemp (tempPath w m_config backupType) s').fs fin = false := by
    intro s' h
    rw [removeTemp_fs_other _ _ _ (Ne.symm hne)]
    exact h
  unfold backup.prepare
  dsimp only
  repeat' split
  all_goals simp only [State.record, State.step, DB_THROW]
  all_goals
    first
    | exact hfin
    | exact hmk _ hfin
    | exact hdump _ (createConnection_some ‹_›) _ (hrm _ (hmk _ hfin))
    | exact hdump _ (createConnection_some ‹_›) _ (hrm _ hfin)

/-- The two ways the guarded block of `backup` runs from a state with no call recorded:
it stops in lines 44-92 with an exception, no dump having succeeded and nothing having
been published, or the dump succeeds and lines 94-136 run. -/
theorem block_cases (rethrows : Bool) (w : World) (m_config : Config)
    (compressor : Option Compressor) (backupType : List Char) (fs : FileSystem) :
    (∃ e s',
      backup.prepare rethrows w m_config backupType ⟨fs, []⟩ = (.error e, s') ∧
      backup.block rethrows w m_config compressor backupType ⟨fs, []⟩ = (.error e, s') ∧
      s'.trace.filter Event.isDump = [] ∧ s'.trace.filter Event.isPublish = []) ∨
    (∃ conn s1,
      backup.prepare rethrows w m_config backupType ⟨fs, []⟩ = (.ok conn, s1) ∧
      backup.block rethrows w m_config compressor backupType ⟨fs, []⟩ =
        backup.finish conn m_config compressor (tempPath w m_config backupType)
          (finalPath w m_config backupType) s1 ∧
      s1.trace.filter Event.isDump =
        [Event.createBackup (tempPath w m_config backupType) true] ∧
      s1.trace.filter Event.isPublish = []) := by
  have hd := prepare_trace_dump rethrows w m_config backupType ⟨fs, []⟩
  have hp := prepare_trace_publish rethrows w m_config backupType ⟨fs, []⟩
  unfold backup.block
  rcases hP : backup.prepare rethrows w m_config backupType ⟨fs, []⟩ with ⟨r, s'⟩
  rw [hP] at hd hp
  cases r with
  | error e => exact Or.inl ⟨e, s', rfl, rfl, by simpa using hd, by simpa using hp⟩
  | ok conn => exact Or.inr ⟨conn, s', rfl, rfl, by simpa using hd, by simpa using hp⟩

theorem staging_path_eq (w : World) (m_config : Config) (backupType : List Char) :
    m_config.storage.localPath ++ "/.tmp_backup_".toList ++ w.timeBuf ++ "_".toList ++
      backupType ++ ".dump".toList = tempPath w m_config backupType := by
  simp [tempPath, backupFileName]

/-- C9. With compression enabled, a run whose dump to the staging path succeeded leaves
no staging file: `<localPath>/.tmp_backup_<timestamp>_<type>.dump` does not exist in
the state in which `backup` returns, whether the compressor then succeeded or failed
and whatever the run reports. The run starts with no call recorded. -/
theorem backup_removes_staging_file (rethrows : Bool) (w : World) (m_config : Config)
    (backupType : List Char) (fs : FileSystem)
    (henabled : m_config.backup.compression.enabled = true)
    (hdump : Event.createBackup
        (m_config.storage.localPath ++ "/.tmp_backup_".toList ++ w.timeBuf ++ "_".toList ++
          backupType ++ ".dump".toList) true ∈
      (backup rethrows w m_config backupType ⟨fs, []⟩).2.trace) :
    (backup rethrows w m_config backupType ⟨fs, []⟩).2.fs
      (m_config.storage.localPath ++ "/.tmp_backup_".toList ++ w.timeBuf ++ "_".toList ++
        backupType ++ ".dump".toList) = false := by
  rw [staging_path_eq] at hdump ⊢
  simp only [backup, henabled, if_true] at hdump ⊢
  rcases block_cases rethrows w m_config (some (w.makeCompressor m_config.backup.compression))
    backupType fs with ⟨e, s', -, hB, hd, -⟩ | ⟨conn, s1, -, hB, -, -⟩
  · rw [hB] at hdump
    have : Event.createBackup (tempPath w m_config backupType) true ∈
        s'.trace.filter Event.isDump := List.mem_filter.2 ⟨hdump, rfl⟩
    rw [hd] at this
    cases this
  · rw [hB]
    exact finish_fs_temp _ _ _ _ _ _

/-- C9, two examples: a full backup with a compressor that succeeds and one with a
compressor that fails; in both the dump succeeded and no staging file is left. -/
theorem backup_removes_staging_file_witness :
    (backup false (exampleWorld workingCompressor) examplePostgresConfig "full".toList
        ⟨fun _ => false, []⟩).2.fs
      ("/tmp/bk".toList ++ "/.tmp_backup_".toList ++ "20240101_120000".toList ++
        "_".toList ++ "full".toList ++ ".dump".toList) = false ∧
    (backup false (exampleWorld failingCompressor) examplePostgresConfig "full".toList
        ⟨fun _ => false, []⟩).2.fs
      ("/tmp/bk".toList ++ "/.tmp_backup_".toList ++ "20240101_120000".toList ++
        "_".toList ++ "full".toList ++ ".dump".toList) = false :=
  ⟨backup_removes_staging_file false (exampleWorld workingCompressor) examplePostgresConfig
      "full".toList (fun _ => false) rfl (by decide),
    backup_removes_staging_file false (exampleWorld failingCompressor) examplePostgresConfig
      "full".toList (fun _ => false) rfl (by decide)⟩

theorem final_path_eq (w : World) (m_config : Config) (backupType : List Char) :
    m_config.storage.localPath ++ "/backup_".toList ++ w.timeBuf ++ "_".toList ++
        backupType ++
        (if m_config.backup.compression.enabled = true then ".dump.gz".toList
          else ".dump".toList) =
      finalPath w m_config backupType := by
  simp [finalPath, backupFileName]

/-- C7, on the code: a run with a dump that succeeded and a compressor that reports
failure ends in an error of kind BackupError, not in a CompressionError, with the
staging file removed. -/
theorem backup_compression_failure_is_BackupError :
    Event.createBackup "/tmp/bk/.tmp_backup_20240101_120000_full.dump".toList true ∈
        (backup false (exampleWorld failingCompressor) examplePostgresConfig "full".toList
          ⟨fun _ => false, []⟩).2.trace ∧
      Event.compressFile "/tmp/bk/.tmp_backup_20240101_120000_full.dump".toList
          "/tmp/bk/backup_20240101_120000_full.dump.gz".toList false ∈
        (backup false (exampleWorld failingCompressor) examplePostgresConfig "full".toList
          ⟨fun _ => false, []⟩).2.trace ∧
      (backup.error false (exampleWorld failingCompressor) examplePostgresConfig
          "full".toList ⟨fun _ => false, []⟩).map Error.kind = some .BackupError ∧
      ¬ ∃ e, backup.error false (exampleWorld failingCompressor) examplePostgresConfig
          "full".toList ⟨fun _ => false, []⟩ = some e ∧ e.kind = .CompressionError := by
  refine ⟨by decide, by decide, by decide, ?_⟩
  rintro ⟨e, he, hk⟩
  have h : (backup.error false (exampleWorld failingCompressor) examplePostgresConfig
      "full".toList ⟨fun _ => false, []⟩).map Error.kind = some .BackupError := by
    decide
  rw [he] at h
  simp only [Option.map_some', Option.some.injEq] at h
  rw [hk] at h
  cases h

/-- C7, as the code has it. Whenever `compressFile(staging, final)` reports failure (so
the dump had succeeded), the staging file is deleted and the error with which the run
fails is of kind BackupError, not CompressionError: the CompressionError of line 100 is
thrown inside the `try` of line 95, whose handler (line 107) catches it, and line 112
throws a BackupError in its place. -/
theorem backup_compression_failure_cleans_up (rethrows : Bool) (w : World)
    (m_config : Config) (backupType : List Char) (fs : FileSystem)
    (hfail : Event.compressFile
        (m_config.storage.localPath ++ "/.tmp_backup_".toList ++ w.timeBuf ++ "_".toList ++
          backupType ++ ".dump".toList)
        (m_config.storage.localPath ++ "/backup_".toList ++ w.timeBuf ++ "_".toList ++
          backupType ++
          (if m_config.backup.compression.enabled = true then ".dump.gz".toList
            else ".dump".toList)) false ∈
      (backup rethrows w m_config backupType ⟨fs, []⟩).2.trace) :
    Event.createBackup
        (m_config.storage.localPath ++ "/.tmp_backup_".toList ++ w.timeBuf ++ "_".toList ++
          backupType ++ ".dump".toList) true ∈
      (backup rethrows w m_config backupType ⟨fs, []⟩).2.trace ∧
    (backup rethrows w m_config backupType ⟨fs, []⟩).2.fs
      (m_config.storage.localPath ++ "/.tmp_backup_".toList ++ w.timeBuf ++ "_".toList ++
        backupType ++ ".dump".toList) = false ∧
    ∃ e, backup.error rethrows w m_config backupType ⟨fs, []⟩ = some e ∧
      e.kind = .BackupError ∧ e.kind ≠ .CompressionError ∧
      (backup rethrows w m_config backupType ⟨fs, []⟩).1 =
        (if rethrows then .threw e else .returned false) := by
  rw [staging_path_eq, final_path_eq] at hfail
  rw [staging_path_eq]
  simp only [backup, backup.error] at hfail ⊢
  generalize (if m_config.backup.compression.enabled = true then
    some (w.makeCompressor m_config.backup.compression) else none) = compressor at hfail ⊢
  rcases block_cases rethrows w m_config compressor backupType fs with
    ⟨e, s', -, hB, -, hp⟩ | ⟨conn, s1, -, hB, hd, hp⟩
  · rw [hB] at hfail
    have : Event.compressFile (tempPath w m_config backupType)
        (finalPath w m_config backupType) false ∈ s'.trace.filter Event.isPublish :=
      List.mem_filter.2 ⟨hfail, rfl⟩
    rw [hp] at this
    cases this
  · rw [hB] at hfail ⊢
    have hmem : Event.compressFile (tempPath w m_config backupType)
        (finalPath w m_config backupType) false ∈
        (backup.finish conn m_config compressor (tempPath w m_config backupType)
          (finalPath w m_config backupType) s1).2.trace.filter Event.isPublish :=
      List.mem_filter.2 ⟨hfail, rfl⟩
    rw [finish_trace_publish, hp, List.nil_append, List.mem_singleton] at hmem
    have hdmem : Event.createBackup (tempPath w m_config backupType) true ∈
        (backup.finish conn m_config compressor (tempPath w m_config backupType)
          (finalPath w m_config backupType) s1).2.trace := by
      have : Event.createBackup (tempPath w m_config backupType) true ∈
          (backup.finish conn m_config compressor (tempPath w m_config backupType)
            (finalPath w m_config backupType) s1).2.trace.filter Event.isDump := by
        rw [finish_trace_dump, hd]
        exact List.mem_singleton.2 rfl
      exact (List.mem_filter.1 this).1
    refine ⟨hdmem, finish_fs_temp _ _ _ _ _ _, ?_⟩
    cases compressor with
    | none => simp [publishEvent] at hmem
    | some c =>
      simp only [publishEvent, Event.compressFile.injEq, true_and] at hmem
      have hf := finish_compress_fail conn m_config c (tempPath w m_config backupType)
        (finalPath w m_config backupType) s1 hmem.symm
      rw [hf]
      refine ⟨_, rfl, rfl, by decide, ?_⟩
      cases rethrows <;> simp [DB_TRY_CATCH_LOG]

/-- C7 as the code has it, an example: the full backup with the failing compressor. -/
theorem backup_compression_failure_cleans_up_witness :
    (backup false (exampleWorld failingCompressor) examplePostgresConfig "full".toList
        ⟨fun _ => false, []⟩).2.fs
      ("/tmp/bk".toList ++ "/.tmp_backup_".toList ++ "20240101_120000".toList ++
        "_".toList ++ "full".toList ++ ".dump".toList) = false ∧
    ∃ e, backup.error false (exampleWorld failingCompressor) examplePostgresConfig
        "full".toList ⟨fun _ => false, []⟩ = some e ∧ e.kind = .BackupError :=
  ⟨(backup_compression_failure_cleans_up false (exampleWorld failingCompressor)
      examplePostgresConfig "full".toList (fun _ => false) (by decide)).2.1,
    (backup_compression_failure_cleans_up false (exampleWorld failingCompressor)
      examplePostgresConfig "full".toList (fun _ => false) (by decide)).2.2.elim
      fun e he => ⟨e, he.1, he.2.1⟩⟩

theorem stagingPathOf_eq (w : World) (m_config : Config) (backupType : List Char) :
    stagingPathOf m_config.storage.localPath w.timeBuf backupType =
      tempPath w m_config backupType := by
  simp [stagingPathOf, tempPath, backupFileName]

theorem finalPathOf_eq (w : World) (m_config : Config) (backupType : List Char) :
    finalPathOf m_config.storage.localPath w.timeBuf backupType
        m_config.backup.compression.enabled =
      finalPath w m_config backupType := by
  simp [finalPathOf, finalPath, backupFileName]

/-- C8, on the code: the compressor of this run fails after writing part of its output
to the final path; the run reports failure and the final path exists when it returns. -/
theorem backup_failure_leaves_partial_final_path :
    (backup false (exampleWorld failingCompressor) examplePostgresConfig "full".toList
        ⟨fun _ => false, []⟩).1 = .returned false ∧
      (backup false (exampleWorld failingCompressor) examplePostgresConfig "full".toList
        ⟨fun _ => false, []⟩).2.fs
        "/tmp/bk/backup_20240101_120000_full.dump.gz".toList = true := by
  decide

/-- C8 as amended. A run that reports success returns with the final path
`<localPath>/backup_<timestamp>_<type>.dump[.gz]` in place. A run that reports failure
returns with the final path absent provided that it was absent before the run and that
neither the directory creation, nor the dump, nor a failing `compressFile` leaves a
file there: `backup` never removes the final path itself. -/
theorem backup_final_path_on_return (rethrows : Bool) (w : World) (m_config : Config)
    (backupType : List Char) (fs : FileSystem) :
    ((backup rethrows w m_config backupType ⟨fs, []⟩).1 = .returned true →
      (backup rethrows w m_config backupType ⟨fs, []⟩).2.fs
        (finalPathOf m_config.storage.localPath w.timeBuf backupType
          m_config.backup.compression.enabled) = true) ∧
    (fs (finalPathOf m_config.storage.localPath w.timeBuf backupType
        m_config.backup.compression.enabled) = false →
      (∀ fs' : FileSystem,
        fs' (finalPathOf m_config.storage.localPath w.timeBuf backupType
          m_config.backup.compression.enabled) = false →
        (w.create_directories m_config.storage.localPath fs').2
          (finalPathOf m_config.storage.localPath w.timeBuf backupType
            m_config.backup.compression.enabled) = false) →
      (∀ conn : IDBConnection, w.createDBConnection m_config.database = some conn →
        ∀ fs' : FileSystem,
        fs' (finalPathOf m_config.storage.localPath w.timeBuf backupType
          m_config.backup.compression.enabled) = false →
        (conn.createBackup
            (stagingPathOf m_config.storage.localPath w.timeBuf backupType) fs').2
          (finalPathOf m_config.storage.localPath w.timeBuf backupType
            m_config.backup.compression.enabled) = false) →
      (∀ fs' : FileSystem,
        fs' (finalPathOf m_config.storage.localPath w.timeBuf backupType
          m_config.backup.compression.enabled) = false →
        ((w.makeCompressor m_config.backup.compression).compressFile
            (stagingPathOf m_config.storage.localPath w.timeBuf backupType)
            (finalPathOf m_config.storage.localPath w.timeBuf backupType
              m_config.backup.compression.enabled) fs').1 = false →
        ((w.makeCompressor m_config.backup.compression).compressFile
            (stagingPathOf m_config.storage.localPath w.timeBuf backupType)
            (finalPathOf m_config.storage.localPath w.timeBuf backupType
              m_config.backup.compression.enabled) fs').2
          (finalPathOf m_config.storage.localPath w.timeBuf backupType
            m_config.backup.compression.enabled) = false) →
      (backup rethrows w m_config backupType ⟨fs, []⟩).1 ≠ .returned true →
      (backup rethrows w m_config backupType ⟨fs, []⟩).2.fs
        (finalPathOf m_config.storage.localPath w.timeBuf backupType
          m_config.backup.compression.enabled) = false) := by
  rw [stagingPathOf_eq, finalPathOf_eq]
  simp only [backup]
  generalize hc : (if m_config.backup.compression.enabled = true then
    some (w.makeCompressor m_config.backup.compression) else none) = compressor
  have hne := tempPath_ne_finalPath w m_config backupType
  constructor
  · intro hok
    rcases block_cases rethrows w m_config compressor backupType fs with
      ⟨e, s', -, hB, -, -⟩ | ⟨conn, s1, -, hB, -, -⟩
    · rw [hB] at hok
      cases rethrows <;> simp [DB_TRY_CATCH_LOG] at hok
    · rw [hB] at hok ⊢
      cases hf : (backup.finish conn m_config compressor (tempPath w m_config backupType)
          (finalPath w m_config backupType) s1).1 with
      | error e =>
        rw [hf] at hok
        cases rethrows <;> simp [DB_TRY_CATCH_LOG] at hok
      | ok b => exact (finish_ok _ _ _ _ _ _ _ hf).2
  · intro hfin hmk hdump hcomp hfail
    rcases block_cases rethrows w m_config compressor backupType fs with
      ⟨e, s', hP, hB, -, -⟩ | ⟨conn, s1, hP, hB, -, -⟩
    · rw [hB]
      have := prepare_fs_final rethrows w m_config backupType ⟨fs, []⟩ _ hne hfin hmk hdump
      rw [hP] at this
      exact this
    · rw [hB] at hfail ⊢
      have h1 := prepare_fs_final rethrows w m_config backupType ⟨fs, []⟩ _ hne hfin hmk
        hdump
      rw [hP] at h1
      cases hf : (backup.finish conn m_config compressor (tempPath w m_config backupType)
          (finalPath w m_config backupType) s1).1 with
      | ok b =>
        rw [hf, (finish_ok _ _ _ _ _ _ _ hf).1] at hfail
        simp [DB_TRY_CATCH_LOG] at hfail
      | error e =>
        refine finish_error_final conn m_config compressor _ _ s1 e hne h1 ?_ hf
        intro c hcc hfalse
        have : c = w.makeCompressor m_config.backup.compression := by
          rw [← hc] at hcc
          split at hcc
          · exact (Option.some.inj hcc).symm
          · cases hcc
        subst this
        exact hcomp _ h1 hfalse

theorem add_of_ne (fs : FileSystem) (path p : List Char) (h : p ≠ path) :
    fs.add path p = fs p := by
  simp [FileSystem.add, h]

/-- C8 as amended, an example: with a compressor that fails and leaves no output, the
run reports failure and the final path is absent when it returns. -/
theorem backup_final_path_on_return_witness :
    (backup false (exampleWorld cleanFailingCompressor) examplePostgresConfig "full".toList
        ⟨fun _ => false, []⟩).1 = .returned false ∧
      (backup false (exampleWorld cleanFailingCompressor) examplePostgresConfig
        "full".toList ⟨fun _ => false, []⟩).2.fs
        (finalPathOf "/tmp/bk".toList "20240101_120000".toList "full".toList true) = false :=
  ⟨by decide,
    (backup_final_path_on_return false (exampleWorld cleanFailingCompressor)
      examplePostgresConfig "full".toList (fun _ => false)).2 rfl
      (fun fs' h => (add_of_ne fs' "/tmp/bk".toList _ (by decide)).trans h)
      (fun conn hconn fs' h => by
        cases hconn
        exact (add_of_ne fs'
          (stagingPathOf "/tmp/bk".toList "20240101_120000".toList "full".toList) _
          (by decide)).trans h)
      (fun _ h _ => h)
      (by decide)⟩

/-- C10. In a run that reports success, of backup type `t` at the time `ts`, the dump
went to the staging path `<localPath>/.tmp_backup_<ts>_<t>.dump`; exactly one call
published a file, and it published the staging file at the final path, which is
`<localPath>/backup_<ts>_<t>.dump` by a move when compression is disabled and
`<localPath>/backup_<ts>_<t>.dump.gz` by a successful compression when it is enabled;
the final path exists and the staging path does not when the run returns; and `t` is
one of the three backup types. The run starts with no call recorded. -/
theorem backup_success_publishes_one_file (rethrows : Bool) (w : World) (m_config : Config)
    (backupType : List Char) (fs : FileSystem)
    (hok : (backup rethrows w m_config backupType ⟨fs, []⟩).1 = .returned true) :
    Event.createBackup (stagingPathOf m_config.storage.localPath w.timeBuf backupType) true ∈
      (backup rethrows w m_config backupType ⟨fs, []⟩).2.trace ∧
    (backup rethrows w m_config backupType ⟨fs, []⟩).2.trace.filter Event.isPublish =
      [if m_config.backup.compression.enabled = true then
        Event.compressFile (stagingPathOf m_config.storage.localPath w.timeBuf backupType)
          (finalPathOf m_config.storage.localPath w.timeBuf backupType true) true
      else
        Event.rename (stagingPathOf m_config.storage.localPath w.timeBuf backupType)
          (finalPathOf m_config.storage.localPath w.timeBuf backupType false)] ∧
    (backup rethrows w m_config backupType ⟨fs, []⟩).2.fs
      (finalPathOf m_config.storage.localPath w.timeBuf backupType
        m_config.backup.compression.enabled) = true ∧
    (backup rethrows w m_config backupType ⟨fs, []⟩).2.fs
      (stagingPathOf m_config.storage.localPath w.timeBuf backupType) = false ∧
    (backupType = "full".toList ∨ backupType = "incremental".toList ∨
      backupType = "differential".toList) := by
  have hfinal := finalPathOf_eq w m_config backupType
  rw [stagingPathOf_eq]
  simp only [backup] at hok ⊢
  rcases block_cases rethrows w m_config
      (if m_config.backup.compression.enabled = true then
        some (w.makeCompressor m_config.backup.compression) else none) backupType fs with
    ⟨e, s', -, hB, -, -⟩ | ⟨conn, s1, hP, hB, hd, hp⟩
  · rw [hB] at hok
    cases rethrows <;> simp [DB_TRY_CATCH_LOG] at hok
  · rw [hB] at hok ⊢
    cases hf : (backup.finish conn m_config
        (if m_config.backup.compression.enabled = true then
          some (w.makeCompressor m_config.backup.compression) else none)
        (tempPath w m_config backupType) (finalPath w m_config backupType) s1).1 with
    | error e =>
      rw [hf] at hok
      cases rethrows <;> simp [DB_TRY_CATCH_LOG] at hok
    | ok b =>
      refine ⟨?_, ?_, ?_, finish_fs_temp _ _ _ _ _ _, ?_⟩
      · have : Event.createBackup (tempPath w m_config backupType) true ∈
            (backup.finish conn m_config
              (if m_config.backup.compression.enabled = true then
                some (w.makeCompressor m_config.backup.compression) else none)
              (tempPath w m_config backupType) (finalPath w m_config backupType)
              s1).2.trace.filter Event.isDump := by
          rw [finish_trace_dump, hd]
          exact List.mem_singleton.2 rfl
        exact (List.mem_filter.1 this).1
      · rw [finish_trace_publish, hp, List.nil_append]
        by_cases hen : m_config.backup.compression.enabled = true
        · simp only [hen, if_true] at hf hfinal ⊢
          rw [hfinal]
          simp only [publishEvent, List.cons.injEq, Event.compressFile.injEq, true_and,
            and_true]
          cases hc : ((w.makeCompressor m_config.backup.compression).compressFile
              (tempPath w m_config backupType) (finalPath w m_config backupType) s1.fs).1 with
          | true => rfl
          | false =>
            rw [finish_compress_fail conn m_config _ _ _ s1 hc] at hf
            cases hf
        · have hen' : m_config.backup.compression.enabled = false := by
            simpa using hen
          simp only [hen', Bool.false_eq_true, if_false] at hfinal ⊢
          rw [hfinal]
          rfl
      · rw [hfinal]
        exact (finish_ok _ _ _ _ _ _ _ hf).2
      · unfold backup.prepare at hP
        split at hP
        · simp [DB_THROW] at hP
        · split at hP
          · simp [DB_THROW] at hP
          · rename_i hv
            simp only [Bool.not_eq_true', Bool.not_eq_false, Bool.or_eq_true,
              beq_iff_eq] at hv
            tauto

/-- C10, two examples: a full backup with compression disabled, published by a move at
`.dump`, and one with compression enabled, published by compression at `.dump.gz`. -/
theorem backup_success_publishes_one_file_witness :
    (backup false (exampleWorld workingCompressor) examplePlainConfig "full".toList
        ⟨fun _ => false, []⟩).2.trace.filter Event.isPublish =
      [Event.rename "/tmp/bk/.tmp_backup_20240101_120000_full.dump".toList
        "/tmp/bk/backup_20240101_120000_full.dump".toList] ∧
    (backup false (exampleWorld workingCompressor) examplePostgresConfig "full".toList
        ⟨fun _ => false, []⟩).2.trace.filter Event.isPublish =
      [Event.compressFile "/tmp/bk/.tmp_backup_20240101_120000_full.dump".toList
        "/tmp/bk/backup_20240101_120000_full.dump.gz".toList true] :=
  ⟨(backup_success_publishes_one_file false (exampleWorld workingCompressor)
      examplePlainConfig "full".toList (fun _ => false) (by decide)).2.1,
    (backup_success_publishes_one_file false (exampleWorld workingCompressor)
      examplePostgresConfig "full".toList (fun _ => false) (by decide)).2.1⟩

/-! ## `BackupManager::restore` -/

theorem find_eq_some_iff {str : List Char} :
    ∀ {s : List Char} {n : Nat}, basic_string.find s str = some n ↔
      n ≤ s.length ∧ str <+: s.drop n ∧ ∀ m < n, ¬ str <+: s.drop m := by
  intro s
  induction s with
  | nil =>
    intro n
    unfold basic_string.find
    by_cases h : str.isPrefixOf [] = true
    · rw [if_pos h]
      have h0 := List.isPrefixOf_iff_prefix.1 h
      constructor
      · intro e
        cases e
        exact ⟨le_refl _, by simpa using h0, fun m hm => absurd hm (Nat.not_lt_zero m)⟩
      · rintro ⟨hn, -, -⟩
        have : n = 0 := by simpa using hn
        rw [this]
    · rw [if_neg h]
      constructor
      · intro e; cases e
      · rintro ⟨-, hp, -⟩
        exact absurd (List.isPrefixOf_iff_prefix.2 (by simpa using hp)) h
  | cons c rest ih =>
    intro n
    unfold basic_string.find
    by_cases h : str.isPrefixOf (c :: rest) = true
    · rw [if_pos h]
      have h0 := List.isPrefixOf_iff_prefix.1 h
      constructor
      · intro e
        cases e
        exact ⟨Nat.zero_le _, by simpa using h0, fun m hm => absurd hm (Nat.not_lt_zero m)⟩
      · rintro ⟨-, -, hmin⟩
        cases n with
        | zero => rfl
        | succ k => exact absurd (by simpa using h0) (hmin 0 (Nat.succ_pos k))
    · rw [if_neg h]
      have h0 : ¬ str <+: c :: rest := fun hp => h (List.isPrefixOf_iff_prefix.2 hp)
      cases n with
      | zero =>
        constructor
        · intro e
          cases hf : basic_string.find rest str <;> simp [hf] at e
        · rintro ⟨-, hp, -⟩
          exact absurd (by simpa using hp) h0
      | succ k =>
        constructor
        · intro e
          have hk : basic_string.find rest str = some k := by
            cases hf : basic_string.find rest str <;> simp [hf] at e
            rw [e]
          obtain ⟨h1, h2, h3⟩ := ih.1 hk
          refine ⟨by simpa using h1, by simpa using h2, fun m hm => ?_⟩
          cases m with
          | zero => simpa using h0
          | succ j => simpa using h3 j (by omega)
        · rintro ⟨h1, h2, h3⟩
          have hk : basic_string.find rest str = some k :=
            ih.2 ⟨by simpa using h1, by simpa using h2,
              fun m hm => by simpa using h3 (m + 1) (by omega)⟩
          simp [hk]

theorem find_of_prefix_at {str : List Char} :
    ∀ {s : List Char} {m : Nat}, m ≤ s.length → str <+: s.drop m →
      ∃ n, n ≤ m ∧ basic_string.find s str = some n := by
  intro s m
  induction m using Nat.strong_induction_on with
  | _ m ih =>
    intro hm hp
    by_cases hex : ∃ k, k < m ∧ str <+: s.drop k
    · obtain ⟨k, hk, hpk⟩ := hex
      obtain ⟨n, hn, hf⟩ := ih k hk (by omega) hpk
      exact ⟨n, by omega, hf⟩
    · exact ⟨m, le_refl _, find_eq_some_iff.2 ⟨hm, hp, fun k hk hpk => hex ⟨k, hk, hpk⟩⟩⟩

theorem find_ne_none_iff_infix {s str : List Char} :
    basic_string.find s str ≠ none ↔ str <:+: s := by
  constructor
  · intro h
    cases hf : basic_string.find s str with
    | none => exact absurd hf h
    | some n =>
      obtain ⟨-, hp, -⟩ := find_eq_some_iff.1 hf
      exact List.infix_iff_prefix_suffix.2 ⟨_, hp, List.drop_suffix n s⟩
  · rintro ⟨a, b, rfl⟩
    have hp : str <+: (a ++ str ++ b).drop a.length := by
      rw [List.append_assoc, List.drop_left]
      exact List.prefix_append _ _
    obtain ⟨n, -, hf⟩ := find_of_prefix_at (by simp) hp
    rw [hf]
    exact Option.some_ne_none n

theorem restore_prepare_eq {rethrows : Bool} {w : World} {m_config : Config}
    {backupPath : List Char} {s : State} {conn : IDBConnection}
    (hpath : backupPath ≠ []) (hexists : s.fs backupPath = true)
    (hconn : createConnection rethrows w m_config = .returned (some conn))
    (hconnect : conn.connect m_config.database = true) :
    restore.prepare rethrows w m_config backupPath s =
      (.ok conn, { fs := s.fs, trace := s.trace ++
        [.fs_exists backupPath true, .createConnection, .connect true] }) := by
  unfold restore.prepare
  have he : backupPath.isEmpty = false := by
    cases backupPath with
    | nil => exact absurd rfl hpath
    | cons _ _ => rfl
  simp [he, hexists, hconn, hconnect, State.record]

theorem restore_finish_trace (conn : IDBConnection) (backupPath restorePath : List Char)
    (s : State) :
    (restore.finish conn backupPath restorePath s).2.trace =
      s.trace ++ .restoreBackup restorePath (conn.restoreBackup restorePath s.fs) ::
        (if conn.restoreBackup restorePath s.fs = true then
          (if restorePath ≠ backupPath then [Event.remove restorePath] else []) ++
            [.disconnect conn.disconnect,
              .sendNotificationIfNeeded ("Restore succeeded from: ".toList ++ backupPath)]
        else []) := by
  unfold restore.finish
  by_cases hr : conn.restoreBackup restorePath s.fs = true
  · by_cases hne : restorePath = backupPath
    · subst hne
      simp [hr, State.record, State.step]
    · simp [hr, hne, State.record, State.step]
  · simp [hr, State.record, State.step]

theorem restore_trace_plain {rethrows : Bool} {w : World} {m_config : Config}
    {backupPath : List Char} {s : State} {conn : IDBConnection}
    (hpath : backupPath ≠ []) (hexists : s.fs backupPath = true)
    (hconn : createConnection rethrows w m_config = .returned (some conn))
    (hconnect : conn.connect m_config.database = true)
    (hplain : ¬ (m_config.backup.compression.enabled = true ∧
      basic_string.find backupPath
        (w.makeCompressor m_config.backup.compression).getFileExtension ≠ none)) :
    (restore rethrows w m_config backupPath s).2.trace =
      s.trace ++ [.fs_exists backupPath true, .createConnection, .connect true] ++
        .restoreBackup backupPath (conn.restoreBackup backupPath s.fs) ::
          (if conn.restoreBackup backupPath s.fs = true then
            [.disconnect conn.disconnect,
              .sendNotificationIfNeeded ("Restore succeeded from: ".toList ++ backupPath)]
          else []) := by
  have hd : restore.decompress
      (if m_config.backup.compression.enabled = true then
        some (w.makeCompressor m_config.backup.compression) else none) backupPath
      { fs := s.fs, trace := s.trace ++
        [.fs_exists backupPath true, .createConnection, .connect true] } =
      (.ok backupPath, { fs := s.fs, trace := s.trace ++
        [.fs_exists backupPath true, .createConnection, .connect true] }) := by
    unfold restore.decompress
    by_cases hen : m_config.backup.compression.enabled = true
    · have hf : basic_string.find backupPath
          (w.makeCompressor m_config.backup.compression).getFileExtension = none := by
        by_contra hne
        exact hplain ⟨hen, hne⟩
      simp [hen, hf]
    · simp [hen]
  unfold restore restore.block
  simp only [restore_prepare_eq hpath hexists hconn hconnect, hd, restore_finish_trace]
  simp

theorem restore_trace_decompress {rethrows : Bool} {w : World} {m_config : Config}
    {backupPath : List Char} {s : State} {conn : IDBConnection} {extPos : Nat}
    (hpath : backupPath ≠ []) (hexists : s.fs backupPath = true)
    (hconn : createConnection rethrows w m_config = .returned (some conn))
    (hconnect : conn.connect m_config.database = true)
    (henabled : m_config.backup.compression.enabled = true)
    (hfind : basic_string.find backupPath
      (w.makeCompressor m_config.backup.compression).getFileExtension = some extPos) :
    (restore rethrows w m_config backupPath s).2.trace =
      s.trace ++ [.fs_exists backupPath true, .createConnection, .connect true] ++
        .decompressFile backupPath (basic_string.substr backupPath 0 extPos)
            ((w.makeCompressor m_config.backup.compression).decompressFile backupPath
              (basic_string.substr backupPath 0 extPos) s.fs).1 ::
          (if ((w.makeCompressor m_config.backup.compression).decompressFile backupPath
              (basic_string.substr backupPath 0 extPos) s.fs).1 = true then
            .restoreBackup (basic_string.substr backupPath 0 extPos)
                (conn.restoreBackup (basic_string.substr backupPath 0 extPos)
                  ((w.makeCompressor m_config.backup.compression).decompressFile backupPath
                    (basic_string.substr backupPath 0 extPos) s.fs).2) ::
              (if conn.restoreBackup (basic_string.substr backupPath 0 extPos)
                  ((w.makeCompressor m_config.backup.compression).decompressFile backupPath
                    (basic_string.substr backupPath 0 extPos) s.fs).2 = true then
                [.remove (basic_string.substr backupPath 0 extPos),
                  .disconnect conn.disconnect,
                  .sendNotificationIfNeeded
                    ("Restore succeeded from: ".toList ++ backupPath)]
              else [])
          else []) := by
  have hlen : extPos + (w.makeCompressor m_config.backup.compression).getFileExtension.length
      ≤ backupPath.length := by
    obtain ⟨h1, h2, -⟩ := find_eq_some_iff.1 hfind
    have := h2.length_le
    simp only [List.length_drop] at this
    omega
  have hne : basic_string.substr backupPath 0 extPos ≠ backupPath := by
    intro h
    have hl := congrArg List.length h
    have hpos : 0 < backupPath.length := List.length_pos.2 hpath
    unfold basic_string.substr at hl
    simp only [List.drop_zero, List.length_take] at hl
    have h0 : basic_string.substr backupPath 0 extPos = [] ∨ 0 < extPos := by
      cases extPos with
      | zero => left; simp [basic_string.substr]
      | succ k => right; omega
    rcases h0 with h0 | h0
    · rw [h0] at h
      exact hpath h.symm
    · obtain ⟨-, -, hmin⟩ := find_eq_some_iff.1 hfind
      have hnil : (w.makeCompressor m_config.backup.compression).getFileExtension = [] :=
        List.length_eq_zero.1 (by omega)
      exact hmin 0 h0 (by rw [hnil]; exact List.nil_prefix)
  unfold restore restore.block
  rw [restore_prepare_eq hpath hexists hconn hconnect]
  simp only [henabled, if_true]
  unfold restore.decompress
  simp only [hfind]
  by_cases hd : ((w.makeCompressor m_config.backup.compression).decompressFile backupPath
      (basic_string.substr backupPath 0 extPos) s.fs).1 = true
  · simp [hd, State.step, restore_finish_trace, hne]
  · simp [hd, State.step, DB_THROW]

/-- C11, as the code has it. For a backup path that is not empty and exists, and a
connection that is made: `restore` calls `decompressFile` if and only if compression is
enabled and the compressor's file extension occurs somewhere in `backupPath`, at its end
or before it (`find` searches the whole path). Then the decompression of `backupPath`
is the first call behind `connect`, in front of every `restoreBackup`, and the only
decompression; a path that ends with the extension is such a path. Otherwise no
decompression happens and the call behind `connect` is `restoreBackup` on `backupPath`
itself. -/
theorem restore_decompresses_iff_extension_occurs (rethrows : Bool) (w : World)
    (m_config : Config) (backupPath : List Char) (s : State) (conn : IDBConnection)
    (hpath : backupPath ≠ []) (hexists : s.fs backupPath = true)
    (hconn : createConnection rethrows w m_config = .returned (some conn))
    (hconnect : conn.connect m_config.database = true) :
    ∃ calls,
      (restore rethrows w m_config backupPath s).2.trace =
        s.trace ++ [.fs_exists backupPath true, .createConnection, .connect true] ++
          calls ∧
      ((∃ e ∈ calls, e.isDecompress = true) ↔
        (m_config.backup.compression.enabled = true ∧
          (w.makeCompressor m_config.backup.compression).getFileExtension <:+:
            backupPath)) ∧
      (m_config.backup.compression.enabled = true →
        (w.makeCompressor m_config.backup.compression).getFileExtension <:+: backupPath →
        ∃ uncompressedPath result rest,
          calls = .decompressFile backupPath uncompressedPath result :: rest ∧
          ∀ e ∈ rest, e.isDecompress = false) ∧
      (m_config.backup.compression.enabled = true →
        (w.makeCompressor m_config.backup.compression).getFileExtension <:+ backupPath →
        ∃ e ∈ calls, e.isDecompress = true) ∧
      (¬ (m_config.backup.compression.enabled = true ∧
          (w.makeCompressor m_config.backup.compression).getFileExtension <:+:
            backupPath) →
        ∃ result rest, calls = .restoreBackup backupPath result :: rest) := by
  by_cases hc : m_config.backup.compression.enabled = true ∧
      basic_string.find backupPath
        (w.makeCompressor m_config.backup.compression).getFileExtension ≠ none
  · obtain ⟨hen, hf⟩ := hc
    have hin := find_ne_none_iff_infix.1 hf
    cases hfind : basic_string.find backupPath
        (w.makeCompressor m_config.backup.compression).getFileExtension with
    | none => exact absurd hfind hf
    | some extPos =>
      have ht := restore_trace_decompress hpath hexists hconn hconnect hen hfind
      refine ⟨_, ht, ?_, ?_, ?_, ?_⟩
      · exact ⟨fun _ => ⟨hen, hin⟩, fun _ => ⟨_, List.mem_cons_self _ _, rfl⟩⟩
      · intro _ _
        refine ⟨_, _, _, rfl, ?_⟩
        intro e he
        split at he
        · simp only [List.mem_cons] at he
          rcases he with rfl | he
          · rfl
          · split at he
            · simp only [List.mem_cons, List.mem_singleton, List.not_mem_nil,
                or_false] at he
              rcases he with rfl | rfl | rfl <;> rfl
            · cases he
        · cases he
      · exact fun _ _ => ⟨_, List.mem_cons_self _ _, rfl⟩
      · exact fun hn => absurd ⟨hen, hin⟩ hn
  · have ht := restore_trace_plain hpath hexists hconn hconnect hc
    have hc' : ¬ (m_config.backup.compression.enabled = true ∧
        (w.makeCompressor m_config.backup.compression).getFileExtension <:+:
          backupPath) :=
      fun h => hc ⟨h.1, find_ne_none_iff_infix.2 h.2⟩
    have hnone : ∀ e ∈ Event.restoreBackup backupPath (conn.restoreBackup backupPath s.fs) ::
        (if conn.restoreBackup backupPath s.fs = true then
          [Event.disconnect conn.disconnect,
            Event.sendNotificationIfNeeded ("Restore succeeded from: ".toList ++ backupPath)]
        else []), e.isDecompress = false := by
      intro e he
      simp only [List.mem_cons] at he
      rcases he with rfl | he
      · rfl
      · split at he
        · simp only [List.mem_cons, List.mem_singleton, List.not_mem_nil, or_false] at he
          rcases he with rfl | rfl <;> rfl
        · cases he
    refine ⟨_, ht, ?_, ?_, ?_, ?_⟩
    · constructor
      · rintro ⟨e, he, hd⟩
        rw [hnone e he] at hd
        cases hd
      · exact fun h => absurd h hc'
    · exact fun hen hin => absurd ⟨hen, hin⟩ hc'
    · exact fun hen hsuf => absurd ⟨hen, hsuf.isInfix⟩ hc'
    · exact fun _ => ⟨_, _, rfl⟩

/-- C11, an example: with compression enabled, the restore of `/data/backup.dump.gz`
decompresses it first. -/
theorem restore_decompresses_iff_extension_occurs_witness :
    ∃ calls,
      (restore true (exampleWorld workingCompressor) examplePostgresConfig
          "/data/backup.dump.gz".toList (State.holding "/data/backup.dump.gz".toList)).2.trace =
        [.fs_exists "/data/backup.dump.gz".toList true, .createConnection, .connect true] ++
          calls ∧
      ∃ e ∈ calls, e.isDecompress = true :=
  have h := restore_decompresses_iff_extension_occurs true (exampleWorld workingCompressor)
    examplePostgresConfig "/data/backup.dump.gz".toList
    (State.holding "/data/backup.dump.gz".toList) exampleConnection
    (by decide) (by decide) rfl (by decide)
  h.elim fun calls hc => ⟨calls, hc.1, hc.2.2.2.1 (by decide) (by decide)⟩

/-- C11, a path that does not end with the extension and is decompressed all the same:
with compression enabled and the extension `.gz`, the restore of the existing file
`/data.gz.d/backup.dump` calls `decompressFile` with the target `/data`, restores from
`/data` and removes `/data`: `restoreBackup` is never called on the path itself. -/
theorem restore_decompresses_path_not_ending_with_extension :
    examplePostgresConfig.backup.compression.enabled = true ∧
    workingCompressor.getFileExtension = ".gz".toList ∧
    ¬ ".gz".toList <:+ "/data.gz.d/backup.dump".toList ∧
    (restore true (exampleWorld workingCompressor) examplePostgresConfig
        "/data.gz.d/backup.dump".toList
        (State.holding "/data.gz.d/backup.dump".toList)).2.trace =
      [.fs_exists "/data.gz.d/backup.dump".toList true, .createConnection, .connect true,
        .decompressFile "/data.gz.d/backup.dump".toList "/data".toList true,
        .restoreBackup "/data".toList true, .remove "/data".toList, .disconnect true,
        .sendNotificationIfNeeded
          "Restore succeeded from: /data.gz.d/backup.dump".toList] ∧
    (restore true (exampleWorld workingCompressor) examplePostgresConfig
        "/data.gz.d/backup.dump".toList
        (State.holding "/data.gz.d/backup.dump".toList)).1 = .returned true := by
  decide

/-- C12, as the code has it. For an existing backup path `p ++ ext` (`ext` the
compressor's file extension), compression enabled and a connection that is made: the
decompression target, the path passed to `restoreBackup` and the file removed afterwards
are all `backupPath` cut at the FIRST occurrence of `ext` in it (`find` answers the
position `extPos` of that occurrence, which is at most the length of `p`). They are `p`
exactly when `ext` does not occur in `backupPath` in front of its trailing occurrence;
when it does, for instance inside `p`, they are a proper prefix of `p`. -/
theorem restore_strips_from_first_occurrence (rethrows : Bool) (w : World)
    (m_config : Config) (backupPath : List Char) (s : State) (conn : IDBConnection)
    (p : List Char)
    (hpath : backupPath ≠ []) (hexists : s.fs backupPath = true)
    (hconn : createConnection rethrows w m_config = .returned (some conn))
    (hconnect : conn.connect m_config.database = true)
    (henabled : m_config.backup.compression.enabled = true)
    (hp : backupPath = p ++ (w.makeCompressor m_config.backup.compression).getFileExtension) :
    ∃ extPos,
      basic_string.find backupPath
        (w.makeCompressor m_config.backup.compression).getFileExtension = some extPos ∧
      extPos ≤ p.length ∧
      (backupPath.take extPos = p ↔ extPos = p.length) ∧
      (extPos = p.length ↔ ∀ m < p.length,
        ¬ (w.makeCompressor m_config.backup.compression).getFileExtension <+:
          backupPath.drop m) ∧
      (restore rethrows w m_config backupPath s).2.trace =
        s.trace ++ [.fs_exists backupPath true, .createConnection, .connect true] ++
          .decompressFile backupPath (backupPath.take extPos)
              ((w.makeCompressor m_config.backup.compression).decompressFile backupPath
                (backupPath.take extPos) s.fs).1 ::
            (if ((w.makeCompressor m_config.backup.compression).decompressFile backupPath
                (backupPath.take extPos) s.fs).1 = true then
              .restoreBackup (backupPath.take extPos)
                  (conn.restoreBackup (backupPath.take extPos)
                    ((w.makeCompressor m_config.backup.compression).decompressFile
                      backupPath (backupPath.take extPos) s.fs).2) ::
                (if conn.restoreBackup (backupPath.take extPos)
                    ((w.makeCompressor m_config.backup.compression).decompressFile
                      backupPath (backupPath.take extPos) s.fs).2 = true then
                  [.remove (backupPath.take extPos), .disconnect conn.disconnect,
                    .sendNotificationIfNeeded
                      ("Restore succeeded from: ".toList ++ backupPath)]
                else [])
            else []) := by
  have hpre : (w.makeCompressor m_config.backup.compression).getFileExtension <+:
      backupPath.drop p.length := by
    rw [hp, List.drop_left]
  have hle : p.length ≤ backupPath.length := by
    rw [hp, List.length_append]
    omega
  obtain ⟨extPos, hpos, hfind⟩ := find_of_prefix_at hle hpre
  obtain ⟨-, -, hmin⟩ := find_eq_some_iff.1 hfind
  refine ⟨extPos, hfind, hpos, ?_, ?_,
    restore_trace_decompress hpath hexists hconn hconnect henabled hfind⟩
  · constructor
    · intro h
      have hl := congrArg List.length h
      simp only [List.length_take] at hl
      omega
    · intro h
      rw [h, hp, List.take_left]
  · constructor
    · intro h m hm
      exact hmin m (by omega)
    · intro h
      by_contra hne
      exact h extPos (by omega) (find_eq_some_iff.1 hfind).2.1

/-- C12, an example: the restore of `/data/backup.dump.gz` decompresses to
`/data/backup.dump`, restores from it and removes it. -/
theorem restore_strips_from_first_occurrence_witness :
    (restore true (exampleWorld workingCompressor) examplePostgresConfig
        "/data/backup.dump.gz".toList (State.holding "/data/backup.dump.gz".toList)).2.trace =
      [.fs_exists "/data/backup.dump.gz".toList true, .createConnection, .connect true,
        .decompressFile "/data/backup.dump.gz".toList "/data/backup.dump".toList true,
        .restoreBackup "/data/backup.dump".toList true, .remove "/data/backup.dump".toList,
        .disconnect true,
        .sendNotificationIfNeeded "Restore succeeded from: /data/backup.dump.gz".toList] :=
  have h := restore_strips_from_first_occurrence true (exampleWorld workingCompressor)
    examplePostgresConfig "/data/backup.dump.gz".toList
    (State.holding "/data/backup.dump.gz".toList) exampleConnection
    "/data/backup.dump".toList (by decide) (by decide) rfl (by decide) (by decide)
    (by decide)
  h.elim fun extPos hc => by
    have h17 : extPos = 17 := by
      have := hc.1
      have h0 : basic_string.find "/data/backup.dump.gz".toList
          ((exampleWorld workingCompressor).makeCompressor
            examplePostgresConfig.backup.compression).getFileExtension = some 17 := by
        decide
      rw [h0] at this
      exact (Option.some.inj this).symm
    subst h17
    exact hc.2.2.2.2

/-- C12, a path `p ++ ext` whose `p` contains the extension: with the extension `.gz`
and `p` the path `/data.gz.d/backup.dump`, the restore of `/data.gz.d/backup.dump.gz`
decompresses to `/data`, restores from `/data` and removes `/data`, none of which is
`p`. -/
theorem restore_strips_inside_directory_name :
    workingCompressor.getFileExtension = ".gz".toList ∧
    "/data.gz.d/backup.dump.gz".toList = "/data.gz.d/backup.dump".toList ++ ".gz".toList ∧
    "/data".toList ≠ "/data.gz.d/backup.dump".toList ∧
    (restore true (exampleWorld workingCompressor) examplePostgresConfig
        "/data.gz.d/backup.dump.gz".toList
        (State.holding "/data.gz.d/backup.dump.gz".toList)).2.trace =
      [.fs_exists "/data.gz.d/backup.dump.gz".toList true, .createConnection,
        .connect true,
        .decompressFile "/data.gz.d/backup.dump.gz".toList "/data".toList true,
        .restoreBackup "/data".toList true, .remove "/data".toList, .disconnect true,
        .sendNotificationIfNeeded
          "Restore succeeded from: /data.gz.d/backup.dump.gz".toList] := by
  decide

/-! ## The password key of `Config::fromFile` -/

theorem getString_eq_ok {j : Json} {a : List Char} : j.getString = .ok a ↔ j = .string a := by
  cases j <;> simp [Json.getString]

theorem credentials_passwordKey (env : Env) (dbConfig : Json) (config : Config) :
    Yields (fromFile.credentials env dbConfig config) (fun c =>
      c.database.type = config.database.type ∧
      (¬ (dbConfig.contains "credentials".toList = true ∧
          (dbConfig.get "credentials".toList).contains "passwordKey".toList = true) →
        c.database.credentials.passwordKey =
          "hegemon.".toList ++ c.database.type ++ ".".toList ++
            c.database.credentials.username ++ ".password".toList) ∧
      (dbConfig.contains "credentials".toList = true →
        (dbConfig.get "credentials".toList).contains "passwordKey".toList = true →
        (dbConfig.get "credentials".toList).get "passwordKey".toList =
          .string c.database.credentials.passwordKey) ∧
      (dbConfig.contains "credentials".toList = true →
        (dbConfig.get "credentials".toList).contains "username".toList = true →
        ∃ u, (dbConfig.get "credentials".toList).get "username".toList = .string u ∧
          substituteEnvVars env u true = .ok c.database.credentials.username) ∧
      (dbConfig.contains "credentials".toList = false →
        dbConfig.contains "username".toList = true →
        ∃ u, dbConfig.get "username".toList = .string u ∧
          substituteEnvVars env u true = .ok c.database.credentials.username) ∧
      ((if dbConfig.contains "credentials".toList = true then
          (dbConfig.get "credentials".toList).contains "username".toList
        else dbConfig.contains "username".toList) = false →
        c.database.credentials.username = config.database.credentials.username)) := by
  unfold Yields
  intro c h
  unfold fromFile.credentials at h
  generalize "credentials".toList = kc at h ⊢
  generalize "username".toList = ku at h ⊢
  generalize "passwordKey".toList = kp at h ⊢
  generalize "preferredSources".toList = ks at h ⊢
  generalize "hegemon.".toList = s1 at h ⊢
  generalize ".".toList = s2 at h ⊢
  generalize ".password".toList = s3 at h ⊢
  by_cases hc : dbConfig.contains kc = true
  · by_cases hk : (dbConfig.get kc).contains kp = true <;>
    by_cases hu : (dbConfig.get kc).contains ku = true <;>
    by_cases hs : (dbConfig.get kc).contains ks = true <;>
    simp only [hc, hk, hu, hs, if_true, if_false, bind_eq_ok, pure_eq_ok, getString_eq_ok,
      true_and, exists_const, Bool.false_eq_true] at h <;>
    aesop
  · by_cases hu : dbConfig.contains ku = true <;>
    simp only [hc, hu, if_true, if_false, bind_eq_ok, pure_eq_ok, getString_eq_ok,
      true_and, exists_const, Bool.false_eq_true] at h <;>
    aesop

/-- C13. For every configuration that `Config::fromFile` loads, with `dbConfig` its
`database` section and `credConfig` the `credentials` block of that section: when no
`credentials.passwordKey` is given (there is no `credentials` block, or the block has no
`passwordKey`), `database.credentials.passwordKey` is `hegemon.` ++ `database.type` ++
`.` ++ `database.credentials.username` ++ `.password`; when it is given, it is that
string, as written. `database.credentials.username` is the substituted
`credentials.username` when there is a `credentials` block (with that key), otherwise
the substituted root-level `username` (when that key is there), and in the remaining
cases the value of a default-constructed `Config`. -/
theorem fromFile_passwordKey_default_or_verbatim (env : Env) (init : Config)
    (configPath : List Char) (configJson : Json) (config : Config)
    (hload : fromFile true env init configPath (.parsed configJson) = .returned config) :
    (¬ ((configJson.get "database".toList).contains "credentials".toList = true ∧
        ((configJson.get "database".toList).get "credentials".toList).contains
          "passwordKey".toList = true) →
      config.database.credentials.passwordKey =
        "hegemon.".toList ++ config.database.type ++ ".".toList ++
          config.database.credentials.username ++ ".password".toList) ∧
    ((configJson.get "database".toList).contains "credentials".toList = true →
      ((configJson.get "database".toList).get "credentials".toList).contains
        "passwordKey".toList = true →
      ((configJson.get "database".toList).get "credentials".toList).get
        "passwordKey".toList = .string config.database.credentials.passwordKey) ∧
    ((configJson.get "database".toList).contains "credentials".toList = true →
      ((configJson.get "database".toList).get "credentials".toList).contains
        "username".toList = true →
      ∃ u, ((configJson.get "database".toList).get "credentials".toList).get
          "username".toList = .string u ∧
        substituteEnvVars env u true = .ok config.database.credentials.username) ∧
    ((configJson.get "database".toList).contains "credentials".toList = false →
      (configJson.get "database".toList).contains "username".toList = true →
      ∃ u, (configJson.get "database".toList).get "username".toList = .string u ∧
        substituteEnvVars env u true = .ok config.database.credentials.username) ∧
    ((if (configJson.get "database".toList).contains "credentials".toList = true then
        ((configJson.get "database".toList).get "credentials".toList).contains
          "username".toList
      else (configJson.get "database".toList).contains "username".toList) = false →
      config.database.credentials.username = init.database.credentials.username) := by
  unfold fromFile DB_TRY_CATCH_LOG at hload
  split at hload
  · rename_i c hb
    cases hload
    simp only [fromFile.block, bind_eq_ok, exists_const, pure_eq_ok] at hb
    obtain ⟨c1, h1, c2, h2, c3, h3, c4, h4, c5, h5, c6, h6, -, -, rfl⟩ := hb
    have e1 := by
      have := database_frame env configJson init; unfold Yields at this; exact this c1 h1
    have e2 := by
      have := credentials_passwordKey env (configJson.get "database".toList) c1
      unfold Yields at this; exact this c2 h2
    have e3 := by have := storage_frame configJson c2; unfold Yields at this; exact this c3 h3
    have e4 := by
      have := logging_frame env configJson c3; unfold Yields at this; exact this c4 h4
    have e5 := by have := backup_frame configJson c4; unfold Yields at this; exact this c5 h5
    have e6 := by
      have := security_frame env configJson c5; unfold Yields at this; exact this c6 h6
    simp only at e1 e2 e3 e4 e5 e6
    have e : c6.database = c2.database := by rw [e6, e5, e4, e3]
    rw [e]
    obtain ⟨-, k1, k2, k3, k4, k5⟩ := e2
    refine ⟨k1, k2, k3, k4, fun h => ?_⟩
    rw [k5 h, e1]
  · simp at hload

theorem exampleCredentialsUser_loads :
    fromFile true envDbUser Config.default [] (.parsed exampleCredentialsUser) =
      .returned exampleCredentialsUserConfig := by
  unfold fromFile fromFile.block fromFile.database fromFile.credentials fromFile.logging
    fromFile.security
  simp only [substituteEnvVars_eq_substituteSpec]
  decide

theorem exampleRootUser_loads :
    fromFile true envDbUser Config.default [] (.parsed exampleRootUser) =
      .returned exampleRootUserConfig := by
  unfold fromFile fromFile.block fromFile.database fromFile.credentials fromFile.logging
    fromFile.security
  simp only [substituteEnvVars_eq_substituteSpec]
  decide

/-- C13, three examples, with `DB_USER=alice`: a `credentials` block with the username
`${DB_USER}` and no `passwordKey` (beside a root-level username `root`), no
`credentials` block and the root-level username `${DB_USER}`, both of which load with
the key `hegemon.postgres.alice.password`; and a `credentials` block with the
`passwordKey` `k`, which loads with the key `k`. -/
theorem fromFile_passwordKey_default_or_verbatim_witness :
    (fromFile true envDbUser Config.default [] (.parsed exampleCredentialsUser) =
        .returned exampleCredentialsUserConfig ∧
      exampleCredentialsUserConfig.database.credentials.passwordKey =
        "hegemon.".toList ++ "postgres".toList ++ ".".toList ++ "alice".toList ++
          ".password".toList ∧
      substituteEnvVars envDbUser "${DB_USER}".toList true =
        .ok exampleCredentialsUserConfig.database.credentials.username) ∧
    (fromFile true envDbUser Config.default [] (.parsed exampleRootUser) =
        .returned exampleRootUserConfig ∧
      exampleRootUserConfig.database.credentials.passwordKey =
        "hegemon.".toList ++ "postgres".toList ++ ".".toList ++ "alice".toList ++
          ".password".toList) ∧
    (fromFile true (fun _ => none) Config.default [] (.parsed examplePostgres) =
        .returned examplePostgresConfig ∧
      Json.string examplePostgresConfig.database.credentials.passwordKey =
        Json.mkStr "k") :=
  ⟨⟨exampleCredentialsUser_loads,
      (fromFile_passwordKey_default_or_verbatim envDbUser Config.default []
        exampleCredentialsUser exampleCredentialsUserConfig
        exampleCredentialsUser_loads).1 (by decide),
      ((fromFile_passwordKey_default_or_verbatim envDbUser Config.default []
        exampleCredentialsUser exampleCredentialsUserConfig
        exampleCredentialsUser_loads).2.2.1 (by decide) (by decide)).elim
        fun u hu => by
          have hu1 : u = "${DB_USER}".toList := by
            have := hu.1
            exact Json.string.inj (this.symm.trans rfl)
          rw [← hu1]
          exact hu.2⟩,
    ⟨exampleRootUser_loads,
      (fromFile_passwordKey_default_or_verbatim envDbUser Config.default []
        exampleRootUser exampleRootUserConfig exampleRootUser_loads).1 (by decide)⟩,
    ⟨by decide,
      ((fromFile_passwordKey_default_or_verbatim (fun _ => none) Config.default []
        examplePostgres examplePostgresConfig (by decide)).2.1 (by decide)
        (by decide)).symm.trans rfl⟩⟩

/-! ## Termination of `substituteEnvVars` -/

theorem loop_of_regexSearch_none (env : Env) (required : Bool) (capacity : Nat)
    {pre suf : List Char} (hr : regexSearch suf = none) :
    substituteEnvVars.loop env required capacity (pre ++ suf) pre.length =
      .ok (pre ++ suf) := by
  rw [substituteEnvVars.loop]
  split
  · rfl
  · rename_i hr2
    rw [List.drop_left, hr] at hr2
    cases hr2

theorem loop_of_regexSearch_some (env : Env) (required : Bool) (capacity : Nat)
    {pre suf : List Char} {pos len : Nat} {name : List Char}
    (hr : regexSearch suf = some (pos, len, name)) :
    substituteEnvVars.loop env required capacity (pre ++ suf) pre.length =
      if (env name).isNone && required then
        DB_THROW .ConfigurationError ("Environment variable not set: ".toList ++ name)
      else if capacity < ((pre ++ suf).take (pre.length + pos) ++ (env name).getD [] ++
          (pre ++ suf).drop (pre.length + pos + len)).length then
        .error invalidatedIterator
      else
        substituteEnvVars.loop env required capacity
          ((pre ++ suf).take (pre.length + pos) ++ (env name).getD [] ++
            (pre ++ suf).drop (pre.length + pos + len))
          (pre.length + pos + ((env name).getD []).length) := by
  rw [substituteEnvVars.loop]
  split
  · rename_i hr2
    rw [List.drop_left, hr] at hr2
    cases hr2
  · rename_i pos2 len2 name2 hr2
    rw [List.drop_left, hr] at hr2
    simp only [Option.some.injEq, Prod.mk.injEq] at hr2
    obtain ⟨rfl, rfl, rfl⟩ := hr2
    rfl

/-- The counted loop ends within as many searches as the text behind `searchStart` has
placeholders, and one more; it ends in what the loop ends in, after at most one
replacement for each placeholder, and, when every replacement keeps the string within
the capacity, after one replacement for each placeholder in front of the first that is
unset and required. -/
theorem run_eq_loop (env : Env) (required : Bool) (capacity : Nat) :
    ∀ (fuel : Nat) (pre suf : List Char) (count : Nat),
      (placeholders suf).length < fuel →
      ∃ k, k ≤ (placeholders suf).length ∧
        substituteEnvVars.run env required capacity fuel (pre ++ suf) pre.length count =
          some (substituteEnvVars.loop env required capacity (pre ++ suf) pre.length,
            count + k) ∧
        (staysWithin env required capacity (pre.length + suf.length) (pieces suf) = true →
          k = ((placeholders suf).takeWhile
            (fun name => !((env name).isNone && required))).length) := by
  intro fuel
  induction fuel with
  | zero => intro pre suf count h; omega
  | succ fuel ih =>
    intro pre suf count hfuel
    rw [substituteEnvVars.run]
    simp only [List.drop_left]
    cases hr : regexSearch suf with
    | none =>
      refine ⟨0, Nat.zero_le _, ?_, fun _ => ?_⟩
      · simp [loop_of_regexSearch_none env required capacity hr]
      · simp [placeholders_of_regexSearch_none hr]
    | some t =>
      obtain ⟨pos, len, name⟩ := t
      have hph := placeholders_of_regexSearch_some hr
      have hb := regexSearch_bound hr
      have hlen := regexSearch_length hr
      rw [loop_of_regexSearch_some env required capacity hr]
      by_cases hreq : ((env name).isNone && required) = true
      · have hn : (!((env name).isNone && required)) = false := by rw [hreq]; rfl
        refine ⟨0, Nat.zero_le _, ?_, fun _ => ?_⟩
        · simp only [hreq, if_true, Nat.add_zero]
        · rw [hph, List.takeWhile_cons_of_neg (by rw [hn]; decide)]
          rfl
      · have hp : (!((env name).isNone && required)) = true := by
          cases h : ((env name).isNone && required)
          · rfl
          · exact absurd h hreq
        have e1 : (pre ++ suf).take (pre.length + pos) = pre ++ suf.take pos := by
          rw [List.take_append]
        have e2 : (pre ++ suf).drop (pre.length + pos + len) = suf.drop (pos + len) := by
          rw [Nat.add_assoc, List.drop_append]
        have e3 : pre.length + pos + ((env name).getD []).length =
            (pre ++ suf.take pos ++ (env name).getD []).length := by
          simp only [List.length_append, List.length_take]
          omega
        have e4 : (pre ++ suf.take pos ++ (env name).getD [] ++ suf.drop (pos + len)).length =
            pre.length + suf.length + ((env name).getD []).length - (name.length + 3) := by
          simp only [List.length_append, List.length_take, List.length_drop]
          omega
        have e5 : (pre ++ suf.take pos ++ (env name).getD []).length +
            (suf.drop (pos + len)).length =
            pre.length + suf.length + ((env name).getD []).length - (name.length + 3) := by
          rw [← e4]
          simp only [List.length_append]
        have hpc : staysWithin env required capacity (pre.length + suf.length) (pieces suf) =
            (decide (pre.length + suf.length + ((env name).getD []).length -
                (name.length + 3) ≤ capacity) &&
              staysWithin env required capacity
                (pre.length + suf.length + ((env name).getD []).length - (name.length + 3))
                (pieces (suf.drop (pos + len)))) := by
          rw [pieces_of_regexSearch_some hr, staysWithin_text_append]
          simp only [staysWithin, hreq, if_false, Bool.false_eq_true]
        simp only [hreq, e1, e2, e3, e4, if_false, Bool.false_eq_true]
        by_cases hcap : capacity <
            pre.length + suf.length + ((env name).getD []).length - (name.length + 3)
        · refine ⟨1, by rw [hph]; simp, ?_, fun hs => ?_⟩
          · simp only [hcap, if_true]
          · rw [hpc] at hs
            simp only [Bool.and_eq_true, decide_eq_true_eq] at hs
            omega
        · obtain ⟨k, hk, hrun, hcount⟩ :=
            ih (pre ++ suf.take pos ++ (env name).getD []) (suf.drop (pos + len))
              (count + 1)
              (by rw [hph] at hfuel; simp only [List.length_cons] at hfuel; omega)
          refine ⟨k + 1, by rw [hph]; simpa using hk, ?_, fun hs => ?_⟩
          · simp only [hcap, if_false]
            rw [hrun]
            simp only [Option.some.injEq, Prod.mk.injEq, true_and]
            omega
          · rw [hpc] at hs
            simp only [Bool.and_eq_true, decide_eq_true_eq] at hs
            rw [e5] at hcount
            rw [hcount hs.2, hph,
              @List.takeWhile_cons_of_pos _ (fun name => !((env name).isNone && required))
                name _ hp, List.length_cons]

theorem pieces_placeholder_head {name rest : List Char} (hname : isIdentifier name = true) :
    pieces ('$' :: '{' :: (name ++ '}' :: rest)) = Piece.placeholder name :: pieces rest := by
  cases name with
  | nil => simp [isIdentifier] at hname
  | cons c n =>
    simp only [isIdentifier, Bool.and_eq_true, List.all_eq_true] at hname
    have hp : placeholderAt ('$' :: '{' :: (c :: n ++ '}' :: rest)) = some (c :: n) :=
      placeholderAt_eq_some_iff.2 ⟨c, n, rest, rfl, hname.1, hname.2, rfl⟩
    simp only [pieces, piecesFrom, hp]
    rw [piecesFrom_skip]
    have hd : List.drop (c :: n).length (n ++ '}' :: rest) = rest := by
      have e : n ++ '}' :: rest = (n ++ ['}']) ++ rest := by simp
      have hl : (c :: n).length = (n ++ ['}']).length := by simp
      rw [e, hl, List.drop_left]
    exact congrArg (fun t => Piece.placeholder (c :: n) :: piecesFrom 0 t) hd

/-- C14, as the code has it. The loop of `Config::substituteEnvVars`, counted, ends on
every value, in every environment and for both values of `required` within as many
searches as the value has (leftmost, non-overlapping) placeholders and one more, after
at most one replacement for each of them. As long as every replacement leaves the
string within the capacity of the copy of the value, it ends in a defined way: the
replacements made are those of the placeholders of the value in front of the first one
that is unset and required; a call that returns a result has made exactly one
replacement for each placeholder of the ORIGINAL value, and its result is the value
with each of these replaced by the environment's text as it is, so that a placeholder
inside an inserted text is not searched again and a value that opens with `${NAME}`
gives the text of NAME, whatever it contains, followed by the expansion of the rest.
When a replacement makes the string outgrow that capacity, the loop ends in the use of
an invalidated iterator (line 33): where the next search starts, and whether the call
ends, is then not defined. -/
theorem substituteEnvVars_terminates_without_rescanning (env : Env) (value : List Char)
    (required : Bool) :
    (∀ fuel, (placeholders value).length < fuel →
      ∃ count, count ≤ (placeholders value).length ∧
        substituteEnvVars.run env required (basic_string.capacity value) fuel value 0 0 =
          some (substituteEnvVars env value required, count) ∧
        (replacesInPlace env value required = true →
          count = ((placeholders value).takeWhile
            (fun name => !((env name).isNone && required))).length)) ∧
    (replacesInPlace env value required = true →
      (∀ result, substituteEnvVars env value required = .ok result →
        ((placeholders value).takeWhile
          (fun name => !((env name).isNone && required))).length =
            (placeholders value).length ∧
        result = expand env value) ∧
      (required = false → substituteEnvVars env value required = .ok (expand env value))) ∧
    (replacesInPlace env value required = false →
      substituteEnvVars env value required = .error invalidatedIterator) ∧
    (∀ name inserted rest, isIdentifier name = true → env name = some inserted →
      value = '$' :: '{' :: (name ++ '}' :: rest) →
      expand env value = inserted ++ expand env rest ∧
      placeholders value = name :: placeholders rest) := by
  refine ⟨fun fuel hfuel => ?_, fun hfit => ⟨fun result hres => ?_, fun hreq => ?_⟩,
    fun hfit => ?_, fun name inserted rest hname hset hvalue => ?_⟩
  · obtain ⟨k, hk, hrun, hcount⟩ :=
      run_eq_loop env required (basic_string.capacity value) fuel [] value 0 hfuel
    refine ⟨k, hk, ?_, fun hfit => ?_⟩
    · simpa [substituteEnvVars] using hrun
    · apply hcount
      simpa [replacesInPlace] using hfit
  · rw [substituteEnvVars_eq_substituteSpec, if_pos hfit, substituteSpec] at hres
    split at hres
    · cases hres
    · rename_i hnone
      cases hres
      refine ⟨?_, rfl⟩
      congr 1
      rw [List.takeWhile_eq_self_iff]
      intro name hmem
      cases required with
      | false => simp
      | true =>
        simp only [if_true, firstUnset, List.find?_eq_none] at hnone
        have := hnone name hmem
        cases hv : env name with
        | none => simp [hv] at this
        | some v => rfl
  · subst hreq
    rw [substituteEnvVars_eq_substituteSpec, if_pos hfit]
    rfl
  · rw [substituteEnvVars_eq_substituteSpec, hfit]
    rfl
  · subst hvalue
    constructor
    · simp [expand, pieces_placeholder_head hname, List.flatMap_cons, Piece.replaced, hset]
    · simp [placeholders, pieces_placeholder_head hname, List.filterMap_cons]

/-- C14, the examples of environments that refer to themselves. With `A=${A}` the value
`x${A}y` becomes `x${A}y` in one replacement; with `A=${B}` and `B=${A}` the value
`${A}${B}` becomes `${B}${A}` in two replacements, within three searches. -/
theorem substituteEnvVars_terminates_without_rescanning_witness :
    substituteEnvVars.run envSelf true (basic_string.capacity "x${A}y".toList) 2
        "x${A}y".toList 0 0 =
      some (.ok "x${A}y".toList, 1) ∧
    substituteEnvVars envSelf "x${A}y".toList true = .ok "x${A}y".toList ∧
    substituteEnvVars.run envCycle false (basic_string.capacity "${A}${B}".toList) 3
        "${A}${B}".toList 0 0 =
      some (.ok "${B}${A}".toList, 2) ∧
    substituteEnvVars envCycle "${A}${B}".toList false = .ok "${B}${A}".toList :=
  have h1 : substituteEnvVars envSelf "x${A}y".toList true = .ok "x${A}y".toList :=
    (substituteEnvVars_eq_substituteSpec _ _ _).trans (by decide)
  have h2 : substituteEnvVars envCycle "${A}${B}".toList false = .ok "${B}${A}".toList :=
    (substituteEnvVars_eq_substituteSpec _ _ _).trans (by decide)
  ⟨((substituteEnvVars_terminates_without_rescanning envSelf "x${A}y".toList true).1 2
      (by decide)).elim fun count hc => by
        rw [hc.2.1, hc.2.2 (by decide), h1]
        decide,
    h1,
    ((substituteEnvVars_terminates_without_rescanning envCycle "${A}${B}".toList false).1 3
      (by decide)).elim fun count hc => by
        rw [hc.2.1, hc.2.2 (by decide), h2]
        decide,
    h2⟩

/-- C14, an environment that refers to itself and on which the code has no defined
result: with `A=${A}/${A}/${A}/${A}` the replacement in `${A}` makes a string of 19
characters in a copy of capacity 15, so the string moves and line 33 computes the next
start of the search from the invalidated iterator. -/
theorem substituteEnvVars_self_reference_outgrows_capacity :
    basic_string.capacity "${A}".toList = 15 ∧
    (envLongSelf "A".toList).map List.length = some 19 ∧
    substituteEnvVars.run envLongSelf false (basic_string.capacity "${A}".toList) 2
        "${A}".toList 0 0 =
      some (.error invalidatedIterator, 1) ∧
    substituteEnvVars envLongSelf "${A}".toList false = .error invalidatedIterator :=
  ⟨by decide, by decide, by decide,
    (substituteEnvVars_eq_substituteSpec _ _ _).trans (by decide)⟩

end dbbackup
